import Mathlib

/-!
# Movement and collision engine of the 3D maze game (`src/3d/3d.js`)

A shallow embedding of the `Game` class: the kinematic state (`gridPosition`,
`motion`, `gridDirection`, `isTapping`, `won`), the wall test `isWall`, the
per-frame `updatePosition` with `move` / `stopIfShould`, the hyper-dimensional
`hyperMove` with its delayed callback, and `start`.

Numbers: `motion.offset`, the frame time `delta` and the view direction are exact
rationals; grid coordinates and extents are integers. The JavaScript numbers are doubles:
`moveDouble` is `move` again with every sum rounded to the nearest double, and shows
where the rounding tells the two apart.

The maze topology (`Maze`, `NDimArray` of `../maze.js`) is not part of the file: the
extents `walls.size` and the lookup `walls.walls[dim].getElement(pos)` are fields of
`MultiMazeWalls`, left arbitrary.

Arrays are lists; an entry is read with `getD` and written with `set`, which is what the
JavaScript does for an index inside the array. `start` makes `gridPosition` as long as
`size`, and the statements below that depend on an index being inside carry that as a
hypothesis or derive it from the invariant of the reachable states.

The functions return the new state together with the list of `Event`s of the call.
-/

namespace Maze3D

/-- The two fields of `MultiMazeWalls` that `Game` reads: `size` (`maze.lengths`) and
`walls` (`maze.walls()`); `walls d pos` stands for `this.walls[d].getElement(pos)`. -/
structure MultiMazeWalls where
  size : List Int
  walls : Nat → List Int → Bool

/-- The field `gridDirection`. `dim = none` is the `undefined` that `updateDirection`
stores when no component of the view direction is non-zero. -/
structure GridDirection where
  dim : Option Nat
  sign : Int

/-- The field `motion`. `dim = none` is the initial `null` (no axis locked yet). -/
structure Motion where
  offset : ℚ
  dim : Option Nat
  isStopped : Bool

/-- The fields of `Game` that the movement engine reads or writes. `timeouts` holds the
pending `setTimeout` callbacks of `hyperMove`, oldest first, each with the
`gridPosition` copy it captured. -/
structure Game where
  isTapping : Bool
  dimensions : Nat
  gridDirection : GridDirection
  gridPosition : List Int
  motion : Motion
  walls : MultiMazeWalls
  started : Bool
  won : Bool
  timeouts : List (List Int)

/-- What one animation frame reads from outside the engine: `clock.getDelta()`, whether
the space key is down, and `controls.getDirection` as the array `[x, y, z]`. -/
structure Frame where
  delta : ℚ
  isSpaceDown : Bool
  direction : List ℚ

/-- Observable effects, in order. `exit`, `enter` are the calls `this.exit()`,
`this.enter()`; `win` is the body of the win branch of `updatePosition`. `stop` and
`cross` are ghost marks: `stop` when the condition of `stopIfShould` holds, and
`cross c dim sign` when a wrap loop of `move` changes `gridPosition[dim]` by `sign`,
`c` being `gridPosition` just before the change. -/
inductive Event where
  | exit
  | enter
  | win
  | stop
  | cross (c : List Int) (dim : Option Nat) (sign : Int)
  deriving DecidableEq

/-- The value of `settings.moveSpeed`. -/
def moveSpeed : ℚ := 3

/-- The function `Math.sign` on rationals. -/
def jsSign (q : ℚ) : ℚ :=
  if 0 < q then 1 else if q < 0 then -1 else 0

/-- The function `Math.sign` on integers. -/
def jsSignInt (z : Int) : Int :=
  if 0 < z then 1 else if z < 0 then -1 else 0

/-- The update `pos[dim] += d` of one entry of an array, for an index inside it. -/
def addAt (pos : List Int) (dim : Nat) (d : Int) : List Int :=
  pos.set dim (pos.getD dim 0 + d)

/-- The update `this.gridPosition[this.motion.dim] += d`; with `motion.dim` null no
numeric entry of the array changes. -/
def addAtDim (pos : List Int) (dim : Option Nat) (d : Int) : List Int :=
  match dim with
  | some k => addAt pos k d
  | none => pos

/-- The field initialisers of `class Game` (`walls` and `gridPosition` are still
undefined there: an empty maze and an empty array stand for them). -/
def Game.initial : Game where
  isTapping := false
  dimensions := 0
  gridDirection := { dim := none, sign := 0 }
  gridPosition := []
  motion := { offset := 0, dim := none, isStopped := false }
  walls := { size := [], walls := fun _ _ => false }
  started := false
  won := false
  timeouts := []

/-- Method `Game.isWall({ sign, dim })` for a numeric `dim` (lines 428-436). -/
def isWall (g : Game) (sign : Int) (dim : Nat) : Bool :=
  if dim ≥ g.dimensions then true
  else
    let pos := if sign < 0 then addAt g.gridPosition dim (-1) else g.gridPosition
    (pos.getD dim 0 == -1 || pos.getD dim 0 == g.walls.size.getD dim 0 - 1)
      || g.walls.walls dim pos

/-- The loop of `Game.updateDirection` (lines 259-265): the pair
`(highestDir, highestSize)`. -/
def highest (arr : List ℚ) : Option Nat × ℚ :=
  (List.range 3).foldl
    (fun (acc : Option Nat × ℚ) i =>
      if |arr.getD i 0| > |acc.2| then (some i, arr.getD i 0) else acc)
    (none, 0)

/-- Method `Game.updateDirection` (lines 256-268); the `sign` is `Math.sign(highestSize)`. -/
def updateDirection (direction : List ℚ) (g : Game) : Game :=
  { g with gridDirection :=
      { dim := (highest direction).1
        sign := if 0 < (highest direction).2 then 1
                else if (highest direction).2 < 0 then -1 else 0 } }

/-- The condition of `Game.stopIfShould` (lines 420-422). `motion.dim` is null or a
number and `gridDirection.dim` is undefined or a number, so `!==` is true unless both
are the same number, and `isWall` is reached with a number only. -/
def shouldStop (distance : ℚ) (g : Game) : Bool :=
  match g.motion.dim, g.gridDirection.dim with
  | some a, some b =>
      a != b || g.isTapping ||
        isWall g (if 0 < distance then 1 else if distance < 0 then -1 else 0) a
  | _, _ => true

/-- Method `Game.stopIfShould` (lines 419-426). -/
def stopIfShould (distance : ℚ) (g : Game) : Game × List Event :=
  if shouldStop distance g then
    ({ g with motion := { g.motion with offset := 0 }, isTapping := false }, [Event.stop])
  else (g, [])

/-- The wrap of the first loop of `Game.move` (lines 404-405). -/
def stepDown (g : Game) : Game :=
  { g with
    motion := { g.motion with offset := g.motion.offset + 4 }
    gridPosition := addAtDim g.gridPosition g.motion.dim (-1) }

/-- The wrap of the second loop of `Game.move` (lines 411-412). -/
def stepUp (g : Game) : Game :=
  { g with
    motion := { g.motion with offset := g.motion.offset - 4 }
    gridPosition := addAtDim g.gridPosition g.motion.dim 1 }

/-- One pass through the body of the first wrap loop of `Game.move` (lines 404-408). -/
def wrapDownOnce (distance : ℚ) (g : Game) : Game × List Event :=
  let g1 : Game := stepDown g
  let r := if g1.motion.offset < 0 then stopIfShould distance g1 else (g1, [])
  (r.1, Event.cross g.gridPosition g.motion.dim (-1) :: r.2)

/-- The first wrap loop of `Game.move` (lines 403-409). -/
def wrapDown (distance : ℚ) (g : Game) : Game × List Event :=
  if g.motion.offset < -2 then
    let r := wrapDownOnce distance g
    let r2 := wrapDown distance r.1
    (r2.1, r.2 ++ r2.2)
  else (g, [])
termination_by (⌈-g.motion.offset⌉).toNat
decreasing_by
  rename_i h
  have h3 : (3 : Int) ≤ ⌈-g.motion.offset⌉ := by
    have : ((2 : Int) : ℚ) < -g.motion.offset := by push_cast; linarith
    have := Int.lt_ceil.mpr this
    omega
  have h4 : ⌈-(g.motion.offset + 4)⌉ = ⌈-g.motion.offset⌉ - 4 := by
    rw [neg_add, ← sub_eq_add_neg]
    exact_mod_cast Int.ceil_sub_nat (-g.motion.offset) 4
  simp only [wrapDownOnce, stepDown, stopIfShould]
  split_ifs
  · simp; linarith
  · simp only [h4]; omega
  · simp only [h4]; omega

/-- One pass through the body of the second wrap loop of `Game.move` (lines 411-415). -/
def wrapUpOnce (distance : ℚ) (g : Game) : Game × List Event :=
  let g1 : Game := stepUp g
  let r := if 0 < g1.motion.offset then stopIfShould distance g1 else (g1, [])
  (r.1, Event.cross g.gridPosition g.motion.dim 1 :: r.2)

/-- The second wrap loop of `Game.move` (lines 410-416). -/
def wrapUp (distance : ℚ) (g : Game) : Game × List Event :=
  if 2 < g.motion.offset then
    let r := wrapUpOnce distance g
    let r2 := wrapUp distance r.1
    (r2.1, r.2 ++ r2.2)
  else (g, [])
termination_by (⌈g.motion.offset⌉).toNat
decreasing_by
  rename_i h
  have h3 : (3 : Int) ≤ ⌈g.motion.offset⌉ := by
    have : ((2 : Int) : ℚ) < g.motion.offset := by push_cast; linarith
    have := Int.lt_ceil.mpr this
    omega
  have h4 : ⌈g.motion.offset - 4⌉ = ⌈g.motion.offset⌉ - 4 := by
    exact_mod_cast Int.ceil_sub_nat g.motion.offset 4
  simp only [wrapUpOnce, stepUp, stopIfShould]
  split_ifs
  · simp; linarith
  · simp only [h4]; omega
  · simp only [h4]; omega

/-- The statement `this.motion.offset += distance` of `Game.move` (line 397). -/
def addOffset (distance : ℚ) (g : Game) : Game :=
  { g with motion := { g.motion with offset := g.motion.offset + distance } }

/-- Method `Game.move(distance)` (lines 387-417), with exact sums. -/
def move (distance : ℚ) (g : Game) : Game × List Event :=
  let e1 : List Event :=
    if |g.motion.offset| ≤ 1 ∧ |g.motion.offset + distance| > 1 then [Event.exit] else []
  let e2 : List Event :=
    if |g.motion.offset| > 1 ∧ |g.motion.offset + distance| ≤ 1 then [Event.enter] else []
  let before := jsSign g.motion.offset
  let g1 : Game := addOffset distance g
  let r1 := if before * jsSign g1.motion.offset = -1 then stopIfShould distance g1 else (g1, [])
  let r2 := wrapDown distance r1.1
  let r3 := wrapUp distance r2.1
  (r3.1, e1 ++ e2 ++ r1.2 ++ r2.2 ++ r3.2)

/-- The test `this.gridDirection.dim === this.motion.dim` (line 297): `undefined` and
`null` are different values, so it holds only for two equal numbers. -/
def sameDim (a b : Option Nat) : Bool :=
  match a, b with
  | some x, some y => x == y
  | _, _ => false

/-- The branch of `Game.updatePosition` that calls `move` (lines 297-301). -/
def advance (f : Frame) (g : Game) : Game × List Event :=
  if sameDim g.gridDirection.dim g.motion.dim then
    move ((g.gridDirection.sign : ℚ) * f.delta * moveSpeed) g
  else
    move (-jsSign g.motion.offset * f.delta * moveSpeed) g

/-- The test of the win branch of `Game.updatePosition` (lines 310-311), without
`!this.won`. -/
def atGoal (g : Game) : Bool :=
  (List.range g.gridPosition.length).all
    (fun index => g.walls.size[index]? == some (g.gridPosition.getD index 0 + 1))

/-- The win branch of `Game.updatePosition` (lines 310-318). -/
def checkWin (g : Game) : Game × List Event :=
  if !g.won && atGoal g then ({ g with won := true }, [Event.win]) else (g, [])

/-- The statement `this.motion.dim = this.gridDirection.dim` of `Game.updatePosition`
(line 294), `d` being the number in `gridDirection.dim`. -/
def lockDim (d : Nat) (g : Game) : Game :=
  { g with motion := { g.motion with dim := some d } }

/-- The end of `Game.updatePosition` (lines 304-318): the win branch, run on the state
and after the events that the movement part left. -/
def finish (r : Game × List Event) : Game × List Event :=
  ((checkWin r.1).1, r.2 ++ (checkWin r.1).2)

/-- Method `Game.updatePosition(onlyIfMoving)` (lines 278-319). The result is `none` when the
call throws: with `motion.offset === 0` and `gridDirection.dim` undefined, `isWall()`
reaches `this.walls.walls[undefined].getElement`, a `TypeError`. -/
def updatePosition (onlyIfMoving : Bool) (f : Frame) (g : Game) :
    Option (Game × List Event) :=
  if onlyIfMoving then
    if !f.isSpaceDown && !g.isTapping then some (g, [])
    else
      let g1 := updateDirection f.direction g
      if g1.motion.offset = 0 then
        match g1.gridDirection.dim with
        | none => none
        | some d =>
          if isWall g1 g1.gridDirection.sign d then some (g1, [])
          else some (finish (advance f (lockDim d g1)))
      else some (finish (advance f g1))
  else some (finish (g, []))

/-- The test of `Game.hyperMove` (lines 342-344). -/
def hyperMoveAccepted (sign : Int) (dim : Nat) (g : Game) : Bool :=
  decide (3 ≤ dim) && decide (dim < g.dimensions) && decide (|g.motion.offset| < 1) &&
    !isWall g sign dim

/-- Method `Game.hyperMove(sign, dim)` up to the `setTimeout` call (lines 341-362): an accepted
request calls `exit` and queues its callback together with the copy of `gridPosition`
it has changed. -/
def hyperMove (sign : Int) (dim : Nat) (g : Game) : Game × List Event :=
  if hyperMoveAccepted sign dim g then
    let gridPosition := addAt g.gridPosition dim (jsSignInt sign)
    ({ g with timeouts := g.timeouts ++ [gridPosition] }, [Event.exit])
  else (g, [])

/-- The two assignments of the `hyperMove` callback (lines 355-356):
`this.gridPosition = gridPosition; this.motion.offset = 0`. -/
def swapTo (gridPosition : List Int) (g : Game) : Game :=
  { g with gridPosition := gridPosition, motion := { g.motion with offset := 0 } }

/-- The callback that `Game.hyperMove` hands to `setTimeout` (lines 353-360), run with
the captured array `gridPosition`. -/
def hyperMoveCallback (gridPosition : List Int) (f : Frame) (g : Game) :
    Option (Game × List Event) :=
  let g1 : Game := swapTo gridPosition g
  (updatePosition false f g1).map (fun r => (r.1, Event.enter :: r.2))

/-- The oldest pending callback of `hyperMove` runs; `none` when nothing is pending. -/
def runTimeout (f : Frame) (g : Game) : Option (Game × List Event) :=
  match g.timeouts with
  | [] => none
  | gridPosition :: rest => hyperMoveCallback gridPosition f { g with timeouts := rest }

/-- Method `Game.start()` (lines 104-143) with `size` the floored input values and `maze` the
`MultiMazeWalls` it builds from `new Maze(...size)`. -/
def start (size : List Int) (maze : MultiMazeWalls) (g : Game) : Game :=
  if !size.all (fun a => decide (a > 0)) then g
  else
    let g1 : Game := { g with dimensions := size.length }
    let g2 : Game := if g1.started then { g1 with won := false } else { g1 with started := true }
    { g2 with gridPosition := List.replicate g2.dimensions 0, walls := maze }

/-- The `touchend` handler that recognises a tap (lines 223-225). -/
def tap (g : Game) : Game :=
  { g with isTapping := true }

/-- One thing that happens to a running game: an animation frame with elapsed time
`delta ≥ 0`, a `hyperMove` request, the oldest pending `hyperMove` callback, or a tap. -/
inductive Step : Game → Game → Prop where
  | frame (f : Frame) (g g' : Game) (evs : List Event) :
      0 ≤ f.delta → updatePosition true f g = some (g', evs) → Step g g'
  | hyper (sign : Int) (dim : Nat) (g : Game) : Step g (hyperMove sign dim g).1
  | timeout (f : Frame) (g g' : Game) (evs : List Event) :
      runTimeout f g = some (g', evs) → Step g g'
  | tap (g : Game) : Step g (tap g)

/-- A maze with positive extents, as `start` accepts it, whose `size` is the list of
extents it was built from. -/
def ValidMaze (size : List Int) (maze : MultiMazeWalls) : Prop :=
  (∀ a ∈ size, 0 < a) ∧ maze.size = size

/-- The states of a game on the maze `maze` in which `start` runs once: the first `start`
and everything that frames, hyper-move requests, their callbacks and taps make of it.
`ReachableWithRestart` has the later presses of the start button as well. -/
inductive Reachable (size : List Int) (maze : MultiMazeWalls) : Game → Prop where
  | start : Reachable size maze (start size maze Game.initial)
  | step (g g' : Game) : Reachable size maze g → Step g g' → Reachable size maze g'

/-- Example data: the maze of the given extents with no inner wall. -/
def openMaze (size : List Int) : MultiMazeWalls :=
  { size := size, walls := fun _ _ => false }

/-- Example data: the game right after its first `start` on the open 2x2x2 maze. -/
def demoStart : Game :=
  start [2, 2, 2] (openMaze [2, 2, 2]) Game.initial

/-- Example data: a frame with the space key held, looking along `+x`, after one second. -/
def frameForward : Frame :=
  { delta := 1, isSpaceDown := true, direction := [1, 0, 0] }

/-- Example data: a frame with the space key held, looking along `-x`, after one second. -/
def frameBack : Frame :=
  { delta := 1, isSpaceDown := true, direction := [-1, 0, 0] }

/-- Example data: the game right after its first `start` on the open 3x1x1 maze. -/
def demoLong : Game :=
  start [3, 1, 1] (openMaze [3, 1, 1]) Game.initial

/-- Example data: a frame with the space key held, looking along `+x`, after three
seconds: a distance of nine units, more than two cells. -/
def frameLong : Frame :=
  { delta := 3, isSpaceDown := true, direction := [1, 0, 0] }

/-- Example data: what the frame `frameLong` makes of `demoLong`. -/
def demoLongResult : Game × List Event :=
  finish (advance frameLong (lockDim 0 (updateDirection frameLong.direction demoLong)))

/-- Example data: `demoStart` with the view along `+x` and the axis 0 locked, as
`updatePosition` leaves it right before it calls `move`. -/
def demoLocked : Game :=
  lockDim 0 (updateDirection frameForward.direction demoStart)

/-- Example data: the game right after its first `start` on the open 1x1x1x2 maze. -/
def demoHyper : Game :=
  start [1, 1, 1, 2] (openMaze [1, 1, 1, 2]) Game.initial

/-- Example data: `demoHyper` after the accepted request `hyperMove(1, 3)`, whose
callback is still pending. -/
def demoPending : Game :=
  (hyperMove 1 3 demoHyper).1

/-- Example data: the game right after its first `start` on the open 2x1x1 maze. -/
def demoTwo : Game :=
  start [2, 1, 1] (openMaze [2, 1, 1]) Game.initial

/-- Example data: what the frame `frameForward` makes of `demoTwo`: the player reaches
the goal cell and wins. -/
def demoWon : Game × List Event :=
  finish (advance frameForward (lockDim 0 (updateDirection frameForward.direction demoTwo)))

/-- Example data: what the frame `frameBack` makes of the won game `demoWon`. -/
def demoWonBack : Game × List Event :=
  finish (advance frameBack (updateDirection frameBack.direction demoWon.1))

/-- Example data: the game right after its first `start` on the 1x1x1 maze, where the
start cell is the goal cell. -/
def demoOne : Game :=
  start [1, 1, 1] (openMaze [1, 1, 1]) Game.initial

/-- Example data: the open 2x2x2 game one frame `frameForward` after its first `start`:
the player is in cell `[1, 0, 0]` with offset `-1`. -/
def demoMoved : Game × List Event :=
  finish (advance frameForward demoLocked)

/-- Example data: `start` pressed again in the state `demoMoved`. -/
def demoRestarted : Game :=
  start [2, 2, 2] (openMaze [2, 2, 2]) demoMoved.1

/-- Example data: what the frame `frameBack` makes of `demoRestarted`. -/
def demoEscaped : Game × List Event :=
  finish (advance frameBack (updateDirection frameBack.direction demoRestarted))

/-- The invariant of a game on a 1x1x1 maze: the player rests in the only cell and has
not won. -/
def OneCell (g : Game) : Prop :=
  g.dimensions = 3 ∧ g.walls.size = [1, 1, 1] ∧ g.gridPosition = [0, 0, 0] ∧
    g.motion.offset = 0 ∧ g.won = false ∧ g.timeouts = []

/-- A position of the right length with every coordinate `d` in `[0, size[d] - 1]`. -/
def InMaze (size : List Int) (pos : List Int) : Prop :=
  pos.length = size.length ∧
    ∀ i, i < size.length → 0 ≤ pos.getD i 0 ∧ pos.getD i 0 ≤ size.getD i 0 - 1

/-- The part of the game state that `move` relies on: the maze `start` installed, and a
player and pending hyper-moves inside it. -/
def Core (maze : MultiMazeWalls) (g : Game) : Prop :=
  g.dimensions = maze.size.length ∧ g.walls = maze ∧ InMaze maze.size g.gridPosition ∧
    ∀ t ∈ g.timeouts, InMaze maze.size t

/-- The boundary on the side of the cell that the offset points to is open: an axis is
locked and `isWall` is false there. -/
def OpenAhead (g : Game) : Prop :=
  (0 < g.motion.offset → ∃ k, g.motion.dim = some k ∧ isWall g 1 k = false) ∧
    (g.motion.offset < 0 → ∃ k, g.motion.dim = some k ∧ isWall g (-1) k = false)

/-- The invariant of the running game. -/
def Inv (maze : MultiMazeWalls) (g : Game) : Prop :=
  Core maze g ∧ -2 ≤ g.motion.offset ∧ g.motion.offset ≤ 2 ∧ OpenAhead g

/-- Every crossing in the log went through a boundary that `isWall`, asked in the cell
`c` the player left, reported open. -/
def SafeLog (g : Game) (evs : List Event) : Prop :=
  ∀ c dim sign, Event.cross c dim sign ∈ evs →
    (sign = 1 ∨ sign = -1) ∧
      ∃ k, dim = some k ∧ isWall { g with gridPosition := c } sign k = false

/-- The net number of cells that the crossings of a log advance: the sum of their
signs. -/
def netCross : List Event → Int
  | [] => 0
  | Event.cross _ _ sign :: rest => sign + netCross rest
  | _ :: rest => netCross rest

/-- A log without crossings. -/
def NoCross (evs : List Event) : Prop :=
  ∀ c dim sign, Event.cross c dim sign ∉ evs

/-- Replays the crossings of a log from the position `pos`: `none` when a crossing does
not start at the position reached so far. -/
def replay : List Int → List Event → Option (List Int)
  | pos, [] => some pos
  | pos, Event.cross c dim sign :: rest =>
      if c = pos then replay (addAtDim pos dim sign) rest else none
  | pos, _ :: rest => replay pos rest

/-- What a run of a wrap loop without a stop leaves, for the locked axis `k`: `s` is the
direction of the loop. -/
def Tracked (k : Nat) (s : Int) (g : Game) (r : Game × List Event) : Prop :=
  r.1.motion.dim = some k ∧ r.1.gridPosition.length = g.gridPosition.length ∧
    r.1.motion.offset = g.motion.offset - 4 * (netCross r.2 : ℚ) ∧
    r.1.gridPosition.getD k 0 = g.gridPosition.getD k 0 + netCross r.2 ∧
    (∀ i, i ≠ k → r.1.gridPosition.getD i 0 = g.gridPosition.getD i 0) ∧
    (∀ c dm sg, Event.cross c dm sg ∈ r.2 → dm = some k ∧ sg = s) ∧
    replay g.gridPosition r.2 = some r.1.gridPosition

/-- Example data: `demoLong` with the view along `+x` and the axis 0 locked, as
`updatePosition` leaves it right before it calls `move`. -/
def demoLongLocked : Game :=
  lockDim 0 (updateDirection frameLong.direction demoLong)

/-! ## The geometry builder (`MazeWalls`, the constructor of `MultiMazeWalls`)

The coordinates of the faces are integers (multiples of 4 shifted by 1 or 2), so the
arrays `positions`, `normals` and `uvs` are lists of integers. -/

/-- The three arrays of a `MazeWalls` object. -/
structure MazeWalls where
  positions : List Int
  normals : List Int
  uvs : List Int

/-- The object `new MazeWalls()`: three empty arrays. -/
def MazeWalls.empty : MazeWalls :=
  { positions := [], normals := [], uvs := [] }

/-- The static array `MazeWalls.#uvArray` (line 721). -/
def uvArray : List Int :=
  [0, 0, 1, 0, 0, 1, 0, 1, 1, 0, 1, 1]

/-- The arguments of the call `this.positions.push(...)` that `MazeWalls.createFace`
runs (lines 620-684): the six vertices of the two triangles of a face; no call for a
`direction` other than 0, 1, 2. -/
def facePositions (x y z : Int) (direction : Nat) (isFront : Bool) (mod : Int) : List Int :=
  if isFront then
    match direction with
    | 0 =>
      [x + mod, y - 1, z + 1,
        x + mod, y - 1, z - 1,
        x + mod, y + 1, z + 1,
        x + mod, y + 1, z + 1,
        x + mod, y - 1, z - 1,
        x + mod, y + 1, z - 1]
    | 1 =>
      [x + 1, y + mod, z - 1,
        x - 1, y + mod, z - 1,
        x + 1, y + mod, z + 1,
        x + 1, y + mod, z + 1,
        x - 1, y + mod, z - 1,
        x - 1, y + mod, z + 1]
    | 2 =>
      [x - 1, y - 1, z + mod,
        x + 1, y - 1, z + mod,
        x - 1, y + 1, z + mod,
        x - 1, y + 1, z + mod,
        x + 1, y - 1, z + mod,
        x + 1, y + 1, z + mod]
    | _ => []
  else
    match direction with
    | 0 =>
      [x - mod, y - 1, z - 1,
        x - mod, y - 1, z + 1,
        x - mod, y + 1, z - 1,
        x - mod, y + 1, z - 1,
        x - mod, y - 1, z + 1,
        x - mod, y + 1, z + 1]
    | 1 =>
      [x + 1, y - mod, z + 1,
        x - 1, y - mod, z + 1,
        x + 1, y - mod, z - 1,
        x + 1, y - mod, z - 1,
        x - 1, y - mod, z + 1,
        x - 1, y - mod, z - 1]
    | 2 =>
      [x + 1, y - 1, z - mod,
        x - 1, y - 1, z - mod,
        x + 1, y + 1, z - mod,
        x + 1, y + 1, z - mod,
        x - 1, y - 1, z - mod,
        x - 1, y + 1, z - mod]
    | _ => []

/-- The array `normalArray` of `MazeWalls.createFace` (lines 685-686), `direction` being
0, 1 or 2. -/
def normalArray (direction : Nat) (isFront : Bool) : List Int :=
  ([0, 0, 0] : List Int).set direction (if isFront then 1 else -1)

/-- Method `MazeWalls.createFace([x, y, z], direction, isFront, isFacingOut)`
(lines 618-689). -/
def createFace (pos : List Int) (direction : Nat) (isFront isFacingOut : Bool)
    (w : MazeWalls) : MazeWalls :=
  let mod : Int := if isFacingOut then 1 else -1
  { positions :=
      w.positions ++
        facePositions (pos.getD 0 0) (pos.getD 1 0) (pos.getD 2 0) direction isFront mod
    normals := w.normals ++ (List.replicate 6 (normalArray direction isFront)).flatten
    uvs := w.uvs ++ uvArray }

/-- Method `MazeWalls.createFaces(pos, direction, isFacingOut)` (lines 692-695). -/
def createFaces (pos : List Int) (direction : Nat) (isFacingOut : Bool) (w : MazeWalls) :
    MazeWalls :=
  createFace pos direction false isFacingOut (createFace pos direction true isFacingOut w)

/-- A loop `for (let y = start; y <= bound; y += 2) body(y)` on a `MazeWalls` object, as
`fillEdge` has two of (lines 700-701). -/
def forStep2 (bound : Int) (body : Int → MazeWalls → MazeWalls) (y : Int) (w : MazeWalls) :
    MazeWalls :=
  if y ≤ bound then forStep2 bound body (y + 2) (body y w) else w
termination_by (bound + 1 - y).toNat
decreasing_by
  rename_i h
  omega

/-- The array `arr` that `MazeWalls.fillEdge` fills (lines 702-705); an entry it does not
assign, which there is none of when the three indices are 0, 1, 2, reads 0 here. -/
def edgePoint (dimension : Nat) (otherDims : List Nat) (x y z : Int) : List Int :=
  ((([0, 0, 0] : List Int).set dimension x).set (otherDims.getD 0 0) y).set
    (otherDims.getD 1 0) z

/-- Method `MazeWalls.fillEdge(size, dimension, otherDims)` (lines 698-710). -/
def fillEdge (size : List Int) (dimension : Nat) (otherDims : List Nat) (w : MazeWalls) :
    MazeWalls :=
  [-2, size.getD dimension 0 * 4 - 2].foldl
    (fun w x =>
      forStep2 (size.getD (otherDims.getD 0 0) 0 * 4 - 4)
        (fun y w =>
          forStep2 (size.getD (otherDims.getD 1 0) 0 * 4 - 4)
            (fun z w =>
              createFace (edgePoint dimension otherDims x y z) dimension (x == -2) true w)
            0 w)
        0 w)
    w

/-- The array `otherDims` of the constructor of `MultiMazeWalls` (line 489). -/
def otherDimsOf (dimension : Nat) : List Nat :=
  [0, 1, 2].filter (fun a => a != dimension)

/-- The point `pos` of the callback in the constructor of `MultiMazeWalls`
(lines 492, 494): four times the first three indices, plus 2 along `dimension`. -/
def wallPoint (dimension : Nat) (indicies : List Int) : List Int :=
  ((indicies.take 3).map (fun a => 4 * a)).set dimension
    (((indicies.take 3).map (fun a => 4 * a)).getD dimension 0 + 2)

/-- The callback that the constructor of `MultiMazeWalls` passes to `doOnIndicieses`
(lines 491-502). The container `mazeWallses` (an `NDimArray` of `../maze.js`) is a
function from the hyper-coordinates `indicies.slice(3)` to the `MazeWalls` object stored
there; changing that object in place is an update of the function at this key. -/
def emitFaces (dimension : Nat) (otherDims : List Nat) (indicies : List Int) (isWall : Bool)
    (mazeWallses : List Int → MazeWalls) : List Int → MazeWalls :=
  let pos := wallPoint dimension indicies
  if isWall then
    Function.update mazeWallses (indicies.drop 3)
      (createFaces pos dimension true (mazeWallses (indicies.drop 3)))
  else
    otherDims.foldl
      (fun m d =>
        Function.update m (indicies.drop 3) (createFaces pos d false (m (indicies.drop 3))))
      mazeWallses

/-- One pass of the first loop of the constructor of `MultiMazeWalls` (lines 489-504).
The list `calls` holds the pairs `(indicies, isWall)` that
`this.walls[dimension].doOnIndicieses` (in `../maze.js`) hands to the callback, in order;
`doOnValues` then runs `fillEdge` on every stored object. -/
def buildDimension (size : List Int) (calls : List (List Int × Bool)) (dimension : Nat)
    (mazeWallses : List Int → MazeWalls) : List Int → MazeWalls :=
  let otherDims := otherDimsOf dimension
  let filled := calls.foldl (fun m c => emitFaces dimension otherDims c.1 c.2 m) mazeWallses
  fun key => fillEdge size dimension otherDims (filled key)

/-- The first loop of the constructor of `MultiMazeWalls` (lines 486-505), `calls d` being
the calls for the wall grid of dimension `d`. -/
def buildFaces (size : List Int) (calls : Nat → List (List Int × Bool)) :
    List Int → MazeWalls :=
  [0, 1, 2].foldl (fun m d => buildDimension size (calls d) d m) (fun _ => MazeWalls.empty)

/-- Coordinate `e` of vertex number `i` of a face, a list of 18 numbers. -/
def vertex (q : List Int) (i e : Nat) : ℚ :=
  ((q.getD (3 * i + e) 0 : Int) : ℚ)

/-- The point `p` lies in the triangle with corners `a`, `b`, `c` (points of space, read
at the coordinates 0, 1, 2). -/
def InTriangle (a b c p : Nat → ℚ) : Prop :=
  ∃ s t : ℚ, 0 ≤ s ∧ 0 ≤ t ∧ s + t ≤ 1 ∧
    ∀ e, e < 3 → p e = a e + s * (b e - a e) + t * (c e - a e)

/-- The point `p` lies on the face `q`: in the triangle of its first three vertices or in
the triangle of its last three. -/
def Covers (q : List Int) (p : Nat → ℚ) : Prop :=
  InTriangle (vertex q 0) (vertex q 1) (vertex q 2) p ∨
    InTriangle (vertex q 3) (vertex q 4) (vertex q 5) p

/-- The point `p` lies in the 2x2 square on the plane `axis = plane` centred at `centre`
(whose own coordinate `axis` is not read). -/
def InSquare (axis : Nat) (plane : Int) (centre : List Int) (p : Nat → ℚ) : Prop :=
  p axis = plane ∧ ∀ e, e < 3 → e ≠ axis → |p e - centre.getD e 0| ≤ 1

/-- Six copies of the unit vector of `axis` times `sign`: the normals of one face. -/
def faceNormals (axis : Nat) (sign : Int) : List Int :=
  (List.replicate 6 (([0, 0, 0] : List Int).set axis sign)).flatten

/-- A quarter of the scalar product of `p - a` and `b - a`: for an edge `a b` of length 2
along an axis, how far `p` lies along it, from 0 at `a` to 1 at `b`. -/
def along (a b p : Nat → ℚ) : ℚ :=
  ((p 0 - a 0) * (b 0 - a 0) + (p 1 - a 1) * (b 1 - a 1) + (p 2 - a 2) * (b 2 - a 2)) / 4

/-- The face that one pass of the inner loop of `MazeWalls.fillEdge` pushes
(lines 702-706), for the other axes `a` and `b`. -/
def edgeFace (dimension a b : Nat) (x y z : Int) : List Int :=
  facePositions ((edgePoint dimension [a, b] x y z).getD 0 0)
    ((edgePoint dimension [a, b] x y z).getD 1 0)
    ((edgePoint dimension [a, b] x y z).getD 2 0) dimension (x == -2) 1

/-- The faces that `MazeWalls.fillEdge` pushes for one value `x` of its outer loop, in
order: `na` values of `y` times `nb` values of `z`. -/
def edgeFaces (dimension a b : Nat) (na nb : Nat) (x : Int) : List (List Int) :=
  (List.range na).flatMap
    (fun i : Nat =>
      (List.range nb).map
        (fun j : Nat => edgeFace dimension a b x (2 * (i : Int)) (2 * (j : Int))))

/-- The states of a game on the maze `maze` when the start button (line 56) may be pressed
again at any time: those of `Reachable`, and what `start` with the same size and maze
makes of any of them. -/
inductive ReachableWithRestart (size : List Int) (maze : MultiMazeWalls) : Game → Prop where
  | start : ReachableWithRestart size maze (start size maze Game.initial)
  | step (g g' : Game) :
      ReachableWithRestart size maze g → Step g g' → ReachableWithRestart size maze g'
  | restart (g : Game) :
      ReachableWithRestart size maze g → ReachableWithRestart size maze (start size maze g)

/-- The integer nearest to `q`, the even one of the two when `q` lies half-way. -/
def roundHalfEven (q : ℚ) : Int :=
  let n : Int := q.num / (q.den : Int)
  let r : ℚ := q - (n : ℚ)
  if 2 * r < 1 then n else if 1 < 2 * r then n + 1 else if n % 2 = 0 then n else n + 1

/-- The product of `q` and the power `e` of 2. -/
def timesPow2 (e : Int) (q : ℚ) : ℚ :=
  if 0 ≤ e then q * ((2 ^ e.toNat : Nat) : ℚ) else q / ((2 ^ (-e).toNat : Nat) : ℚ)

/-- The number of binary digits of `n`, counted in at most `fuel` halvings (`fuel = n` is
enough). -/
def bitLength (fuel n : Nat) : Nat :=
  match fuel with
  | 0 => 0
  | f + 1 => if n = 0 then 0 else bitLength f (n / 2) + 1

/-- The exponent `e` for which `q` divided by the power `e` of 2 has an absolute value
from `2 ^ 52` up to, not including, `2 ^ 53`, for `q` other than 0. -/
def doubleExponent (q : ℚ) : Int :=
  let k : Int := (bitLength q.num.natAbs q.num.natAbs : Int) - (bitLength q.den q.den : Int)
  if |timesPow2 (52 - k) q| < ((2 ^ 52 : Nat) : ℚ) then k - 53 else k - 52

/-- The IEEE 754 double (binary64) nearest to `q`, ties to the even significand: the value
of a JavaScript number that holds the exact result `q` of an addition. The range of the
exponent is not limited, so this is the double for `q` of normal size only. -/
def roundDouble (q : ℚ) : ℚ :=
  if q = 0 then 0
  else timesPow2 (doubleExponent q) (roundHalfEven (timesPow2 (-doubleExponent q) q) : ℚ)

/-- The statement `this.motion.offset += distance` of `Game.move` (line 397) on doubles. -/
def addOffsetDouble (distance : ℚ) (g : Game) : Game :=
  { g with motion := { g.motion with offset := roundDouble (g.motion.offset + distance) } }

/-- The wrap of the first loop of `Game.move` (lines 404-405) on doubles. -/
def stepDownDouble (g : Game) : Game :=
  { g with
    motion := { g.motion with offset := roundDouble (g.motion.offset + 4) }
    gridPosition := addAtDim g.gridPosition g.motion.dim (-1) }

/-- The wrap of the second loop of `Game.move` (lines 411-412) on doubles. -/
def stepUpDouble (g : Game) : Game :=
  { g with
    motion := { g.motion with offset := roundDouble (g.motion.offset - 4) }
    gridPosition := addAtDim g.gridPosition g.motion.dim 1 }

/-- The first wrap loop of `Game.move` (lines 403-409) on doubles, for at most `fuel`
passes; `none` when another pass is due after them. -/
def wrapDownDouble (fuel : Nat) (distance : ℚ) (g : Game) : Option (Game × List Event) :=
  match fuel with
  | 0 => if g.motion.offset < -2 then none else some (g, [])
  | n + 1 =>
    if g.motion.offset < -2 then
      let g1 : Game := stepDownDouble g
      let r := if g1.motion.offset < 0 then stopIfShould distance g1 else (g1, [])
      (wrapDownDouble n distance r.1).map
        (fun r2 => (r2.1, Event.cross g.gridPosition g.motion.dim (-1) :: r.2 ++ r2.2))
    else some (g, [])

/-- The second wrap loop of `Game.move` (lines 410-416) on doubles, for at most `fuel`
passes; `none` when another pass is due after them. -/
def wrapUpDouble (fuel : Nat) (distance : ℚ) (g : Game) : Option (Game × List Event) :=
  match fuel with
  | 0 => if 2 < g.motion.offset then none else some (g, [])
  | n + 1 =>
    if 2 < g.motion.offset then
      let g1 : Game := stepUpDouble g
      let r := if 0 < g1.motion.offset then stopIfShould distance g1 else (g1, [])
      (wrapUpDouble n distance r.1).map
        (fun r2 => (r2.1, Event.cross g.gridPosition g.motion.dim 1 :: r.2 ++ r2.2))
    else some (g, [])

/-- Method `Game.move(distance)` (lines 387-417) on doubles: `move` with the result of
every addition and subtraction rounded by `roundDouble`, where `move` keeps the exact
rational. Each loop runs for at most `fuel` passes. -/
def moveDouble (fuel : Nat) (distance : ℚ) (g : Game) : Option (Game × List Event) :=
  let e1 : List Event :=
    if |g.motion.offset| ≤ 1 ∧ |roundDouble (g.motion.offset + distance)| > 1 then
      [Event.exit]
    else []
  let e2 : List Event :=
    if |g.motion.offset| > 1 ∧ |roundDouble (g.motion.offset + distance)| ≤ 1 then
      [Event.enter]
    else []
  let before := jsSign g.motion.offset
  let g1 : Game := addOffsetDouble distance g
  let r1 := if before * jsSign g1.motion.offset = -1 then stopIfShould distance g1 else (g1, [])
  match wrapDownDouble fuel distance r1.1 with
  | none => none
  | some r2 =>
    match wrapUpDouble fuel distance r2.1 with
    | none => none
    | some r3 => some (r3.1, e1 ++ e2 ++ r1.2 ++ r2.2 ++ r3.2)

/-- Example data: `demoLocked` with the offset that `move(1.1)` on doubles leaves, the
double nearest to 1.1. -/
def demoDouble : Game :=
  { demoLocked with motion := { demoLocked.motion with offset := roundDouble (11 / 10) } }

/-! ## Arrays -/

theorem addAt_length (p : List Int) (k : Nat) (d : Int) : (addAt p k d).length = p.length := by
  simp [addAt]

theorem addAt_getD_self (p : List Int) (k : Nat) (d : Int) (h : k < p.length) :
    (addAt p k d).getD k 0 = p.getD k 0 + d := by
  simp [addAt, List.getD_eq_getElem?_getD, h]

theorem addAt_getD_ne (p : List Int) (k i : Nat) (d : Int) (h : i ≠ k) :
    (addAt p k d).getD i 0 = p.getD i 0 := by
  simp [addAt, List.getD_eq_getElem?_getD, List.getElem?_set, Ne.symm h]

theorem addAt_cancel (p : List Int) (k : Nat) (d : Int) (h : k < p.length) :
    addAt (addAt p k d) k (-d) = p := by
  apply List.ext_getElem
  · simp [addAt]
  · intro i h1 h2
    simp [addAt, List.getElem_set, List.getD_eq_getElem?_getD, h]
    intro hk
    subst hk
    rfl

/-! ## The wall test -/

theorem isWall_congr (g g' : Game) (sign : Int) (k : Nat)
    (hd : g'.dimensions = g.dimensions) (hp : g'.gridPosition = g.gridPosition)
    (hw : g'.walls = g.walls) : isWall g' sign k = isWall g sign k := by
  simp [isWall, hd, hp, hw]

theorem isWall_false_pos (g : Game) (k : Nat) :
    isWall g 1 k = false ↔
      k < g.dimensions ∧ g.gridPosition.getD k 0 ≠ -1 ∧
        g.gridPosition.getD k 0 ≠ g.walls.size.getD k 0 - 1 ∧
        g.walls.walls k g.gridPosition = false := by
  unfold isWall
  by_cases h : k ≥ g.dimensions
  · simp [h]
  · simp [h]
    have hk : k < g.dimensions := by omega
    tauto

theorem isWall_false_neg (g : Game) (k : Nat) :
    isWall g (-1) k = false ↔
      k < g.dimensions ∧ (addAt g.gridPosition k (-1)).getD k 0 ≠ -1 ∧
        (addAt g.gridPosition k (-1)).getD k 0 ≠ g.walls.size.getD k 0 - 1 ∧
        g.walls.walls k (addAt g.gridPosition k (-1)) = false := by
  unfold isWall
  by_cases h : k ≥ g.dimensions
  · simp [h]
  · simp [h]
    have hk : k < g.dimensions := by omega
    tauto

theorem isWall_neg_eq (g : Game) (k : Nat) :
    isWall g (-1) k = isWall { g with gridPosition := addAt g.gridPosition k (-1) } 1 k := by
  simp [isWall]

theorem isWall_after_up (g g' : Game) (k : Nat) (hk : k < g.gridPosition.length)
    (hd : g'.dimensions = g.dimensions) (hp : g'.gridPosition = addAt g.gridPosition k 1)
    (hw : g'.walls = g.walls) : isWall g' (-1) k = isWall g 1 k := by
  rw [isWall_neg_eq]
  apply isWall_congr
  · exact hd
  · show addAt g'.gridPosition k (-1) = g.gridPosition
    rw [hp]; exact addAt_cancel _ _ 1 hk
  · exact hw

theorem isWall_after_down (g g' : Game) (k : Nat)
    (hd : g'.dimensions = g.dimensions) (hp : g'.gridPosition = addAt g.gridPosition k (-1))
    (hw : g'.walls = g.walls) : isWall g' 1 k = isWall g (-1) k := by
  rw [isWall_neg_eq]
  apply isWall_congr
  · exact hd
  · exact hp
  · exact hw

/-! ## `stopIfShould` -/

theorem stopIfShould_of_stop (d : ℚ) (g : Game) (h : shouldStop d g = true) :
    stopIfShould d g =
      ({ g with motion := { g.motion with offset := 0 }, isTapping := false }, [Event.stop]) := by
  simp [stopIfShould, h]

theorem stopIfShould_of_go (d : ℚ) (g : Game) (h : shouldStop d g = false) :
    stopIfShould d g = (g, []) := by
  simp [stopIfShould, h]

theorem shouldStop_false (d : ℚ) (g : Game) (h : shouldStop d g = false) :
    ∃ a, g.motion.dim = some a ∧ g.gridDirection.dim = some a ∧ g.isTapping = false ∧
      isWall g (if 0 < d then 1 else if d < 0 then -1 else 0) a = false := by
  unfold shouldStop at h
  split at h
  · rename_i a b ha hb
    simp at h
    obtain ⟨⟨h1, h2⟩, h3⟩ := h
    exact ⟨a, ha, by rw [hb, h1], h2, h3⟩
  · simp at h

theorem stopIfShould_cases (d : ℚ) (g : Game) :
    (shouldStop d g = true ∧ stopIfShould d g =
        ({ g with motion := { g.motion with offset := 0 }, isTapping := false }, [Event.stop])) ∨
      (shouldStop d g = false ∧ stopIfShould d g = (g, [])) := by
  cases h : shouldStop d g
  · right; exact ⟨rfl, stopIfShould_of_go d g h⟩
  · left; exact ⟨rfl, stopIfShould_of_stop d g h⟩

/-! ## The invariant and the log -/

theorem SafeLog_congr (g g' : Game) (evs : List Event) (hd : g'.dimensions = g.dimensions)
    (hw : g'.walls = g.walls) (h : SafeLog g evs) : SafeLog g' evs := by
  intro c dim sign hm
  obtain ⟨hs, k, hk, hwall⟩ := h c dim sign hm
  refine ⟨hs, k, hk, ?_⟩
  rw [← hwall]
  exact isWall_congr _ _ sign k hd rfl hw

theorem SafeLog_nil (g : Game) : SafeLog g [] := by
  intro c dim sign hm
  simp at hm

theorem SafeLog_append (g : Game) (l1 l2 : List Event) (h1 : SafeLog g l1) (h2 : SafeLog g l2) :
    SafeLog g (l1 ++ l2) := by
  intro c dim sign hm
  rcases List.mem_append.mp hm with h | h
  · exact h1 c dim sign h
  · exact h2 c dim sign h

theorem replay_append (l1 l2 : List Event) (p q : List Int) (h : replay p l1 = some q) :
    replay p (l1 ++ l2) = replay q l2 := by
  induction l1 generalizing p with
  | nil => simp [replay] at h; subst h; rfl
  | cons e rest ih =>
    cases e with
    | cross c dim sign =>
      simp only [List.cons_append, replay] at h ⊢
      split_ifs at h ⊢ with hc
      exact ih _ h
    | exit => exact ih _ h
    | enter => exact ih _ h
    | win => exact ih _ h
    | stop => exact ih _ h

/-! ## One wrap -/

theorem wrapUpOnce_cases (d : ℚ) (g : Game) :
    (wrapUpOnce d g = (stepUp g, [Event.cross g.gridPosition g.motion.dim 1]) ∧
        ((stepUp g).motion.offset ≤ 0 ∨ shouldStop d (stepUp g) = false)) ∨
      (wrapUpOnce d g =
          ({ stepUp g with motion := { (stepUp g).motion with offset := 0 }, isTapping := false },
            [Event.cross g.gridPosition g.motion.dim 1, Event.stop]) ∧
        0 < (stepUp g).motion.offset ∧ shouldStop d (stepUp g) = true) := by
  unfold wrapUpOnce
  by_cases h : 0 < (stepUp g).motion.offset
  · rcases stopIfShould_cases d (stepUp g) with ⟨hs, he⟩ | ⟨hs, he⟩
    · right
      simp only [h, if_true, he]
      exact ⟨trivial, trivial, hs⟩
    · left
      simp only [h, if_true, he]
      exact ⟨trivial, Or.inr hs⟩
  · left
    simp only [h, if_false]
    exact ⟨trivial, Or.inl (not_lt.mp h)⟩

theorem wrapDownOnce_cases (d : ℚ) (g : Game) :
    (wrapDownOnce d g = (stepDown g, [Event.cross g.gridPosition g.motion.dim (-1)]) ∧
        (0 ≤ (stepDown g).motion.offset ∨ shouldStop d (stepDown g) = false)) ∨
      (wrapDownOnce d g =
          ({ stepDown g with
              motion := { (stepDown g).motion with offset := 0 }, isTapping := false },
            [Event.cross g.gridPosition g.motion.dim (-1), Event.stop]) ∧
        (stepDown g).motion.offset < 0 ∧ shouldStop d (stepDown g) = true) := by
  unfold wrapDownOnce
  by_cases h : (stepDown g).motion.offset < 0
  · rcases stopIfShould_cases d (stepDown g) with ⟨hs, he⟩ | ⟨hs, he⟩
    · right
      simp only [h, if_true, he]
      exact ⟨trivial, trivial, hs⟩
    · left
      simp only [h, if_true, he]
      exact ⟨trivial, Or.inr hs⟩
  · left
    simp only [h, if_false]
    exact ⟨trivial, Or.inl (not_lt.mp h)⟩

theorem InMaze_addAt_up (size pos : List Int) (k : Nat) (h : InMaze size pos)
    (hk : k < size.length) (hne : pos.getD k 0 ≠ size.getD k 0 - 1) :
    InMaze size (addAt pos k 1) := by
  obtain ⟨hl, hr⟩ := h
  refine ⟨by rw [addAt_length]; exact hl, ?_⟩
  intro i hi
  by_cases hik : i = k
  · subst hik
    rw [addAt_getD_self _ _ _ (by rw [hl]; exact hi)]
    have := hr i hi
    omega
  · rw [addAt_getD_ne _ _ _ _ hik]
    exact hr i hi

theorem InMaze_addAt_down (size pos : List Int) (k : Nat) (h : InMaze size pos)
    (hk : k < size.length) (hne : (addAt pos k (-1)).getD k 0 ≠ -1) :
    InMaze size (addAt pos k (-1)) := by
  obtain ⟨hl, hr⟩ := h
  refine ⟨by rw [addAt_length]; exact hl, ?_⟩
  intro i hi
  by_cases hik : i = k
  · subst hik
    rw [addAt_getD_self _ _ _ (by rw [hl]; exact hi)] at hne ⊢
    have := hr i hi
    omega
  · rw [addAt_getD_ne _ _ _ _ hik]
    exact hr i hi

theorem wrapUpOnce_inv (maze : MultiMazeWalls) (d : ℚ) (g : Game) (hd : 0 < d)
    (hc : Core maze g) (ho : OpenAhead g) (h : 2 < g.motion.offset) :
    Core maze (wrapUpOnce d g).1 ∧ OpenAhead (wrapUpOnce d g).1 ∧
      -2 ≤ (wrapUpOnce d g).1.motion.offset ∧ SafeLog g (wrapUpOnce d g).2 ∧
      replay g.gridPosition (wrapUpOnce d g).2 = some (wrapUpOnce d g).1.gridPosition := by
  obtain ⟨k, hk, hw⟩ := ho.1 (by linarith)
  obtain ⟨hkd, _, hne2, _⟩ := (isWall_false_pos g k).mp hw
  obtain ⟨hdim, hwalls, hin, htime⟩ := hc
  have hklen : k < g.gridPosition.length := by rw [hin.1, ← hdim]; exact hkd
  have hgrid : (stepUp g).gridPosition = addAt g.gridPosition k 1 := by
    simp [stepUp, hk, addAtDim]
  have hcore : Core maze (stepUp g) := by
    refine ⟨hdim, hwalls, ?_, htime⟩
    rw [hgrid]
    apply InMaze_addAt_up _ _ _ hin (by rw [← hdim]; exact hkd)
    rw [← hwalls]; exact hne2
  have hback : isWall (stepUp g) (-1) k = false := by
    rw [isWall_after_up g (stepUp g) k hklen rfl hgrid rfl]; exact hw
  have hsafe1 : SafeLog g [Event.cross g.gridPosition g.motion.dim 1] := by
    intro c dim sign hm
    simp at hm
    obtain ⟨rfl, rfl, rfl⟩ := hm
    exact ⟨Or.inl rfl, k, hk, hw⟩
  have hoff : (stepUp g).motion.offset = g.motion.offset - 4 := rfl
  have hdim1 : (stepUp g).motion.dim = some k := hk
  rcases wrapUpOnce_cases d g with ⟨he, hcase⟩ | ⟨he, hpos, hstop⟩
  · rw [he]
    refine ⟨hcore, ?_, ?_, hsafe1, ?_⟩
    · constructor
      · intro hp
        rcases hcase with hle | hgo
        · exact absurd hp (not_lt.mpr hle)
        · obtain ⟨a, ha, _, _, hwa⟩ := shouldStop_false d _ hgo
          simp only [hd, if_true] at hwa
          exact ⟨a, ha, hwa⟩
      · intro _
        exact ⟨k, hdim1, hback⟩
    · show -2 ≤ (stepUp g).motion.offset
      rw [hoff]; linarith
    · simp [replay, hgrid, hk, addAtDim]
  · rw [he]
    refine ⟨hcore, ?_, ?_, ?_, ?_⟩
    · constructor
      · intro hp; simp at hp
      · intro hp; simp at hp
    · simp
    · intro c dim sign hm
      apply hsafe1 c dim sign
      simpa using hm
    · simp [replay, hgrid, hk, addAtDim]

theorem wrapDownOnce_inv (maze : MultiMazeWalls) (d : ℚ) (g : Game) (hd : d < 0)
    (hc : Core maze g) (ho : OpenAhead g) (h : g.motion.offset < -2) :
    Core maze (wrapDownOnce d g).1 ∧ OpenAhead (wrapDownOnce d g).1 ∧
      (wrapDownOnce d g).1.motion.offset ≤ 2 ∧ SafeLog g (wrapDownOnce d g).2 ∧
      replay g.gridPosition (wrapDownOnce d g).2 = some (wrapDownOnce d g).1.gridPosition := by
  obtain ⟨k, hk, hw⟩ := ho.2 (by linarith)
  obtain ⟨hkd, hne1, _, _⟩ := (isWall_false_neg g k).mp hw
  obtain ⟨hdim, hwalls, hin, htime⟩ := hc
  have hgrid : (stepDown g).gridPosition = addAt g.gridPosition k (-1) := by
    simp [stepDown, hk, addAtDim]
  have hcore : Core maze (stepDown g) := by
    refine ⟨hdim, hwalls, ?_, htime⟩
    rw [hgrid]
    exact InMaze_addAt_down _ _ _ hin (by rw [← hdim]; exact hkd) hne1
  have hback : isWall (stepDown g) 1 k = false := by
    rw [isWall_after_down g (stepDown g) k rfl hgrid rfl]; exact hw
  have hsafe1 : SafeLog g [Event.cross g.gridPosition g.motion.dim (-1)] := by
    intro c dim sign hm
    simp at hm
    obtain ⟨rfl, rfl, rfl⟩ := hm
    exact ⟨Or.inr rfl, k, hk, hw⟩
  have hoff : (stepDown g).motion.offset = g.motion.offset + 4 := rfl
  have hdim1 : (stepDown g).motion.dim = some k := hk
  have hnd : ¬ (0 < d) := not_lt.mpr (le_of_lt hd)
  rcases wrapDownOnce_cases d g with ⟨he, hcase⟩ | ⟨he, hneg, hstop⟩
  · rw [he]
    refine ⟨hcore, ?_, ?_, hsafe1, ?_⟩
    · constructor
      · intro _
        exact ⟨k, hdim1, hback⟩
      · intro hp
        rcases hcase with hle | hgo
        · exact absurd hp (not_lt.mpr hle)
        · obtain ⟨a, ha, _, _, hwa⟩ := shouldStop_false d _ hgo
          simp only [hnd, hd, if_true, if_false] at hwa
          exact ⟨a, ha, hwa⟩
    · show (stepDown g).motion.offset ≤ 2
      rw [hoff]; linarith
    · simp [replay, hgrid, hk, addAtDim]
  · rw [he]
    refine ⟨hcore, ?_, ?_, ?_, ?_⟩
    · constructor
      · intro hp; simp at hp
      · intro hp; simp at hp
    · simp
    · intro c dim sign hm
      apply hsafe1 c dim sign
      simpa using hm
    · simp [replay, hgrid, hk, addAtDim]

/-! ## The wrap loops -/

theorem wrapUpOnce_same (d : ℚ) (g : Game) :
    (wrapUpOnce d g).1.dimensions = g.dimensions ∧ (wrapUpOnce d g).1.walls = g.walls := by
  rcases wrapUpOnce_cases d g with ⟨he, _⟩ | ⟨he, _⟩ <;> rw [he] <;> exact ⟨rfl, rfl⟩

theorem wrapDownOnce_same (d : ℚ) (g : Game) :
    (wrapDownOnce d g).1.dimensions = g.dimensions ∧ (wrapDownOnce d g).1.walls = g.walls := by
  rcases wrapDownOnce_cases d g with ⟨he, _⟩ | ⟨he, _⟩ <;> rw [he] <;> exact ⟨rfl, rfl⟩

theorem wrapUp_done (d : ℚ) (g : Game) (h : g.motion.offset ≤ 2) : wrapUp d g = (g, []) := by
  rw [wrapUp]
  simp [not_lt.mpr h]

theorem wrapDown_done (d : ℚ) (g : Game) (h : -2 ≤ g.motion.offset) :
    wrapDown d g = (g, []) := by
  rw [wrapDown]
  simp [not_lt.mpr h]

theorem wrapUp_more (d : ℚ) (g : Game) (h : 2 < g.motion.offset) :
    wrapUp d g =
      ((wrapUp d (wrapUpOnce d g).1).1, (wrapUpOnce d g).2 ++ (wrapUp d (wrapUpOnce d g).1).2) := by
  rw [wrapUp]
  simp [h]

theorem wrapDown_more (d : ℚ) (g : Game) (h : g.motion.offset < -2) :
    wrapDown d g =
      ((wrapDown d (wrapDownOnce d g).1).1,
        (wrapDownOnce d g).2 ++ (wrapDown d (wrapDownOnce d g).1).2) := by
  rw [wrapDown]
  simp [h]

theorem wrapUp_inv (maze : MultiMazeWalls) (d : ℚ) (hd : 0 < d) (g : Game) :
    Core maze g → OpenAhead g → -2 ≤ g.motion.offset →
      Inv maze (wrapUp d g).1 ∧ SafeLog g (wrapUp d g).2 ∧
        replay g.gridPosition (wrapUp d g).2 = some (wrapUp d g).1.gridPosition := by
  induction g using wrapUp.induct d with
  | case1 g h r ih =>
    intro hc ho _
    obtain ⟨hc1, ho1, hlo1, hs1, hr1⟩ := wrapUpOnce_inv maze d g hd hc ho h
    obtain ⟨hinv, hs2, hr2⟩ := ih hc1 ho1 hlo1
    rw [wrapUp_more d g h]
    refine ⟨hinv, SafeLog_append _ _ _ hs1 ?_, ?_⟩
    · exact SafeLog_congr _ _ _ (wrapUpOnce_same d g).1.symm (wrapUpOnce_same d g).2.symm hs2
    · rw [replay_append _ _ _ _ hr1]; exact hr2
  | case2 g h =>
    intro hc ho hlo
    rw [wrapUp_done d g (not_lt.mp h)]
    exact ⟨⟨hc, hlo, not_lt.mp h, ho⟩, SafeLog_nil g, rfl⟩

theorem wrapDown_inv (maze : MultiMazeWalls) (d : ℚ) (hd : d < 0) (g : Game) :
    Core maze g → OpenAhead g → g.motion.offset ≤ 2 →
      Inv maze (wrapDown d g).1 ∧ SafeLog g (wrapDown d g).2 ∧
        replay g.gridPosition (wrapDown d g).2 = some (wrapDown d g).1.gridPosition := by
  induction g using wrapDown.induct d with
  | case1 g h r ih =>
    intro hc ho _
    obtain ⟨hc1, ho1, hlo1, hs1, hr1⟩ := wrapDownOnce_inv maze d g hd hc ho h
    obtain ⟨hinv, hs2, hr2⟩ := ih hc1 ho1 hlo1
    rw [wrapDown_more d g h]
    refine ⟨hinv, SafeLog_append _ _ _ hs1 ?_, ?_⟩
    · exact SafeLog_congr _ _ _ (wrapDownOnce_same d g).1.symm (wrapDownOnce_same d g).2.symm hs2
    · rw [replay_append _ _ _ _ hr1]; exact hr2
  | case2 g h =>
    intro hc ho hhi
    rw [wrapDown_done d g (not_lt.mp h)]
    exact ⟨⟨hc, not_lt.mp h, hhi, ho⟩, SafeLog_nil g, rfl⟩

/-! ## `move` -/

theorem NoCross_safe (g : Game) (evs : List Event) (h : NoCross evs) : SafeLog g evs := by
  intro c dim sign hm
  exact absurd hm (h c dim sign)

theorem NoCross_replay (evs : List Event) (p : List Int) (h : NoCross evs) :
    replay p evs = some p := by
  induction evs with
  | nil => rfl
  | cons e rest ih =>
    have hrest : NoCross rest := fun c dim sign hm => h c dim sign (List.mem_cons_of_mem _ hm)
    cases e with
    | cross c dim sign => exact absurd (List.mem_cons_self _ _) (h c dim sign)
    | exit => exact ih hrest
    | enter => exact ih hrest
    | win => exact ih hrest
    | stop => exact ih hrest

theorem NoCross_append (l1 l2 : List Event) (h1 : NoCross l1) (h2 : NoCross l2) :
    NoCross (l1 ++ l2) := by
  intro c dim sign hm
  rcases List.mem_append.mp hm with h | h
  · exact h1 c dim sign h
  · exact h2 c dim sign h

theorem jsSign_mul (a b : ℚ) :
    jsSign a * jsSign b = -1 ↔ (a < 0 ∧ 0 < b) ∨ (0 < a ∧ b < 0) := by
  unfold jsSign
  split_ifs <;> constructor <;> intro h <;> first
    | (norm_num at h; done)
    | (rcases h with ⟨h1, h2⟩ | ⟨h1, h2⟩ <;> linarith)
    | (left; constructor <;> linarith)
    | (right; constructor <;> linarith)

/-- The part of `move` before the wrap loops, without the `exit` / `enter` calls. -/
theorem moveHead_cases (d : ℚ) (g : Game) :
    ((if jsSign g.motion.offset * jsSign (addOffset d g).motion.offset = -1
          then stopIfShould d (addOffset d g) else (addOffset d g, [])) = (addOffset d g, []) ∧
        (¬ (jsSign g.motion.offset * jsSign (addOffset d g).motion.offset = -1) ∨
          shouldStop d (addOffset d g) = false)) ∨
      ((if jsSign g.motion.offset * jsSign (addOffset d g).motion.offset = -1
          then stopIfShould d (addOffset d g) else (addOffset d g, [])) =
          ({ addOffset d g with
              motion := { (addOffset d g).motion with offset := 0 }, isTapping := false },
            [Event.stop]) ∧
        jsSign g.motion.offset * jsSign (addOffset d g).motion.offset = -1 ∧
        shouldStop d (addOffset d g) = true) := by
  by_cases h : jsSign g.motion.offset * jsSign (addOffset d g).motion.offset = -1
  · rcases stopIfShould_cases d (addOffset d g) with ⟨hs, he⟩ | ⟨hs, he⟩
    · right
      simp only [h, if_true, he]
      exact ⟨trivial, trivial, hs⟩
    · left
      simp only [h, if_true, he]
      exact ⟨trivial, Or.inr hs⟩
  · left
    simp only [h, if_false]
    exact ⟨trivial, Or.inl (fun h => h)⟩

/-- The hypothesis under which `updatePosition` calls `move` from the centre of a cell:
the boundary in the direction of the move has been tested. -/
theorem move_inv (maze : MultiMazeWalls) (d : ℚ) (g : Game) (hinv : Inv maze g)
    (hready : g.motion.offset = 0 →
      (0 < d → ∃ k, g.motion.dim = some k ∧ isWall g 1 k = false) ∧
        (d < 0 → ∃ k, g.motion.dim = some k ∧ isWall g (-1) k = false)) :
    Inv maze (move d g).1 ∧ SafeLog g (move d g).2 ∧
      replay g.gridPosition (move d g).2 = some (move d g).1.gridPosition := by
  obtain ⟨hc, hlo, hhi, ho⟩ := hinv
  -- the state after `offset += distance` and the sign-change test
  have hhead : ∃ r : Game × List Event,
      (if jsSign g.motion.offset * jsSign (addOffset d g).motion.offset = -1
          then stopIfShould d (addOffset d g) else (addOffset d g, [])) = r ∧
        Core maze r.1 ∧ OpenAhead r.1 ∧ r.1.gridPosition = g.gridPosition ∧
        r.1.dimensions = g.dimensions ∧ r.1.walls = g.walls ∧ NoCross r.2 ∧
        (d ≤ 0 → r.1.motion.offset ≤ 2) ∧ (0 ≤ d → -2 ≤ r.1.motion.offset) := by
    have hoff : (addOffset d g).motion.offset = g.motion.offset + d := rfl
    rcases moveHead_cases d g with ⟨he, hcase⟩ | ⟨he, _, _⟩
    · refine ⟨_, he, hc, ?_, rfl, rfl, rfl, ?_, ?_, ?_⟩
      · constructor
        · intro hp
          rw [hoff] at hp
          rcases lt_trichotomy g.motion.offset 0 with hneg | hz | hpos
          · rcases hcase with hns | hgo
            · exact absurd ((jsSign_mul _ _).mpr (Or.inl ⟨hneg, by rw [hoff]; exact hp⟩)) hns
            · obtain ⟨a, ha, _, _, hwa⟩ := shouldStop_false d _ hgo
              have hd : 0 < d := by linarith
              simp only [hd, if_true] at hwa
              exact ⟨a, ha, hwa⟩
          · rw [hz] at hp
            exact (hready hz).1 (by linarith)
          · exact ho.1 hpos
        · intro hp
          rw [hoff] at hp
          rcases lt_trichotomy g.motion.offset 0 with hneg | hz | hpos
          · exact ho.2 hneg
          · rw [hz] at hp
            exact (hready hz).2 (by linarith)
          · rcases hcase with hns | hgo
            · exact absurd ((jsSign_mul _ _).mpr (Or.inr ⟨hpos, by rw [hoff]; exact hp⟩)) hns
            · obtain ⟨a, ha, _, _, hwa⟩ := shouldStop_false d _ hgo
              have hd : d < 0 := by linarith
              have hnd : ¬ (0 < d) := not_lt.mpr (le_of_lt hd)
              simp only [hnd, hd, if_true, if_false] at hwa
              exact ⟨a, ha, hwa⟩
      · intro c dim sign hm; simp at hm
      · intro hd; show (addOffset d g).motion.offset ≤ 2; rw [hoff]; linarith
      · intro hd; show -2 ≤ (addOffset d g).motion.offset; rw [hoff]; linarith
    · refine ⟨_, he, hc, ?_, rfl, rfl, rfl, ?_, ?_, ?_⟩
      · constructor
        · intro hp; simp at hp
        · intro hp; simp at hp
      · intro c dim sign hm; simp at hm
      · intro _; simp
      · intro _; simp
  obtain ⟨r1, he1, hc1, ho1, hg1, hd1, hw1, hn1, hle1, hge1⟩ := hhead
  have hmove : move d g =
      ((wrapUp d (wrapDown d r1.1).1).1,
        (if |g.motion.offset| ≤ 1 ∧ |g.motion.offset + d| > 1 then [Event.exit] else []) ++
          (if |g.motion.offset| > 1 ∧ |g.motion.offset + d| ≤ 1 then [Event.enter] else []) ++
          r1.2 ++ (wrapDown d r1.1).2 ++ (wrapUp d (wrapDown d r1.1).1).2) := by
    simp only [move, he1]
  have hpre : NoCross
      ((if |g.motion.offset| ≤ 1 ∧ |g.motion.offset + d| > 1 then [Event.exit] else []) ++
        (if |g.motion.offset| > 1 ∧ |g.motion.offset + d| ≤ 1 then [Event.enter] else []) ++
        r1.2) := by
    apply NoCross_append _ _ _ hn1
    apply NoCross_append
    · intro c dim sign hm; split_ifs at hm <;> simp at hm
    · intro c dim sign hm; split_ifs at hm <;> simp at hm
  -- the two loops
  have hloops : Inv maze (wrapUp d (wrapDown d r1.1).1).1 ∧
      SafeLog g ((wrapDown d r1.1).2 ++ (wrapUp d (wrapDown d r1.1).1).2) ∧
      replay g.gridPosition ((wrapDown d r1.1).2 ++ (wrapUp d (wrapDown d r1.1).1).2) =
        some (wrapUp d (wrapDown d r1.1).1).1.gridPosition := by
    rcases lt_trichotomy d 0 with hneg | hz | hpos
    · obtain ⟨hi2, hs2, hr2⟩ := wrapDown_inv maze d hneg r1.1 hc1 ho1 (hle1 (le_of_lt hneg))
      rw [wrapUp_done d _ hi2.2.2.1]
      refine ⟨hi2, ?_, ?_⟩
      · rw [List.append_nil]
        exact SafeLog_congr _ _ _ hd1.symm hw1.symm hs2
      · rw [List.append_nil, ← hg1]; exact hr2
    · have hlo1 := hge1 (le_of_eq hz.symm)
      have hhi1 := hle1 (le_of_eq hz)
      rw [wrapDown_done d _ hlo1, wrapUp_done d _ hhi1]
      refine ⟨⟨hc1, hlo1, hhi1, ho1⟩, SafeLog_nil g, ?_⟩
      rw [← hg1]; rfl
    · have hlo1 := hge1 (le_of_lt hpos)
      rw [wrapDown_done d _ hlo1]
      obtain ⟨hi3, hs3, hr3⟩ := wrapUp_inv maze d hpos r1.1 hc1 ho1 hlo1
      refine ⟨hi3, ?_, ?_⟩
      · rw [List.nil_append]
        exact SafeLog_congr _ _ _ hd1.symm hw1.symm hs3
      · rw [List.nil_append, ← hg1]; exact hr3
  obtain ⟨hi, hs, hr⟩ := hloops
  rw [hmove]
  refine ⟨hi, ?_, ?_⟩
  · rw [List.append_assoc]
    exact SafeLog_append _ _ _ (NoCross_safe g _ hpre) hs
  · rw [List.append_assoc, replay_append _ _ _ _ (NoCross_replay _ _ hpre)]
    exact hr

/-! ## One frame -/

theorem Inv_of_eq (maze : MultiMazeWalls) (g g' : Game) (h1 : g'.dimensions = g.dimensions)
    (h2 : g'.walls = g.walls) (h3 : g'.gridPosition = g.gridPosition)
    (h4 : g'.timeouts = g.timeouts) (h5 : g'.motion = g.motion) (h : Inv maze g) :
    Inv maze g' := by
  obtain ⟨⟨hd, hw, hin, ht⟩, hlo, hhi, ho1, ho2⟩ := h
  refine ⟨⟨by rw [h1]; exact hd, by rw [h2]; exact hw, by rw [h3]; exact hin,
    by rw [h4]; exact ht⟩, by rw [h5]; exact hlo, by rw [h5]; exact hhi, ?_, ?_⟩
  · intro hp
    rw [h5] at hp ⊢
    obtain ⟨k, hk, hwall⟩ := ho1 hp
    exact ⟨k, hk, by rw [isWall_congr g g' 1 k h1 h3 h2]; exact hwall⟩
  · intro hp
    rw [h5] at hp ⊢
    obtain ⟨k, hk, hwall⟩ := ho2 hp
    exact ⟨k, hk, by rw [isWall_congr g g' (-1) k h1 h3 h2]; exact hwall⟩

theorem isWall_sign_pos (g : Game) (s : Int) (k : Nat) (h : 0 < s) :
    isWall g s k = isWall g 1 k := by
  have hn : ¬ (s < 0) := by omega
  simp [isWall, hn]

theorem isWall_sign_neg (g : Game) (s : Int) (k : Nat) (h : s < 0) :
    isWall g s k = isWall g (-1) k := by
  simp [isWall, h]

theorem checkWin_cases (g : Game) :
    checkWin g = (g, []) ∨ checkWin g = ({ g with won := true }, [Event.win]) := by
  unfold checkWin
  split_ifs
  · right; rfl
  · left; rfl

theorem advance_inv (maze : MultiMazeWalls) (f : Frame) (g : Game) (hdelta : 0 ≤ f.delta)
    (hinv : Inv maze g)
    (hready : g.motion.offset = 0 →
      ∃ k, g.motion.dim = some k ∧ g.gridDirection.dim = some k ∧
        isWall g g.gridDirection.sign k = false) :
    Inv maze (advance f g).1 ∧ SafeLog g (advance f g).2 ∧
      replay g.gridPosition (advance f g).2 = some (advance f g).1.gridPosition := by
  unfold advance
  split_ifs with hsame
  · apply move_inv maze _ g hinv
    intro hz
    obtain ⟨k, hk, _, hwall⟩ := hready hz
    have hspeed : (0 : ℚ) < moveSpeed := by norm_num [moveSpeed]
    constructor
    · intro hpos
      have hs : (0 : ℚ) < (g.gridDirection.sign : ℚ) := by
        by_contra hcon
        have h1 : (g.gridDirection.sign : ℚ) ≤ 0 := not_lt.mp hcon
        have h2 : (g.gridDirection.sign : ℚ) * f.delta ≤ 0 :=
          mul_nonpos_of_nonpos_of_nonneg h1 hdelta
        have h3 : (g.gridDirection.sign : ℚ) * f.delta * moveSpeed ≤ 0 :=
          mul_nonpos_of_nonpos_of_nonneg h2 (le_of_lt hspeed)
        linarith
      have hs' : 0 < g.gridDirection.sign := by exact_mod_cast hs
      exact ⟨k, hk, by rw [← isWall_sign_pos g _ k hs']; exact hwall⟩
    · intro hneg
      have hs : (g.gridDirection.sign : ℚ) < 0 := by
        by_contra hcon
        have h1 : 0 ≤ (g.gridDirection.sign : ℚ) := not_lt.mp hcon
        have h2 : 0 ≤ (g.gridDirection.sign : ℚ) * f.delta := mul_nonneg h1 hdelta
        have h3 : 0 ≤ (g.gridDirection.sign : ℚ) * f.delta * moveSpeed :=
          mul_nonneg h2 (le_of_lt hspeed)
        linarith
      have hs' : g.gridDirection.sign < 0 := by exact_mod_cast hs
      exact ⟨k, hk, by rw [← isWall_sign_neg g _ k hs']; exact hwall⟩
  · apply move_inv maze _ g hinv
    intro hz
    exfalso
    obtain ⟨k, hk, hk2, _⟩ := hready hz
    simp [sameDim, hk, hk2] at hsame

theorem updatePosition_false (f : Frame) (g : Game) :
    updatePosition false f g = some (finish (g, [])) := by
  simp [updatePosition, finish]

theorem updatePosition_idle (f : Frame) (g : Game)
    (h : (!f.isSpaceDown && !g.isTapping) = true) : updatePosition true f g = some (g, []) := by
  simp only [updatePosition, h, if_true]

theorem updatePosition_throw (f : Frame) (g : Game)
    (h : (!f.isSpaceDown && !g.isTapping) = false) (hz : g.motion.offset = 0)
    (hd : (highest f.direction).1 = none) : updatePosition true f g = none := by
  have hz1 : (updateDirection f.direction g).motion.offset = 0 := hz
  have hd1 : (updateDirection f.direction g).gridDirection.dim = none := hd
  simp only [updatePosition, h, if_true, hz1, hd1]
  simp

theorem updatePosition_blocked (f : Frame) (g : Game) (d : Nat)
    (h : (!f.isSpaceDown && !g.isTapping) = false) (hz : g.motion.offset = 0)
    (hd : (highest f.direction).1 = some d)
    (hw : isWall (updateDirection f.direction g)
      (updateDirection f.direction g).gridDirection.sign d = true) :
    updatePosition true f g = some (updateDirection f.direction g, []) := by
  have hz1 : (updateDirection f.direction g).motion.offset = 0 := hz
  have hd1 : (updateDirection f.direction g).gridDirection.dim = some d := hd
  simp only [updatePosition, h, if_true, hz1, hd1, hw]
  simp

theorem updatePosition_go (f : Frame) (g : Game) (d : Nat)
    (h : (!f.isSpaceDown && !g.isTapping) = false) (hz : g.motion.offset = 0)
    (hd : (highest f.direction).1 = some d)
    (hw : isWall (updateDirection f.direction g)
      (updateDirection f.direction g).gridDirection.sign d = false) :
    updatePosition true f g =
      some (finish (advance f (lockDim d (updateDirection f.direction g)))) := by
  have hz1 : (updateDirection f.direction g).motion.offset = 0 := hz
  have hd1 : (updateDirection f.direction g).gridDirection.dim = some d := hd
  simp only [updatePosition, h, if_true, hz1, hd1, hw, finish]
  simp

theorem updatePosition_moving (f : Frame) (g : Game)
    (h : (!f.isSpaceDown && !g.isTapping) = false) (hz : g.motion.offset ≠ 0) :
    updatePosition true f g = some (finish (advance f (updateDirection f.direction g))) := by
  have hz1 : ¬ (updateDirection f.direction g).motion.offset = 0 := hz
  simp only [updatePosition, h, if_true, hz1, finish]
  simp

theorem finish_inv (maze : MultiMazeWalls) (g : Game) (r : Game × List Event)
    (hi : Inv maze r.1) (hs : SafeLog g r.2)
    (hr : replay g.gridPosition r.2 = some r.1.gridPosition) :
    Inv maze (finish r).1 ∧ SafeLog g (finish r).2 ∧
      replay g.gridPosition (finish r).2 = some (finish r).1.gridPosition := by
  unfold finish
  rcases checkWin_cases r.1 with he | he
  · rw [he, List.append_nil]; exact ⟨hi, hs, hr⟩
  · rw [he]
    refine ⟨Inv_of_eq maze r.1 _ rfl rfl rfl rfl rfl hi, ?_, ?_⟩
    · apply SafeLog_append _ _ _ hs
      apply NoCross_safe
      intro c dim sign hm; simp at hm
    · rw [replay_append _ _ _ _ hr]; rfl

theorem frame_inv (maze : MultiMazeWalls) (f : Frame) (b : Bool) (g g' : Game)
    (evs : List Event) (hdelta : 0 ≤ f.delta) (hinv : Inv maze g)
    (h : updatePosition b f g = some (g', evs)) :
    Inv maze g' ∧ SafeLog g evs ∧ replay g.gridPosition evs = some g'.gridPosition := by
  have hdir : Inv maze (updateDirection f.direction g) :=
    Inv_of_eq maze g _ rfl rfl rfl rfl rfl hinv
  have key : ∀ r : Game × List Event, updatePosition b f g = some r →
      Inv maze r.1 ∧ SafeLog g r.2 ∧ replay g.gridPosition r.2 = some r.1.gridPosition := by
    intro r hr
    cases b with
    | false =>
      rw [updatePosition_false] at hr
      obtain rfl := Option.some.inj hr
      exact finish_inv maze g (g, []) hinv (SafeLog_nil g) rfl
    | true =>
      cases hidle : (!f.isSpaceDown && !g.isTapping) with
      | true =>
        rw [updatePosition_idle f g hidle] at hr
        obtain rfl := Option.some.inj hr
        exact ⟨hinv, SafeLog_nil g, rfl⟩
      | false =>
        by_cases hz : g.motion.offset = 0
        · cases hd : (highest f.direction).1 with
          | none =>
            rw [updatePosition_throw f g hidle hz hd] at hr
            exact absurd hr (by simp)
          | some d =>
            cases hw : isWall (updateDirection f.direction g)
                (updateDirection f.direction g).gridDirection.sign d with
            | true =>
              rw [updatePosition_blocked f g d hidle hz hd hw] at hr
              obtain rfl := Option.some.inj hr
              exact ⟨hdir, SafeLog_nil g, rfl⟩
            | false =>
              rw [updatePosition_go f g d hidle hz hd hw] at hr
              obtain rfl := Option.some.inj hr
              have hinv2 : Inv maze (lockDim d (updateDirection f.direction g)) := by
                obtain ⟨hc, hlo, hhi, _⟩ := hdir
                refine ⟨hc, hlo, hhi, ?_, ?_⟩
                · intro hp
                  rw [show (lockDim d (updateDirection f.direction g)).motion.offset = 0
                    from hz] at hp
                  exact absurd hp (lt_irrefl 0)
                · intro hp
                  rw [show (lockDim d (updateDirection f.direction g)).motion.offset = 0
                    from hz] at hp
                  exact absurd hp (lt_irrefl 0)
              have hadv := advance_inv maze f _ hdelta hinv2 (fun _ => ⟨d, rfl, hd, hw⟩)
              exact finish_inv maze g _ hadv.1 hadv.2.1 hadv.2.2
        · rw [updatePosition_moving f g hidle hz] at hr
          obtain rfl := Option.some.inj hr
          have hadv := advance_inv maze f _ hdelta hdir (fun h0 => absurd h0 hz)
          exact finish_inv maze g _ hadv.1 hadv.2.1 hadv.2.2
  exact key (g', evs) h

/-! ## Hyper-moves, taps and `start` -/

theorem hyperMove_cases (sign : Int) (dim : Nat) (g : Game) :
    (hyperMoveAccepted sign dim g = true ∧
        hyperMove sign dim g =
          ({ g with timeouts := g.timeouts ++ [addAt g.gridPosition dim (jsSignInt sign)] },
            [Event.exit])) ∨
      (hyperMoveAccepted sign dim g = false ∧ hyperMove sign dim g = (g, [])) := by
  unfold hyperMove
  cases h : hyperMoveAccepted sign dim g
  · right; simp
  · left; simp

theorem hyperMoveAccepted_iff (sign : Int) (dim : Nat) (g : Game) :
    hyperMoveAccepted sign dim g = true ↔
      3 ≤ dim ∧ dim < g.dimensions ∧ |g.motion.offset| < 1 ∧ isWall g sign dim = false := by
  simp [hyperMoveAccepted, and_assoc]

theorem InMaze_addAt_zero (size pos : List Int) (k : Nat) (h : InMaze size pos) :
    InMaze size (addAt pos k 0) := by
  obtain ⟨hl, hr⟩ := h
  refine ⟨by rw [addAt_length]; exact hl, ?_⟩
  intro i hi
  by_cases hik : i = k
  · subst hik
    rw [addAt_getD_self _ _ _ (by rw [hl]; exact hi), add_zero]
    exact hr i hi
  · rw [addAt_getD_ne _ _ _ _ hik]
    exact hr i hi

theorem hyperMove_target (maze : MultiMazeWalls) (sign : Int) (dim : Nat) (g : Game)
    (hc : Core maze g) (hwall : isWall g sign dim = false) :
    InMaze maze.size (addAt g.gridPosition dim (jsSignInt sign)) := by
  obtain ⟨hdim, hwalls, hin, _⟩ := hc
  rcases lt_trichotomy sign 0 with hneg | hz | hpos
  · rw [isWall_sign_neg g sign dim hneg] at hwall
    obtain ⟨hkd, hne1, _, _⟩ := (isWall_false_neg g dim).mp hwall
    have hs : jsSignInt sign = -1 := by
      have hn : ¬ (0 < sign) := by omega
      simp [jsSignInt, hn, hneg]
    rw [hs]
    exact InMaze_addAt_down _ _ _ hin (by rw [← hdim]; exact hkd) hne1
  · subst hz
    exact InMaze_addAt_zero _ _ _ hin
  · rw [isWall_sign_pos g sign dim hpos] at hwall
    obtain ⟨hkd, _, hne2, _⟩ := (isWall_false_pos g dim).mp hwall
    have hs : jsSignInt sign = 1 := by simp [jsSignInt, hpos]
    rw [hs]
    apply InMaze_addAt_up _ _ _ hin (by rw [← hdim]; exact hkd)
    rw [← hwalls]; exact hne2

theorem hyperMove_inv (maze : MultiMazeWalls) (sign : Int) (dim : Nat) (g : Game)
    (hinv : Inv maze g) : Inv maze (hyperMove sign dim g).1 := by
  rcases hyperMove_cases sign dim g with ⟨hacc, he⟩ | ⟨_, he⟩
  · rw [he]
    obtain ⟨hc, hlo, hhi, ho1, ho2⟩ := hinv
    have htarget := hyperMove_target maze sign dim g hc
      ((hyperMoveAccepted_iff sign dim g).mp hacc).2.2.2
    obtain ⟨hdim, hwalls, hin, htime⟩ := hc
    refine ⟨⟨hdim, hwalls, hin, ?_⟩, hlo, hhi, ho1, ho2⟩
    intro t ht
    rcases List.mem_append.mp ht with h | h
    · exact htime t h
    · rw [List.mem_singleton.mp h]; exact htarget
  · rw [he]; exact hinv

theorem finish_keeps (maze : MultiMazeWalls) (r : Game × List Event) (hi : Inv maze r.1) :
    Inv maze (finish r).1 := by
  unfold finish
  rcases checkWin_cases r.1 with he | he
  · rw [he]; exact hi
  · rw [he]; exact Inv_of_eq maze r.1 _ rfl rfl rfl rfl rfl hi

theorem runTimeout_inv (maze : MultiMazeWalls) (f : Frame) (g g' : Game) (evs : List Event)
    (hinv : Inv maze g) (h : runTimeout f g = some (g', evs)) : Inv maze g' := by
  unfold runTimeout at h
  split at h
  · exact absurd h (by simp)
  · rename_i t rest ht
    obtain ⟨⟨hdim, hwalls, _, htime⟩, _, _, _, _⟩ := hinv
    have hinv1 : Inv maze
        { ({ g with timeouts := rest } : Game) with
          gridPosition := t, motion := { g.motion with offset := 0 } } := by
      refine ⟨⟨hdim, hwalls, htime t (by rw [ht]; exact List.mem_cons_self _ _), ?_⟩,
        by simp, by simp, ?_, ?_⟩
      · intro t' ht'
        exact htime t' (by rw [ht]; exact List.mem_cons_of_mem _ ht')
      · intro hp; simp at hp
      · intro hp; simp at hp
    simp only [hyperMoveCallback, updatePosition_false, Option.map_some', Option.some.injEq,
      Prod.mk.injEq] at h
    obtain ⟨rfl, _⟩ := h
    exact finish_keeps maze _ hinv1

theorem start_inv (size : List Int) (maze : MultiMazeWalls) (hv : ValidMaze size maze) :
    Inv maze (start size maze Game.initial) := by
  obtain ⟨hpos, hsize⟩ := hv
  have hall : size.all (fun a => decide (a > 0)) = true := by
    rw [List.all_eq_true]
    intro a ha
    exact decide_eq_true (hpos a ha)
  have hst : start size maze Game.initial =
      { Game.initial with
        dimensions := size.length, started := true,
        gridPosition := List.replicate size.length 0, walls := maze } := by
    simp [start, hall, Game.initial]
  rw [hst]
  refine ⟨⟨by simp [hsize], rfl, ⟨by simp [hsize], ?_⟩, ?_⟩, ?_, ?_, ?_, ?_⟩
  · intro i hi
    rw [hsize] at hi ⊢
    have hget : (List.replicate size.length (0 : Int)).getD i 0 = 0 := by
      simp [List.getD_eq_getElem?_getD, List.getElem?_replicate, hi]
    have hmem : size.getD i 0 ∈ size := by
      rw [List.getD_eq_getElem _ _ hi]
      exact List.getElem_mem hi
    have := hpos _ hmem
    show 0 ≤ (List.replicate size.length (0 : Int)).getD i 0 ∧
      (List.replicate size.length (0 : Int)).getD i 0 ≤ size.getD i 0 - 1
    rw [hget]
    omega
  · intro t ht
    simp [Game.initial] at ht
  · simp [Game.initial]
  · simp [Game.initial]
  · intro hp; simp [Game.initial] at hp
  · intro hp; simp [Game.initial] at hp

theorem step_inv (maze : MultiMazeWalls) (g g' : Game) (hinv : Inv maze g) (h : Step g g') :
    Inv maze g' := by
  cases h with
  | frame f _ _ evs hdelta hup => exact (frame_inv maze f true g g' evs hdelta hinv hup).1
  | hyper sign dim => exact hyperMove_inv maze sign dim g hinv
  | timeout f _ _ evs hrun => exact runTimeout_inv maze f g g' evs hinv hrun
  | tap => exact Inv_of_eq maze g _ rfl rfl rfl rfl rfl hinv

theorem reachable_inv (size : List Int) (maze : MultiMazeWalls) (g : Game)
    (hv : ValidMaze size maze) (h : Reachable size maze g) : Inv maze g := by
  induction h with
  | start => exact start_inv size maze hv
  | step g g' _ hstep ih => exact step_inv maze g g' ih hstep

/-! ## Bounds of the offset -/

theorem wrapUp_bounds (d : ℚ) (g : Game) :
    (wrapUp d g).1.motion.offset ≤ 2 ∧
      (-2 ≤ g.motion.offset → -2 ≤ (wrapUp d g).1.motion.offset) := by
  induction g using wrapUp.induct d with
  | case1 g h r ih =>
    rw [wrapUp_more d g h]
    refine ⟨ih.1, fun _ => ih.2 ?_⟩
    show -2 ≤ (wrapUpOnce d g).1.motion.offset
    rcases wrapUpOnce_cases d g with ⟨he, _⟩ | ⟨he, _⟩
    · rw [he]
      show -2 ≤ g.motion.offset - 4
      linarith
    · rw [he]
      show (-2 : ℚ) ≤ 0
      norm_num
  | case2 g h =>
    rw [wrapUp_done d g (not_lt.mp h)]
    exact ⟨not_lt.mp h, fun hlo => hlo⟩

theorem wrapDown_bounds (d : ℚ) (g : Game) : -2 ≤ (wrapDown d g).1.motion.offset := by
  induction g using wrapDown.induct d with
  | case1 g h r ih =>
    rw [wrapDown_more d g h]
    exact ih
  | case2 g h =>
    rw [wrapDown_done d g (not_lt.mp h)]
    exact not_lt.mp h

theorem move_state (d : ℚ) (g : Game) :
    (move d g).1 =
      (wrapUp d (wrapDown d
        (if jsSign g.motion.offset * jsSign (addOffset d g).motion.offset = -1
          then stopIfShould d (addOffset d g) else (addOffset d g, [])).1).1).1 := rfl

/-- C3: for every state and every distance, the two wrap loops of `move` are total
functions (they terminate) and the offset that `move` leaves lies in `[-2, 2]`; in
particular neither loop condition holds any more. -/
theorem move_offset_in_range (distance : ℚ) (g : Game) :
    -2 ≤ (move distance g).1.motion.offset ∧ (move distance g).1.motion.offset ≤ 2 ∧
      ¬ ((move distance g).1.motion.offset < -2) ∧ ¬ (2 < (move distance g).1.motion.offset) := by
  rw [move_state]
  have h1 := wrapDown_bounds distance
    (if jsSign g.motion.offset * jsSign (addOffset distance g).motion.offset = -1
      then stopIfShould distance (addOffset distance g) else (addOffset distance g, [])).1
  have h2 := wrapUp_bounds distance (wrapDown distance
    (if jsSign g.motion.offset * jsSign (addOffset distance g).motion.offset = -1
      then stopIfShould distance (addOffset distance g) else (addOffset distance g, [])).1).1
  exact ⟨h2.2 h1, h2.1, not_lt.mpr (h2.2 h1), not_lt.mpr h2.1⟩

/-! ## Safety -/

/-- C1: in every state reachable from `start` on a maze with positive extents (by frames
with elapsed time `≥ 0`, hyper-move requests and their callbacks, and taps), a frame
changes `gridPosition` only through the crossings it logs (replaying them from the old
position gives the new one), each crossing changes the locked coordinate by `+1` or `-1`,
and for each of them `isWall` in that direction, evaluated in the cell `c` that is left,
was false; a frame may log several crossings. -/
theorem never_crosses_wall (size : List Int) (maze : MultiMazeWalls) (g : Game) (f : Frame)
    (r : Game × List Event) (hv : ValidMaze size maze) (hr : Reachable size maze g)
    (hdelta : 0 ≤ f.delta) (hup : updatePosition true f g = some r) :
    replay g.gridPosition r.2 = some r.1.gridPosition ∧
      ∀ c dim sign, Event.cross c dim sign ∈ r.2 →
        (sign = 1 ∨ sign = -1) ∧
          ∃ k, dim = some k ∧ isWall { g with gridPosition := c } sign k = false := by
  have h := frame_inv maze f true g r.1 r.2 hdelta (reachable_inv size maze g hv hr) hup
  exact ⟨h.2.2, h.2.1⟩

theorem validMaze_311 : ValidMaze [3, 1, 1] (openMaze [3, 1, 1]) :=
  ⟨by decide, rfl⟩

theorem demoLong_frame : updatePosition true frameLong demoLong = some demoLongResult :=
  updatePosition_go frameLong demoLong 0 (by decide!) (by decide!) (by decide!) (by decide!)

theorem never_crosses_wall_witness :
    ValidMaze [3, 1, 1] (openMaze [3, 1, 1]) ∧
      Reachable [3, 1, 1] (openMaze [3, 1, 1]) demoLong ∧ (0 : ℚ) ≤ frameLong.delta ∧
      updatePosition true frameLong demoLong = some demoLongResult ∧
      demoLongResult.1.gridPosition = [2, 0, 0] ∧
      demoLongResult.2 =
        [Event.exit, Event.cross [0, 0, 0] (some 0) 1, Event.cross [1, 0, 0] (some 0) 1,
          Event.stop, Event.win] ∧
      (replay demoLong.gridPosition demoLongResult.2 = some demoLongResult.1.gridPosition ∧
        ∀ c dim sign, Event.cross c dim sign ∈ demoLongResult.2 →
          (sign = 1 ∨ sign = -1) ∧
            ∃ k, dim = some k ∧ isWall { demoLong with gridPosition := c } sign k = false) :=
  ⟨validMaze_311, Reachable.start, by decide!, demoLong_frame, by decide!, by decide!,
    never_crosses_wall [3, 1, 1] (openMaze [3, 1, 1]) demoLong frameLong demoLongResult
      validMaze_311 Reachable.start (by decide!) demoLong_frame⟩

/-- Without a restart the player stays inside: in every state reachable from the first
`start` on a maze with positive extents (by frames with elapsed time `≥ 0`, hyper-move
requests and their callbacks, and taps), `gridPosition` has one entry per dimension and
every entry `d` lies in `[0, size[d] - 1]`. -/
theorem grid_stays_inside (size : List Int) (maze : MultiMazeWalls) (g : Game)
    (hv : ValidMaze size maze) (hr : Reachable size maze g) :
    g.gridPosition.length = size.length ∧
      ∀ d, d < size.length →
        0 ≤ g.gridPosition.getD d 0 ∧ g.gridPosition.getD d 0 ≤ size.getD d 0 - 1 := by
  have h := (reachable_inv size maze g hv hr).1.2.2.1
  rw [hv.2] at h
  exact h

theorem grid_stays_inside_witness :
    ValidMaze [3, 1, 1] (openMaze [3, 1, 1]) ∧
      Reachable [3, 1, 1] (openMaze [3, 1, 1]) demoLongResult.1 ∧
      demoLongResult.1.gridPosition = [2, 0, 0] ∧
      (demoLongResult.1.gridPosition.length = [(3 : Int), 1, 1].length ∧
        ∀ d, d < [(3 : Int), 1, 1].length →
          0 ≤ demoLongResult.1.gridPosition.getD d 0 ∧
            demoLongResult.1.gridPosition.getD d 0 ≤ [(3 : Int), 1, 1].getD d 0 - 1) :=
  ⟨validMaze_311,
    Reachable.step demoLong _ Reachable.start
      (Step.frame frameLong demoLong _ demoLongResult.2 (by decide!) demoLong_frame),
    by decide!,
    grid_stays_inside [3, 1, 1] (openMaze [3, 1, 1]) demoLongResult.1 validMaze_311
      (Reachable.step demoLong _ Reachable.start
        (Step.frame frameLong demoLong _ demoLongResult.2 (by decide!) demoLong_frame))⟩

/-! ## The continuous position -/

theorem netCross_append (l1 l2 : List Event) :
    netCross (l1 ++ l2) = netCross l1 + netCross l2 := by
  induction l1 with
  | nil => simp [netCross]
  | cons e rest ih =>
    cases e <;> simp [netCross, ih]
    omega

theorem NoCross_net (evs : List Event) (h : NoCross evs) : netCross evs = 0 := by
  induction evs with
  | nil => rfl
  | cons e rest ih =>
    have hrest : NoCross rest := fun c dim sign hm => h c dim sign (List.mem_cons_of_mem _ hm)
    cases e with
    | cross c dim sign => exact absurd (List.mem_cons_self _ _) (h c dim sign)
    | exit => exact ih hrest
    | enter => exact ih hrest
    | win => exact ih hrest
    | stop => exact ih hrest

theorem wrapUpOnce_track (d : ℚ) (k : Nat) (g : Game) (hk : g.motion.dim = some k)
    (hlen : k < g.gridPosition.length) (hns : Event.stop ∉ (wrapUpOnce d g).2) :
    wrapUpOnce d g = (stepUp g, [Event.cross g.gridPosition (some k) 1]) ∧
      Tracked k 1 g (wrapUpOnce d g) := by
  have hgrid : (stepUp g).gridPosition = addAt g.gridPosition k 1 := by
    simp [stepUp, hk, addAtDim]
  rcases wrapUpOnce_cases d g with ⟨he, _⟩ | ⟨he, _⟩
  · rw [he, hk]
    refine ⟨rfl, hk, ?_, ?_, ?_, ?_, ?_, ?_⟩
    · show (stepUp g).gridPosition.length = _
      rw [hgrid, addAt_length]
    · show g.motion.offset - 4 = _
      simp [netCross]
    · show (stepUp g).gridPosition.getD k 0 = _
      rw [hgrid, addAt_getD_self _ _ _ hlen]
      simp [netCross]
    · intro i hi
      show (stepUp g).gridPosition.getD i 0 = _
      rw [hgrid, addAt_getD_ne _ _ _ _ hi]
    · intro c dm sg hm
      simp at hm
      exact ⟨hm.2.1, hm.2.2⟩
    · simp [replay, hgrid, addAtDim]
  · rw [he] at hns
    simp at hns

theorem wrapDownOnce_track (d : ℚ) (k : Nat) (g : Game) (hk : g.motion.dim = some k)
    (hlen : k < g.gridPosition.length) (hns : Event.stop ∉ (wrapDownOnce d g).2) :
    wrapDownOnce d g = (stepDown g, [Event.cross g.gridPosition (some k) (-1)]) ∧
      Tracked k (-1) g (wrapDownOnce d g) := by
  have hgrid : (stepDown g).gridPosition = addAt g.gridPosition k (-1) := by
    simp [stepDown, hk, addAtDim]
  rcases wrapDownOnce_cases d g with ⟨he, _⟩ | ⟨he, _⟩
  · rw [he, hk]
    refine ⟨rfl, hk, ?_, ?_, ?_, ?_, ?_, ?_⟩
    · show (stepDown g).gridPosition.length = _
      rw [hgrid, addAt_length]
    · show g.motion.offset + 4 = _
      simp [netCross]
    · show (stepDown g).gridPosition.getD k 0 = _
      rw [hgrid, addAt_getD_self _ _ _ hlen]
      simp [netCross]
    · intro i hi
      show (stepDown g).gridPosition.getD i 0 = _
      rw [hgrid, addAt_getD_ne _ _ _ _ hi]
    · intro c dm sg hm
      simp at hm
      exact ⟨hm.2.1, hm.2.2⟩
    · simp [replay, hgrid, addAtDim]
  · rw [he] at hns
    simp at hns

theorem Tracked_trans (k : Nat) (s : Int) (g : Game) (r1 r2 : Game × List Event)
    (h1 : Tracked k s g r1) (h2 : Tracked k s r1.1 r2) : Tracked k s g (r2.1, r1.2 ++ r2.2) := by
  obtain ⟨a1, a2, a3, a4, a5, a6, a7⟩ := h1
  obtain ⟨b1, b2, b3, b4, b5, b6, b7⟩ := h2
  refine ⟨b1, by rw [b2, a2], ?_, ?_, ?_, ?_, ?_⟩
  · show r2.1.motion.offset = g.motion.offset - 4 * (netCross (r1.2 ++ r2.2) : ℚ)
    rw [netCross_append, b3, a3]
    push_cast
    ring
  · show r2.1.gridPosition.getD k 0 = g.gridPosition.getD k 0 + netCross (r1.2 ++ r2.2)
    rw [netCross_append, b4, a4]
    ring
  · intro i hi
    show r2.1.gridPosition.getD i 0 = _
    rw [b5 i hi, a5 i hi]
  · intro c dm sg hm
    rcases List.mem_append.mp hm with h | h
    · exact a6 c dm sg h
    · exact b6 c dm sg h
  · show replay g.gridPosition (r1.2 ++ r2.2) = some r2.1.gridPosition
    rw [replay_append _ _ _ _ a7]
    exact b7

theorem Tracked_refl (k : Nat) (s : Int) (g : Game) (hk : g.motion.dim = some k) :
    Tracked k s g (g, []) := by
  refine ⟨hk, rfl, ?_, ?_, fun _ _ => rfl, ?_, rfl⟩
  · simp [netCross]
  · simp [netCross]
  · intro c dm sg hm
    simp at hm

theorem wrapUp_track (d : ℚ) (k : Nat) (g : Game) :
    g.motion.dim = some k → k < g.gridPosition.length → Event.stop ∉ (wrapUp d g).2 →
      Tracked k 1 g (wrapUp d g) ∧ ((wrapUp d g).2 ≠ [] → 2 < g.motion.offset) := by
  induction g using wrapUp.induct d with
  | case1 g h r ih =>
    intro hk hlen hns
    rw [wrapUp_more d g h] at hns ⊢
    have hns1 : Event.stop ∉ (wrapUpOnce d g).2 := fun hm =>
      hns (List.mem_append.mpr (Or.inl hm))
    have hns2 : Event.stop ∉ (wrapUp d (wrapUpOnce d g).1).2 := fun hm =>
      hns (List.mem_append.mpr (Or.inr hm))
    obtain ⟨_, ht1⟩ := wrapUpOnce_track d k g hk hlen hns1
    have ht2 := (ih ht1.1 (by rw [ht1.2.1]; exact hlen) hns2).1
    exact ⟨Tracked_trans k 1 g _ _ ht1 ht2, fun _ => h⟩
  | case2 g h =>
    intro hk _ _
    rw [wrapUp_done d g (not_lt.mp h)]
    exact ⟨Tracked_refl k 1 g hk, fun hne => absurd rfl hne⟩

theorem wrapDown_track (d : ℚ) (k : Nat) (g : Game) :
    g.motion.dim = some k → k < g.gridPosition.length → Event.stop ∉ (wrapDown d g).2 →
      Tracked k (-1) g (wrapDown d g) ∧ ((wrapDown d g).2 ≠ [] → g.motion.offset < -2) := by
  induction g using wrapDown.induct d with
  | case1 g h r ih =>
    intro hk hlen hns
    rw [wrapDown_more d g h] at hns ⊢
    have hns1 : Event.stop ∉ (wrapDownOnce d g).2 := fun hm =>
      hns (List.mem_append.mpr (Or.inl hm))
    have hns2 : Event.stop ∉ (wrapDown d (wrapDownOnce d g).1).2 := fun hm =>
      hns (List.mem_append.mpr (Or.inr hm))
    obtain ⟨_, ht1⟩ := wrapDownOnce_track d k g hk hlen hns1
    have ht2 := (ih ht1.1 (by rw [ht1.2.1]; exact hlen) hns2).1
    exact ⟨Tracked_trans k (-1) g _ _ ht1 ht2, fun _ => h⟩
  | case2 g h =>
    intro hk _ _
    rw [wrapDown_done d g (not_lt.mp h)]
    exact ⟨Tracked_refl k (-1) g hk, fun hne => absurd rfl hne⟩

theorem wrapDown_le (d : ℚ) (g : Game) :
    g.motion.offset ≤ 2 → (wrapDown d g).1.motion.offset ≤ 2 := by
  induction g using wrapDown.induct d with
  | case1 g h r ih =>
    intro _
    rw [wrapDown_more d g h]
    apply ih
    show (wrapDownOnce d g).1.motion.offset ≤ 2
    rcases wrapDownOnce_cases d g with ⟨he, _⟩ | ⟨he, _⟩
    · rw [he]
      show g.motion.offset + 4 ≤ 2
      linarith
    · rw [he]
      show (0 : ℚ) ≤ 2
      norm_num
  | case2 g h =>
    intro hhi
    rw [wrapDown_done d g (not_lt.mp h)]
    exact hhi

theorem move_log (d : ℚ) (g : Game) :
    (move d g).2 =
      (if |g.motion.offset| ≤ 1 ∧ |g.motion.offset + d| > 1 then [Event.exit] else []) ++
        (if |g.motion.offset| > 1 ∧ |g.motion.offset + d| ≤ 1 then [Event.enter] else []) ++
        (if jsSign g.motion.offset * jsSign (addOffset d g).motion.offset = -1
          then stopIfShould d (addOffset d g) else (addOffset d g, [])).2 ++
        (wrapDown d
          (if jsSign g.motion.offset * jsSign (addOffset d g).motion.offset = -1
            then stopIfShould d (addOffset d g) else (addOffset d g, [])).1).2 ++
        (wrapUp d (wrapDown d
          (if jsSign g.motion.offset * jsSign (addOffset d g).motion.offset = -1
            then stopIfShould d (addOffset d g) else (addOffset d g, [])).1).1).2 := rfl

theorem NoCross_exit_enter (a b : Prop) [Decidable a] [Decidable b] :
    NoCross ((if a then [Event.exit] else []) ++ (if b then [Event.enter] else [])) := by
  intro c dim sign hm
  split_ifs at hm <;> simp at hm

theorem move_track (d : ℚ) (k : Nat) (g : Game) (hk : g.motion.dim = some k)
    (hlen : k < g.gridPosition.length) (hns : Event.stop ∉ (move d g).2) :
    (move d g).1.gridPosition.length = g.gridPosition.length ∧
      (move d g).1.motion.offset = g.motion.offset + d - 4 * (netCross (move d g).2 : ℚ) ∧
      (move d g).1.gridPosition.getD k 0 = g.gridPosition.getD k 0 + netCross (move d g).2 ∧
      (∀ i, i ≠ k → (move d g).1.gridPosition.getD i 0 = g.gridPosition.getD i 0) ∧
      replay g.gridPosition (move d g).2 = some (move d g).1.gridPosition ∧
      ∀ c dm sg, Event.cross c dm sg ∈ (move d g).2 →
        dm = some k ∧
          ((sg = 1 ∧ 2 < g.motion.offset + d) ∨ (sg = -1 ∧ g.motion.offset + d < -2)) ∧
          (-2 ≤ g.motion.offset → g.motion.offset ≤ 2 → (sg : ℚ) = jsSign d) := by
  have hlog := move_log d g
  have hstate := move_state d g
  rcases moveHead_cases d g with ⟨he, _⟩ | ⟨he, _⟩
  · rw [he] at hlog hstate
    simp only [List.append_nil] at hlog
    rw [hlog] at hns
    have hns1 : Event.stop ∉ (wrapDown d (addOffset d g)).2 := fun hm =>
      hns (List.mem_append.mpr (Or.inl (List.mem_append.mpr (Or.inr hm))))
    have hns2 : Event.stop ∉ (wrapUp d (wrapDown d (addOffset d g)).1).2 := fun hm =>
      hns (List.mem_append.mpr (Or.inr hm))
    obtain ⟨⟨a1, a2, a3, a4, a5, a6, a7⟩, adown⟩ :=
      wrapDown_track d k (addOffset d g) hk hlen hns1
    obtain ⟨⟨b1, b2, b3, b4, b5, b6, b7⟩, bup⟩ :=
      wrapUp_track d k (wrapDown d (addOffset d g)).1 a1 (by rw [a2]; exact hlen) hns2
    have hpre := NoCross_exit_enter (|g.motion.offset| ≤ 1 ∧ |g.motion.offset + d| > 1)
      (|g.motion.offset| > 1 ∧ |g.motion.offset + d| ≤ 1)
    have hnet : netCross (move d g).2 =
        netCross (wrapDown d (addOffset d g)).2 +
          netCross (wrapUp d (wrapDown d (addOffset d g)).1).2 := by
      rw [hlog, netCross_append, netCross_append, NoCross_net _ hpre, zero_add]
    rw [hnet, hstate, hlog]
    refine ⟨by rw [b2, a2]; rfl, ?_, ?_, ?_, ?_, ?_⟩
    · rw [b3, a3]
      show g.motion.offset + d - _ - _ = _
      push_cast
      ring
    · rw [b4, a4]
      show g.gridPosition.getD k 0 + _ + _ = _
      ring
    · intro i hi
      rw [b5 i hi, a5 i hi]
      rfl
    · rw [List.append_assoc, replay_append _ _ _ _ (NoCross_replay _ _ hpre),
        replay_append _ _ g.gridPosition _ a7]
      exact b7
    · intro c dm sg hm
      have hoff : (addOffset d g).motion.offset = g.motion.offset + d := rfl
      rcases List.mem_append.mp hm with hm1 | hm3
      · rcases List.mem_append.mp hm1 with hm0 | hm2
        · exact absurd hm0 (hpre c dm sg)
        · obtain ⟨h1, h2⟩ := a6 c dm sg hm2
          have hlt := adown (List.ne_nil_of_mem hm2)
          rw [hoff] at hlt
          refine ⟨h1, Or.inr ⟨h2, hlt⟩, fun hlo _ => ?_⟩
          have hd : d < 0 := by linarith
          have hnd : ¬ (0 < d) := not_lt.mpr (le_of_lt hd)
          rw [h2]
          simp [jsSign, hd, hnd]
      · obtain ⟨h1, h2⟩ := b6 c dm sg hm3
        have hgt := bup (List.ne_nil_of_mem hm3)
        have hside : 2 < g.motion.offset + d := by
          by_contra hcon
          have hle : (addOffset d g).motion.offset ≤ 2 := by
            rw [hoff]; exact not_lt.mp hcon
          have := wrapDown_le d (addOffset d g) hle
          linarith
        refine ⟨h1, Or.inl ⟨h2, hside⟩, fun hlo hhi => ?_⟩
        have hd : 0 < d := by linarith
        rw [h2]
        simp [jsSign, hd]
  · rw [he] at hlog
    rw [hlog] at hns
    exact absurd (List.mem_append.mpr (Or.inl (List.mem_append.mpr
      (Or.inl (List.mem_append.mpr (Or.inr (List.mem_singleton.mpr rfl))))))) hns

theorem stepUp_wrap (k : Nat) (h : Game) (hk : h.motion.dim = some k)
    (hlen : k < h.gridPosition.length) (hgt : 2 < h.motion.offset) :
    (stepUp h).motion.offset = h.motion.offset - 4 ∧
      |(stepUp h).motion.offset| < |h.motion.offset| ∧
      (stepUp h).gridPosition.getD k 0 = h.gridPosition.getD k 0 + 1 := by
  refine ⟨rfl, ?_, ?_⟩
  · show |h.motion.offset - 4| < |h.motion.offset|
    rw [abs_lt, abs_of_pos (by linarith : (0 : ℚ) < h.motion.offset)]
    constructor <;> linarith
  · have hgrid : (stepUp h).gridPosition = addAt h.gridPosition k 1 := by
      simp [stepUp, hk, addAtDim]
    rw [hgrid, addAt_getD_self _ _ _ hlen]

theorem stepDown_wrap (k : Nat) (h : Game) (hk : h.motion.dim = some k)
    (hlen : k < h.gridPosition.length) (hlt : h.motion.offset < -2) :
    (stepDown h).motion.offset = h.motion.offset + 4 ∧
      |(stepDown h).motion.offset| < |h.motion.offset| ∧
      (stepDown h).gridPosition.getD k 0 = h.gridPosition.getD k 0 - 1 := by
  refine ⟨rfl, ?_, ?_⟩
  · show |h.motion.offset + 4| < |h.motion.offset|
    rw [abs_lt, abs_of_neg (by linarith : h.motion.offset < 0)]
    constructor <;> linarith
  · have hgrid : (stepDown h).gridPosition = addAt h.gridPosition k (-1) := by
      simp [stepDown, hk, addAtDim]
    rw [hgrid, addAt_getD_self _ _ _ hlen]
    ring

/-- C4, with exact sums (offset and distance as rationals, no rounding): for every state
with a locked axis `k` (an index of `gridPosition`) and every distance, if no stop fires
during `move`, then `4 * gridPosition[k] + offset` after the
call is its value before plus `distance`; the offset changes by `distance` minus 4 per
net crossing and `gridPosition[k]` by the net crossing count; the other coordinates and
the length are unchanged; `gridPosition` changes only by the logged crossings, each on
axis `k` by exactly 1 toward the side on which `offset + distance` has left `[-2, 2]`,
which from an offset in `[-2, 2]` is the sign of `distance`; one wrap (`stepUp`,
`stepDown`) changes the offset by exactly 4 toward zero and `gridPosition[k]` by
exactly 1. -/
theorem move_preserves_position (distance : ℚ) (g : Game) (k : Nat)
    (hk : g.motion.dim = some k) (hlen : k < g.gridPosition.length)
    (hns : Event.stop ∉ (move distance g).2) :
    4 * ((move distance g).1.gridPosition.getD k 0 : ℚ) + (move distance g).1.motion.offset =
        4 * (g.gridPosition.getD k 0 : ℚ) + g.motion.offset + distance ∧
      (move distance g).1.motion.offset =
        g.motion.offset + distance - 4 * (netCross (move distance g).2 : ℚ) ∧
      (move distance g).1.gridPosition.getD k 0 =
        g.gridPosition.getD k 0 + netCross (move distance g).2 ∧
      (move distance g).1.gridPosition.length = g.gridPosition.length ∧
      (∀ i, i ≠ k → (move distance g).1.gridPosition.getD i 0 = g.gridPosition.getD i 0) ∧
      replay g.gridPosition (move distance g).2 = some (move distance g).1.gridPosition ∧
      (∀ c dm sg, Event.cross c dm sg ∈ (move distance g).2 →
        dm = some k ∧
          ((sg = 1 ∧ 2 < g.motion.offset + distance) ∨
            (sg = -1 ∧ g.motion.offset + distance < -2)) ∧
          (-2 ≤ g.motion.offset → g.motion.offset ≤ 2 → (sg : ℚ) = jsSign distance)) ∧
      (∀ h : Game, h.motion.dim = some k → k < h.gridPosition.length →
        (2 < h.motion.offset →
          (stepUp h).motion.offset = h.motion.offset - 4 ∧
            |(stepUp h).motion.offset| < |h.motion.offset| ∧
            (stepUp h).gridPosition.getD k 0 = h.gridPosition.getD k 0 + 1) ∧
        (h.motion.offset < -2 →
          (stepDown h).motion.offset = h.motion.offset + 4 ∧
            |(stepDown h).motion.offset| < |h.motion.offset| ∧
            (stepDown h).gridPosition.getD k 0 = h.gridPosition.getD k 0 - 1)) := by
  obtain ⟨h1, h2, h3, h4, h5, h6⟩ := move_track distance k g hk hlen hns
  refine ⟨?_, h2, h3, h1, h4, h5, h6, ?_⟩
  · rw [h2, h3]
    push_cast
    ring
  · intro h hhk hhlen
    exact ⟨stepUp_wrap k h hhk hhlen, stepDown_wrap k h hhk hhlen⟩

theorem move_preserves_position_witness :
    demoLocked.motion.dim = some 0 ∧ 0 < demoLocked.gridPosition.length ∧
      Event.stop ∉ (move 3 demoLocked).2 ∧
      (move 3 demoLocked).2 = [Event.exit, Event.cross [0, 0, 0] (some 0) 1] ∧
      (move 3 demoLocked).1.gridPosition = [1, 0, 0] ∧
      (move 3 demoLocked).1.motion.offset = -1 ∧
      4 * ((move 3 demoLocked).1.gridPosition.getD 0 0 : ℚ) + (move 3 demoLocked).1.motion.offset =
        4 * (demoLocked.gridPosition.getD 0 0 : ℚ) + demoLocked.motion.offset + 3 :=
  ⟨by decide!, by decide!, by decide!, by decide!, by decide!, by decide!,
    (move_preserves_position 3 demoLocked 0 (by decide!) (by decide!) (by decide!)).1⟩

/-- C5: in a state whose `gridPosition` has one entry per dimension, `isWall(sign, dim)`
is true exactly if `dim ≥ N`, or `p[dim]` is `-1` or `size[dim] - 1`, or the wall grid of
`dim` is true at `p`, where `p` is `gridPosition` with entry `dim` lowered by one when
`sign < 0` and `gridPosition` itself otherwise; so a step across the outer boundary (down
from coordinate 0, up from coordinate `size[dim] - 1`) is reported as blocked, and
`isWall(-1, dim)` equals `isWall(+1, dim)` asked one cell lower along `dim`. -/
theorem isWall_boundary_or_wall (g : Game) (sign : Int) (dim : Nat)
    (hlen : g.gridPosition.length = g.dimensions) :
    (isWall g sign dim = true ↔
        g.dimensions ≤ dim ∨
          (if sign < 0 then addAt g.gridPosition dim (-1) else g.gridPosition).getD dim 0 = -1 ∨
          (if sign < 0 then addAt g.gridPosition dim (-1) else g.gridPosition).getD dim 0 =
            g.walls.size.getD dim 0 - 1 ∨
          g.walls.walls dim
            (if sign < 0 then addAt g.gridPosition dim (-1) else g.gridPosition) = true) ∧
      (dim < g.dimensions →
        (addAt g.gridPosition dim (-1)).length = g.gridPosition.length ∧
          ∀ i, (addAt g.gridPosition dim (-1)).getD i 0 =
            g.gridPosition.getD i 0 - (if i = dim then 1 else 0)) ∧
      (g.gridPosition.getD dim 0 = 0 → isWall g (-1) dim = true) ∧
      (g.gridPosition.getD dim 0 = g.walls.size.getD dim 0 - 1 → isWall g 1 dim = true) ∧
      isWall g (-1) dim =
        isWall { g with gridPosition := addAt g.gridPosition dim (-1) } 1 dim := by
  have hself : dim < g.dimensions →
      (addAt g.gridPosition dim (-1)).getD dim 0 = g.gridPosition.getD dim 0 - 1 := by
    intro hd
    rw [addAt_getD_self _ _ _ (by rw [hlen]; exact hd)]
    ring
  refine ⟨?_, ?_, ?_, ?_, isWall_neg_eq g dim⟩
  · unfold isWall
    by_cases hd : dim ≥ g.dimensions
    · simp [hd]
    · have hd2 : ¬ g.dimensions ≤ dim := hd
      simp only [hd, if_false, hd2, false_or, Bool.or_eq_true, beq_iff_eq, or_assoc]
  · intro hd
    refine ⟨addAt_length _ _ _, fun i => ?_⟩
    by_cases hi : i = dim
    · subst hi
      rw [hself hd]
      simp
    · rw [addAt_getD_ne _ _ _ _ hi]
      simp [hi]
  · intro hz
    by_cases hd : dim < g.dimensions
    · by_contra hcon
      rw [Bool.not_eq_true] at hcon
      have := ((isWall_false_neg g dim).mp hcon).2.1
      rw [hself hd, hz] at this
      exact this rfl
    · simp [isWall, not_lt.mp hd]
  · intro hz
    by_contra hcon
    rw [Bool.not_eq_true] at hcon
    exact ((isWall_false_pos g dim).mp hcon).2.2.1 hz

theorem isWall_boundary_or_wall_witness :
    demoStart.gridPosition.length = demoStart.dimensions ∧
      isWall demoStart (-1) 0 = true ∧ isWall demoStart 1 0 = false ∧
      isWall demoStart (-1) 0 =
        isWall { demoStart with gridPosition := addAt demoStart.gridPosition 0 (-1) } 1 0 :=
  ⟨by decide!, by decide!, by decide!,
    (isWall_boundary_or_wall demoStart (-1) 0 (by decide!)).2.2.2.2⟩

/-! ## Hyper-moves -/

theorem hyperMoveCallback_eq (t : List Int) (f : Frame) (g : Game) :
    hyperMoveCallback t f g =
      some ((finish (swapTo t g, [])).1, Event.enter :: (finish (swapTo t g, [])).2) := by
  simp only [hyperMoveCallback, updatePosition_false, Option.map_some']

theorem hyperMoveCallback_result (t : List Int) (f : Frame) (g : Game) :
    ∃ r, hyperMoveCallback t f g = some r ∧ r.1.gridPosition = t ∧ r.1.motion.offset = 0 := by
  refine ⟨_, hyperMoveCallback_eq t f g, ?_, ?_⟩
  · show (finish _).1.gridPosition = t
    unfold finish
    rcases checkWin_cases (swapTo t g) with he | he <;> rw [he] <;> rfl
  · show (finish _).1.motion.offset = 0
    unfold finish
    rcases checkWin_cases (swapTo t g) with he | he <;> rw [he] <;> rfl

theorem jsSignInt_unit (sign : Int) (hs : sign = 1 ∨ sign = -1) : jsSignInt sign = sign := by
  rcases hs with rfl | rfl <;> rfl

/-- C6: for every state, `sign` in `{-1, +1}` and `dim`: if `3 ≤ dim < N`, `|offset| < 1`
and `isWall(sign, dim)` is false, `hyperMove` calls `exit` and queues one callback with
the copy of `gridPosition` whose entry `dim` is changed by `sign`, leaving the state
otherwise as it is, and that callback, whenever it runs, installs this copy and sets the
offset to 0; in every other case `hyperMove` returns with the state unchanged and no
effect. So a callback is queued exactly in the first case. -/
theorem hyperMove_accepted_iff (g : Game) (sign : Int) (dim : Nat)
    (hs : sign = 1 ∨ sign = -1) :
    ((3 ≤ dim ∧ dim < g.dimensions ∧ |g.motion.offset| < 1 ∧ isWall g sign dim = false) →
        hyperMove sign dim g =
            ({ g with timeouts := g.timeouts ++ [addAt g.gridPosition dim sign] },
              [Event.exit]) ∧
          ∀ (f : Frame) (g2 : Game), ∃ r,
            hyperMoveCallback (addAt g.gridPosition dim sign) f g2 = some r ∧
              r.1.gridPosition = addAt g.gridPosition dim sign ∧ r.1.motion.offset = 0) ∧
      (¬ (3 ≤ dim ∧ dim < g.dimensions ∧ |g.motion.offset| < 1 ∧ isWall g sign dim = false) →
        hyperMove sign dim g = (g, [])) ∧
      ((hyperMove sign dim g).1.timeouts ≠ g.timeouts ↔
        (3 ≤ dim ∧ dim < g.dimensions ∧ |g.motion.offset| < 1 ∧ isWall g sign dim = false)) := by
  have hiff := hyperMoveAccepted_iff sign dim g
  rcases hyperMove_cases sign dim g with ⟨hacc, he⟩ | ⟨hrej, he⟩
  · rw [jsSignInt_unit sign hs] at he
    have hcond := hiff.mp hacc
    refine ⟨fun _ => ⟨he, fun f g2 => hyperMoveCallback_result _ f g2⟩,
      fun hn => absurd hcond hn, ?_⟩
    rw [he]
    constructor
    · intro _; exact hcond
    · intro _ heq
      have hl := congrArg List.length heq
      simp at hl
  · have hcond : ¬ (3 ≤ dim ∧ dim < g.dimensions ∧ |g.motion.offset| < 1 ∧
        isWall g sign dim = false) := by
      intro hc
      rw [hiff.mpr hc] at hrej
      exact Bool.noConfusion hrej
    refine ⟨fun hc => absurd hc hcond, fun _ => he, ?_⟩
    rw [he]
    constructor
    · intro hne; exact absurd rfl hne
    · intro hc; exact absurd hc hcond

theorem hyperMove_accepted_iff_witness :
    ((1 : Int) = 1 ∨ (1 : Int) = -1) ∧
      (3 ≤ 3 ∧ 3 < demoHyper.dimensions ∧ |demoHyper.motion.offset| < 1 ∧
        isWall demoHyper 1 3 = false) ∧
      (hyperMove 1 3 demoHyper).1.timeouts = [[0, 0, 0, 1]] ∧
      hyperMove 1 3 demoHyper =
        ({ demoHyper with
            timeouts := demoHyper.timeouts ++ [addAt demoHyper.gridPosition 3 1] },
          [Event.exit]) :=
  ⟨by decide, by decide!, by decide!,
    ((hyperMove_accepted_iff demoHyper 1 3 (by decide)).1 (by decide!)).1⟩

/-- C7, as the code has it: a `hyperMove` request made while earlier ones are pending is
decided like any other: if `3 ≤ dim < N`, `|offset| < 1` and `isWall(sign, dim)` is false
at the current `gridPosition` it calls `exit` and queues its own callback behind the
pending ones, otherwise it changes nothing; and with any list `ts` of pending callbacks
it does what it does with none. -/
theorem hyperMove_regardless_of_pending (sign : Int) (dim : Nat) (g : Game)
    (ts : List (List Int)) :
    ((3 ≤ dim ∧ dim < g.dimensions ∧ |g.motion.offset| < 1 ∧ isWall g sign dim = false) →
        hyperMove sign dim { g with timeouts := ts } =
          ({ g with timeouts := ts ++ [addAt g.gridPosition dim (jsSignInt sign)] },
            [Event.exit])) ∧
      (¬ (3 ≤ dim ∧ dim < g.dimensions ∧ |g.motion.offset| < 1 ∧ isWall g sign dim = false) →
        hyperMove sign dim { g with timeouts := ts } = ({ g with timeouts := ts }, [])) ∧
      hyperMove sign dim { g with timeouts := ts } =
        ({ (hyperMove sign dim { g with timeouts := [] }).1 with
            timeouts := ts ++ (hyperMove sign dim { g with timeouts := [] }).1.timeouts },
          (hyperMove sign dim { g with timeouts := [] }).2) := by
  have hacc : hyperMoveAccepted sign dim { g with timeouts := ts } =
      hyperMoveAccepted sign dim { g with timeouts := [] } := by
    simp only [hyperMoveAccepted]
    rw [isWall_congr { g with timeouts := [] } { g with timeouts := ts } sign dim rfl rfl rfl]
  have hiff := hyperMoveAccepted_iff sign dim { g with timeouts := ts }
  have hw : isWall { g with timeouts := ts } sign dim = isWall g sign dim :=
    isWall_congr g { g with timeouts := ts } sign dim rfl rfl rfl
  rw [hw] at hiff
  refine ⟨?_, ?_, ?_⟩
  · intro hc
    rcases hyperMove_cases sign dim { g with timeouts := ts } with ⟨_, he⟩ | ⟨hrej, _⟩
    · exact he
    · rw [hiff.mpr hc] at hrej
      exact Bool.noConfusion hrej
  · intro hc
    rcases hyperMove_cases sign dim { g with timeouts := ts } with ⟨hyes, _⟩ | ⟨_, he⟩
    · exact absurd (hiff.mp hyes) hc
    · exact he
  · unfold hyperMove
    rw [hacc]
    cases hyperMoveAccepted sign dim { g with timeouts := [] }
    · simp
    · simp

theorem hyperMove_regardless_of_pending_witness :
    (3 ≤ 3 ∧ 3 < demoHyper.dimensions ∧ |demoHyper.motion.offset| < 1 ∧
        isWall demoHyper 1 3 = false) ∧
      hyperMove 1 3 { demoHyper with timeouts := [[0, 0, 0, 1]] } =
        ({ demoHyper with
            timeouts := [[0, 0, 0, 1]] ++ [addAt demoHyper.gridPosition 3 (jsSignInt 1)] },
          [Event.exit]) :=
  ⟨by decide!,
    (hyperMove_regardless_of_pending 1 3 demoHyper [[0, 0, 0, 1]]).1 (by decide!)⟩

/-- C7 fails as stated: on the open 1x1x1x2 maze, after an accepted `hyperMove(1, 3)`
whose callback is still pending, a second `hyperMove(1, 3)` is accepted too: it calls
`exit` and queues a second callback. -/
theorem second_hyperMove_not_ignored :
    demoPending.timeouts = [[0, 0, 0, 1]] ∧
      (hyperMove 1 3 demoPending).1.timeouts = [[0, 0, 0, 1], [0, 0, 0, 1]] ∧
      (hyperMove 1 3 demoPending).2 = [Event.exit] ∧
      (hyperMove 1 3 demoPending).1.timeouts ≠ demoPending.timeouts := by
  refine ⟨by decide!, by decide!, by decide!, by decide!⟩

/-! ## Winning -/

theorem wrapUp_won (d : ℚ) (g : Game) :
    (wrapUp d g).1.won = g.won ∧ Event.win ∉ (wrapUp d g).2 := by
  induction g using wrapUp.induct d with
  | case1 g h r ih =>
    rw [wrapUp_more d g h]
    have h1 : (wrapUpOnce d g).1.won = g.won ∧ Event.win ∉ (wrapUpOnce d g).2 := by
      rcases wrapUpOnce_cases d g with ⟨he, _⟩ | ⟨he, _⟩ <;> rw [he] <;>
        exact ⟨rfl, by simp⟩
    refine ⟨ih.1.trans h1.1, fun hm => ?_⟩
    rcases List.mem_append.mp hm with hm1 | hm2
    · exact h1.2 hm1
    · exact ih.2 hm2
  | case2 g h =>
    rw [wrapUp_done d g (not_lt.mp h)]
    exact ⟨rfl, by simp⟩

theorem wrapDown_won (d : ℚ) (g : Game) :
    (wrapDown d g).1.won = g.won ∧ Event.win ∉ (wrapDown d g).2 := by
  induction g using wrapDown.induct d with
  | case1 g h r ih =>
    rw [wrapDown_more d g h]
    have h1 : (wrapDownOnce d g).1.won = g.won ∧ Event.win ∉ (wrapDownOnce d g).2 := by
      rcases wrapDownOnce_cases d g with ⟨he, _⟩ | ⟨he, _⟩ <;> rw [he] <;>
        exact ⟨rfl, by simp⟩
    refine ⟨ih.1.trans h1.1, fun hm => ?_⟩
    rcases List.mem_append.mp hm with hm1 | hm2
    · exact h1.2 hm1
    · exact ih.2 hm2
  | case2 g h =>
    rw [wrapDown_done d g (not_lt.mp h)]
    exact ⟨rfl, by simp⟩

theorem move_won (d : ℚ) (g : Game) : (move d g).1.won = g.won ∧ Event.win ∉ (move d g).2 := by
  rw [move_state, move_log]
  have hhead : ∀ r : Game × List Event,
      (r = (addOffset d g, []) ∨
        r = ({ addOffset d g with
                motion := { (addOffset d g).motion with offset := 0 }, isTapping := false },
              [Event.stop])) →
      (wrapUp d (wrapDown d r.1).1).1.won = g.won ∧
        Event.win ∉
          (if |g.motion.offset| ≤ 1 ∧ |g.motion.offset + d| > 1 then [Event.exit] else []) ++
            (if |g.motion.offset| > 1 ∧ |g.motion.offset + d| ≤ 1 then [Event.enter] else []) ++
            r.2 ++ (wrapDown d r.1).2 ++ (wrapUp d (wrapDown d r.1).1).2 := by
    intro r hr
    have h1 := wrapDown_won d r.1
    have h2 := wrapUp_won d (wrapDown d r.1).1
    have hw : r.1.won = g.won := by rcases hr with rfl | rfl <;> rfl
    have hl : Event.win ∉ r.2 := by rcases hr with rfl | rfl <;> simp
    refine ⟨h2.1.trans (h1.1.trans hw), fun hm => ?_⟩
    rcases List.mem_append.mp hm with hm | hm
    · rcases List.mem_append.mp hm with hm | hm
      · rcases List.mem_append.mp hm with hm | hm
        · rcases List.mem_append.mp hm with hm | hm
          · split_ifs at hm <;> simp at hm
          · split_ifs at hm <;> simp at hm
        · exact hl hm
      · exact h1.2 hm
    · exact h2.2 hm
  apply hhead
  rcases moveHead_cases d g with ⟨he, _⟩ | ⟨he, _⟩
  · exact Or.inl he
  · exact Or.inr he

theorem advance_won (f : Frame) (g : Game) :
    (advance f g).1.won = g.won ∧ Event.win ∉ (advance f g).2 := by
  unfold advance
  split_ifs
  · exact move_won _ g
  · exact move_won _ g

theorem finish_won (r : Game × List Event) (hw : r.1.won = true) (hl : Event.win ∉ r.2) :
    (finish r).1.won = true ∧ Event.win ∉ (finish r).2 := by
  have hc : checkWin r.1 = (r.1, []) := by simp [checkWin, hw]
  simp only [finish, hc, List.append_nil]
  exact ⟨hw, hl⟩

/-- C8, as the code has it: once `won` is true, every further `updatePosition` call (any
input, view direction and elapsed time, with or without `onlyIfMoving`) that returns
leaves `won` true and does not run the win branch again. (It may still change
`gridPosition`.) -/
theorem won_is_kept (b : Bool) (f : Frame) (g : Game) (r : Game × List Event)
    (hw : g.won = true) (h : updatePosition b f g = some r) :
    r.1.won = true ∧ Event.win ∉ r.2 := by
  cases b with
  | false =>
    rw [updatePosition_false] at h
    obtain rfl := Option.some.inj h
    exact finish_won (g, []) hw (by simp)
  | true =>
    cases hidle : (!f.isSpaceDown && !g.isTapping) with
    | true =>
      rw [updatePosition_idle f g hidle] at h
      obtain rfl := Option.some.inj h
      exact ⟨hw, by simp⟩
    | false =>
      by_cases hz : g.motion.offset = 0
      · cases hd : (highest f.direction).1 with
        | none =>
          rw [updatePosition_throw f g hidle hz hd] at h
          exact absurd h (by simp)
        | some d =>
          cases hwall : isWall (updateDirection f.direction g)
              (updateDirection f.direction g).gridDirection.sign d with
          | true =>
            rw [updatePosition_blocked f g d hidle hz hd hwall] at h
            obtain rfl := Option.some.inj h
            exact ⟨hw, by simp⟩
          | false =>
            rw [updatePosition_go f g d hidle hz hd hwall] at h
            obtain rfl := Option.some.inj h
            have ha := advance_won f (lockDim d (updateDirection f.direction g))
            exact finish_won _ (ha.1.trans hw) ha.2
      · rw [updatePosition_moving f g hidle hz] at h
        obtain rfl := Option.some.inj h
        have ha := advance_won f (updateDirection f.direction g)
        exact finish_won _ (ha.1.trans hw) ha.2

theorem validMaze_211 : ValidMaze [2, 1, 1] (openMaze [2, 1, 1]) :=
  ⟨by decide, rfl⟩

theorem demoTwo_frame : updatePosition true frameForward demoTwo = some demoWon :=
  updatePosition_go frameForward demoTwo 0 (by decide!) (by decide!) (by decide!) (by decide!)

theorem demoWon_frame : updatePosition true frameBack demoWon.1 = some demoWonBack :=
  updatePosition_moving frameBack demoWon.1 (by decide!) (by decide!)

theorem won_is_kept_witness :
    demoWon.1.won = true ∧ updatePosition true frameBack demoWon.1 = some demoWonBack ∧
      (demoWonBack.1.won = true ∧ Event.win ∉ demoWonBack.2) :=
  ⟨by decide!, demoWon_frame,
    won_is_kept true frameBack demoWon.1 demoWonBack (by decide!) demoWon_frame⟩

/-- C8 fails as stated: on the open 2x1x1 maze one frame forward from `start` reaches the
goal cell `[1, 0, 0]` and sets `won`; the next frame, with the space key held and the
view turned back, takes the player back to the cell `[0, 0, 0]`. -/
theorem won_game_still_moves :
    Reachable [2, 1, 1] (openMaze [2, 1, 1]) demoWon.1 ∧ demoWon.1.won = true ∧
      demoWon.1.gridPosition = [1, 0, 0] ∧
      updatePosition true frameBack demoWon.1 = some demoWonBack ∧
      demoWonBack.1.gridPosition = [0, 0, 0] ∧
      demoWonBack.1.gridPosition ≠ demoWon.1.gridPosition :=
  ⟨Reachable.step demoTwo _ Reachable.start
      (Step.frame frameForward demoTwo _ demoWon.2 (by decide!) demoTwo_frame),
    by decide!, by decide!, demoWon_frame, by decide!, by decide!⟩

/-! ## The maze of one cell -/

theorem OneCell_isWall (g : Game) (h : OneCell g) (s : Int) (d : Nat) : isWall g s d = true := by
  obtain ⟨hd, hs, hp, _, _, _⟩ := h
  unfold isWall
  rw [hd, hs, hp]
  by_cases h3 : d ≥ 3
  · simp [h3]
  · have hlt : d < 3 := by omega
    by_cases hneg : s < 0
    · interval_cases d <;> simp [hneg, addAt]
    · interval_cases d <;> simp [hneg]

theorem OneCell_goal (g : Game) (h : OneCell g) : atGoal g = true ∧ g.won = false := by
  obtain ⟨_, hs, hp, _, hw, _⟩ := h
  refine ⟨?_, hw⟩
  unfold atGoal
  rw [hs, hp]
  decide

theorem OneCell_of_eq (g g' : Game) (h1 : g'.dimensions = g.dimensions)
    (h2 : g'.walls = g.walls) (h3 : g'.gridPosition = g.gridPosition)
    (h4 : g'.timeouts = g.timeouts) (h5 : g'.motion = g.motion) (h6 : g'.won = g.won)
    (h : OneCell g) : OneCell g' := by
  obtain ⟨a, b, c, d, e, f⟩ := h
  exact ⟨by rw [h1]; exact a, by rw [h2]; exact b, by rw [h3]; exact c, by rw [h5]; exact d,
    by rw [h6]; exact e, by rw [h4]; exact f⟩

theorem OneCell_frame (f : Frame) (g : Game) (r : Game × List Event) (h : OneCell g)
    (hup : updatePosition true f g = some r) : OneCell r.1 := by
  have hz : g.motion.offset = 0 := h.2.2.2.1
  cases hidle : (!f.isSpaceDown && !g.isTapping) with
  | true =>
    rw [updatePosition_idle f g hidle] at hup
    obtain rfl := Option.some.inj hup
    exact h
  | false =>
    cases hd : (highest f.direction).1 with
    | none =>
      rw [updatePosition_throw f g hidle hz hd] at hup
      exact absurd hup (by simp)
    | some d =>
      have hdir : OneCell (updateDirection f.direction g) :=
        OneCell_of_eq g _ rfl rfl rfl rfl rfl rfl h
      have hwall := OneCell_isWall _ hdir (updateDirection f.direction g).gridDirection.sign d
      rw [updatePosition_blocked f g d hidle hz hd hwall] at hup
      obtain rfl := Option.some.inj hup
      exact hdir

theorem OneCell_step (g g' : Game) (h : OneCell g) (hstep : Step g g') : OneCell g' := by
  cases hstep with
  | frame f _ _ evs _ hup => exact OneCell_frame f g (g', evs) h hup
  | hyper sign dim =>
    rcases hyperMove_cases sign dim g with ⟨hacc, _⟩ | ⟨_, he⟩
    · have hc := (hyperMoveAccepted_iff sign dim g).mp hacc
      rw [h.1] at hc
      omega
    · rw [he]; exact h
  | timeout f _ _ evs hrun =>
    have ht : g.timeouts = [] := h.2.2.2.2.2
    simp [runTimeout, ht] at hrun
  | tap => exact OneCell_of_eq g _ rfl rfl rfl rfl rfl rfl h

theorem OneCell_start (maze : MultiMazeWalls) (hv : ValidMaze [1, 1, 1] maze) :
    OneCell (start [1, 1, 1] maze Game.initial) := by
  refine ⟨rfl, hv.2, rfl, rfl, rfl, rfl⟩

theorem OneCell_reachable (maze : MultiMazeWalls) (hv : ValidMaze [1, 1, 1] maze) (g : Game)
    (hr : Reachable [1, 1, 1] maze g) : OneCell g := by
  induction hr with
  | start => exact OneCell_start maze hv
  | step g g' _ hstep ih => exact OneCell_step g g' ih hstep

/-- C9, where the code departs from it: on a 1x1x1 maze the player stands on the goal cell
from `start` on, yet in every reachable state every `updatePosition` step with or without
movement input returns with `won` still false: at offset 0 every direction is blocked and
the step returns before the win test. -/
theorem one_cell_maze_is_never_won (maze : MultiMazeWalls) (g : Game) (f : Frame)
    (r : Game × List Event) (hv : ValidMaze [1, 1, 1] maze)
    (hr : Reachable [1, 1, 1] maze g) (hup : updatePosition true f g = some r) :
    (atGoal g = true ∧ g.won = false) ∧ (atGoal r.1 = true ∧ r.1.won = false) ∧
      Event.win ∉ r.2 := by
  have h := OneCell_reachable maze hv g hr
  have h' := OneCell_frame f g r h hup
  refine ⟨OneCell_goal g h, OneCell_goal r.1 h', ?_⟩
  have hz : g.motion.offset = 0 := h.2.2.2.1
  cases hidle : (!f.isSpaceDown && !g.isTapping) with
  | true =>
    rw [updatePosition_idle f g hidle] at hup
    obtain rfl := Option.some.inj hup
    simp
  | false =>
    cases hd : (highest f.direction).1 with
    | none =>
      rw [updatePosition_throw f g hidle hz hd] at hup
      exact absurd hup (by simp)
    | some d =>
      have hdir : OneCell (updateDirection f.direction g) :=
        OneCell_of_eq g _ rfl rfl rfl rfl rfl rfl h
      have hwall := OneCell_isWall _ hdir (updateDirection f.direction g).gridDirection.sign d
      rw [updatePosition_blocked f g d hidle hz hd hwall] at hup
      obtain rfl := Option.some.inj hup
      simp

theorem validMaze_111 : ValidMaze [1, 1, 1] (openMaze [1, 1, 1]) :=
  ⟨by decide, rfl⟩

theorem demoOne_frame :
    updatePosition true frameForward demoOne =
      some (updateDirection frameForward.direction demoOne, []) :=
  updatePosition_blocked frameForward demoOne 0 (by decide!) (by decide!) (by decide!)
    (by decide!)

theorem one_cell_maze_is_never_won_witness :
    ValidMaze [1, 1, 1] (openMaze [1, 1, 1]) ∧
      Reachable [1, 1, 1] (openMaze [1, 1, 1]) demoOne ∧
      updatePosition true frameForward demoOne =
        some (updateDirection frameForward.direction demoOne, []) ∧
      frameForward.isSpaceDown = true ∧
      atGoal (updateDirection frameForward.direction demoOne) = true ∧
      (updateDirection frameForward.direction demoOne).won = false :=
  ⟨validMaze_111, Reachable.start, demoOne_frame, rfl,
    (one_cell_maze_is_never_won (openMaze [1, 1, 1]) demoOne frameForward _ validMaze_111
      Reachable.start demoOne_frame).2.1⟩

/-! ## Restart -/

theorem demoRestarted_frame :
    updatePosition true frameBack demoRestarted = some demoEscaped :=
  updatePosition_moving frameBack demoRestarted (by decide!) (by decide!)

theorem validMaze_222 : ValidMaze [2, 2, 2] (openMaze [2, 2, 2]) :=
  ⟨by decide, rfl⟩

theorem demoStart_frame : updatePosition true frameForward demoStart = some demoMoved :=
  updatePosition_go frameForward demoStart 0 (by decide!) (by decide!) (by decide!)
    (by decide!)

/-- C10, where the code departs from it: `start` never assigns `motion`. On the open
2x2x2 maze, one frame forward from the first `start` leaves the player in cell
`[1, 0, 0]` with offset `-1`; `start` pressed then resets `gridPosition` to `[0, 0, 0]`
and leaves `won` false, but the offset is still `-1` and the axis still locked; the next
frame, with the view turned back, then takes the player to `[-1, 0, 0]`, outside the
maze. What `start` does reset, for every valid size list, is `gridPosition` (all zero, one
entry per dimension) and, on a restart, `won`. -/
theorem restart_keeps_offset :
    (∀ (size : List Int) (maze : MultiMazeWalls) (g : Game),
        (start size maze g).motion = g.motion) ∧
      (∀ (size : List Int) (maze : MultiMazeWalls) (g : Game), (∀ a ∈ size, 0 < a) →
        (start size maze g).gridPosition = List.replicate size.length 0 ∧
          (g.started = true → (start size maze g).won = false)) ∧
      Reachable [2, 2, 2] (openMaze [2, 2, 2]) demoMoved.1 ∧
      demoMoved.1.gridPosition = [1, 0, 0] ∧ demoMoved.1.motion.offset = -1 ∧
      demoRestarted.gridPosition = [0, 0, 0] ∧ demoRestarted.won = false ∧
      demoRestarted.motion.offset = -1 ∧ demoRestarted.motion.dim = some 0 ∧
      updatePosition true frameBack demoRestarted = some demoEscaped ∧
      demoEscaped.1.gridPosition = [-1, 0, 0] := by
  refine ⟨?_, ?_, ?_, by decide!, by decide!, by decide!, by decide!, by decide!, by decide!,
    demoRestarted_frame, by decide!⟩
  · intro size maze g
    cases hs : g.started <;> cases ha : size.all (fun a => decide (a > 0)) <;>
      simp [start, hs, ha]
  · intro size maze g hpos
    have ha : size.all (fun a => decide (a > 0)) = true := by
      rw [List.all_eq_true]
      intro a hmem
      exact decide_eq_true (hpos a hmem)
    cases hs : g.started <;> simp [start, hs, ha]
  · exact Reachable.step demoStart _ Reachable.start
      (Step.frame frameForward demoStart _ demoMoved.2 (by decide!) demoStart_frame)

/-! ## A rejected move -/

/-- C11: in every state with offset 0, an `updatePosition` step with movement input (the
space key held or a tap pending, any elapsed time) whose facing direction, as
`updateDirection` classifies it in this step, is blocked (`isWall` true) returns at once:
`gridPosition` is unchanged, the offset is still 0, the locked axis `motion.dim` is
unchanged, and so is everything else but `gridDirection`. -/
theorem blocked_move_is_rejected (f : Frame) (g : Game) (d : Nat)
    (hin : f.isSpaceDown = true ∨ g.isTapping = true) (hz : g.motion.offset = 0)
    (hd : (updateDirection f.direction g).gridDirection.dim = some d)
    (hw : isWall g (updateDirection f.direction g).gridDirection.sign d = true) :
    ∃ g', updatePosition true f g = some (g', []) ∧ g'.gridPosition = g.gridPosition ∧
      g'.motion.offset = 0 ∧ g'.motion.dim = g.motion.dim ∧ g'.motion = g.motion ∧
      g'.won = g.won ∧ g'.isTapping = g.isTapping ∧ g'.timeouts = g.timeouts := by
  have hidle : (!f.isSpaceDown && !g.isTapping) = false := by
    rcases hin with h | h <;> simp [h]
  have hw' : isWall (updateDirection f.direction g)
      (updateDirection f.direction g).gridDirection.sign d = true := by
    rw [isWall_congr g (updateDirection f.direction g) _ d rfl rfl rfl]
    exact hw
  exact ⟨updateDirection f.direction g, updatePosition_blocked f g d hidle hz hd hw',
    rfl, hz, rfl, rfl, rfl, rfl, rfl⟩

theorem blocked_move_is_rejected_witness :
    (frameForward.isSpaceDown = true ∨ demoOne.isTapping = true) ∧
      demoOne.motion.offset = 0 ∧
      (updateDirection frameForward.direction demoOne).gridDirection.dim = some 0 ∧
      isWall demoOne (updateDirection frameForward.direction demoOne).gridDirection.sign 0 =
        true ∧
      ∃ g', updatePosition true frameForward demoOne = some (g', []) ∧
        g'.gridPosition = demoOne.gridPosition ∧ g'.motion.offset = 0 ∧
        g'.motion.dim = demoOne.motion.dim ∧ g'.motion = demoOne.motion ∧
        g'.won = demoOne.won ∧ g'.isTapping = demoOne.isTapping ∧
        g'.timeouts = demoOne.timeouts :=
  ⟨Or.inl rfl, by decide!, by decide!, by decide!,
    blocked_move_is_rejected frameForward demoOne 0 (Or.inl rfl) (by decide!) (by decide!)
      (by decide!)⟩

/-! ## The stop -/

theorem wrapUp_stop (d : ℚ) (g : Game) :
    (wrapUp d g).1.motion.dim = g.motion.dim ∧
      (Event.stop ∈ (wrapUp d g).2 →
        (wrapUp d g).1.motion.offset = 0 ∧ (wrapUp d g).1.isTapping = false) := by
  induction g using wrapUp.induct d with
  | case1 g h r ih =>
    rw [wrapUp_more d g h]
    rcases wrapUpOnce_cases d g with ⟨he, _⟩ | ⟨he, _⟩
    · have hdim : (wrapUpOnce d g).1.motion.dim = g.motion.dim := by rw [he]; rfl
      refine ⟨ih.1.trans hdim, fun hm => ih.2 ?_⟩
      rcases List.mem_append.mp hm with h1 | h2
      · rw [he] at h1
        simp at h1
      · exact h2
    · have hdim : (wrapUpOnce d g).1.motion.dim = g.motion.dim := by rw [he]; rfl
      have hoff : (wrapUpOnce d g).1.motion.offset = 0 := by rw [he]
      have htap : (wrapUpOnce d g).1.isTapping = false := by rw [he]
      have hdone := wrapUp_done d (wrapUpOnce d g).1 (by rw [hoff]; norm_num)
      refine ⟨ih.1.trans hdim, fun _ => ?_⟩
      show (wrapUp d (wrapUpOnce d g).1).1.motion.offset = 0 ∧
        (wrapUp d (wrapUpOnce d g).1).1.isTapping = false
      rw [hdone]
      exact ⟨hoff, htap⟩
  | case2 g h =>
    rw [wrapUp_done d g (not_lt.mp h)]
    exact ⟨rfl, fun hm => by simp at hm⟩

theorem wrapDown_stop (d : ℚ) (g : Game) :
    (wrapDown d g).1.motion.dim = g.motion.dim ∧
      (Event.stop ∈ (wrapDown d g).2 →
        (wrapDown d g).1.motion.offset = 0 ∧ (wrapDown d g).1.isTapping = false) := by
  induction g using wrapDown.induct d with
  | case1 g h r ih =>
    rw [wrapDown_more d g h]
    rcases wrapDownOnce_cases d g with ⟨he, _⟩ | ⟨he, _⟩
    · have hdim : (wrapDownOnce d g).1.motion.dim = g.motion.dim := by rw [he]; rfl
      refine ⟨ih.1.trans hdim, fun hm => ih.2 ?_⟩
      rcases List.mem_append.mp hm with h1 | h2
      · rw [he] at h1
        simp at h1
      · exact h2
    · have hdim : (wrapDownOnce d g).1.motion.dim = g.motion.dim := by rw [he]; rfl
      have hoff : (wrapDownOnce d g).1.motion.offset = 0 := by rw [he]
      have htap : (wrapDownOnce d g).1.isTapping = false := by rw [he]
      have hdone := wrapDown_done d (wrapDownOnce d g).1 (by rw [hoff]; norm_num)
      refine ⟨ih.1.trans hdim, fun _ => ?_⟩
      show (wrapDown d (wrapDownOnce d g).1).1.motion.offset = 0 ∧
        (wrapDown d (wrapDownOnce d g).1).1.isTapping = false
      rw [hdone]
      exact ⟨hoff, htap⟩
  | case2 g h =>
    rw [wrapDown_done d g (not_lt.mp h)]
    exact ⟨rfl, fun hm => by simp at hm⟩

theorem move_stop (d : ℚ) (g : Game) :
    (move d g).1.motion.dim = g.motion.dim ∧
      (Event.stop ∈ (move d g).2 →
        (move d g).1.motion.offset = 0 ∧ (move d g).1.isTapping = false) := by
  rw [move_state, move_log]
  have hpre := NoCross_exit_enter (|g.motion.offset| ≤ 1 ∧ |g.motion.offset + d| > 1)
    (|g.motion.offset| > 1 ∧ |g.motion.offset + d| ≤ 1)
  have hnopre : Event.stop ∉
      (if |g.motion.offset| ≤ 1 ∧ |g.motion.offset + d| > 1 then [Event.exit] else []) ++
        (if |g.motion.offset| > 1 ∧ |g.motion.offset + d| ≤ 1 then [Event.enter] else []) := by
    intro hm
    rcases List.mem_append.mp hm with h | h <;> split_ifs at h <;> simp at h
  rcases moveHead_cases d g with ⟨he, _⟩ | ⟨he, _⟩
  · rw [he]
    have h1 := wrapDown_stop d (addOffset d g)
    have h2 := wrapUp_stop d (wrapDown d (addOffset d g)).1
    refine ⟨h2.1.trans h1.1, fun hm => ?_⟩
    rcases List.mem_append.mp hm with hm | hm
    · rcases List.mem_append.mp hm with hm | hm
      · rcases List.mem_append.mp hm with hm | hm
        · exact absurd hm hnopre
        · simp at hm
      · obtain ⟨hoff, htap⟩ := h1.2 hm
        rw [wrapUp_done d _ (by rw [hoff]; norm_num)]
        exact ⟨hoff, htap⟩
    · exact h2.2 hm
  · rw [he]
    refine ⟨?_, fun _ => ?_⟩
    · rw [wrapDown_done d _ (by show (-2 : ℚ) ≤ 0; norm_num),
        wrapUp_done d _ (by show (0 : ℚ) ≤ 2; norm_num)]
      rfl
    · rw [wrapDown_done d _ (by show (-2 : ℚ) ≤ 0; norm_num),
        wrapUp_done d _ (by show (0 : ℚ) ≤ 2; norm_num)]
      exact ⟨rfl, rfl⟩

theorem shouldStop_iff (d : ℚ) (h : Game) :
    shouldStop d h = true ↔
      (h.motion.dim = none ∨ h.motion.dim ≠ h.gridDirection.dim) ∨ h.isTapping = true ∨
        ∃ a, h.motion.dim = some a ∧
          isWall h (if 0 < d then 1 else if d < 0 then -1 else 0) a = true := by
  unfold shouldStop
  cases hm : h.motion.dim with
  | none => simp
  | some a =>
    cases hg : h.gridDirection.dim with
    | none => simp
    | some b =>
      simp only [Bool.or_eq_true, bne_iff_ne, ne_eq, Option.some.injEq, false_or,
        reduceCtorEq]
      constructor
      · rintro ((h1 | h2) | h3)
        · exact Or.inl h1
        · exact Or.inr (Or.inl h2)
        · exact Or.inr (Or.inr ⟨a, rfl, h3⟩)
      · rintro (h1 | h2 | ⟨a', ha', h3⟩)
        · exact Or.inl (Or.inl h1)
        · exact Or.inl (Or.inr h2)
        · subst ha'
          exact Or.inr h3

theorem wrapUp_stops_at (d : ℚ) (h : Game) (hgt : 2 < h.motion.offset)
    (hpast : 0 < (stepUp h).motion.offset) (hs : shouldStop d (stepUp h) = true) :
    Event.stop ∈ (wrapUp d h).2 ∧ (wrapUp d h).1.motion.offset = 0 ∧
      (wrapUp d h).1.motion.dim = h.motion.dim := by
  have hmem : Event.stop ∈ (wrapUp d h).2 := by
    rw [wrapUp_more d h hgt]
    apply List.mem_append.mpr
    left
    rcases wrapUpOnce_cases d h with ⟨_, hle | hgo⟩ | ⟨he, _⟩
    · exact absurd hpast (not_lt.mpr hle)
    · rw [hs] at hgo
      exact Bool.noConfusion hgo
    · rw [he]
      simp
  exact ⟨hmem, ((wrapUp_stop d h).2 hmem).1, (wrapUp_stop d h).1⟩

theorem wrapDown_stops_at (d : ℚ) (h : Game) (hlt : h.motion.offset < -2)
    (hpast : (stepDown h).motion.offset < 0) (hs : shouldStop d (stepDown h) = true) :
    Event.stop ∈ (wrapDown d h).2 ∧ (wrapDown d h).1.motion.offset = 0 ∧
      (wrapDown d h).1.motion.dim = h.motion.dim := by
  have hmem : Event.stop ∈ (wrapDown d h).2 := by
    rw [wrapDown_more d h hlt]
    apply List.mem_append.mpr
    left
    rcases wrapDownOnce_cases d h with ⟨_, hle | hgo⟩ | ⟨he, _⟩
    · exact absurd hpast (not_lt.mpr hle)
    · rw [hs] at hgo
      exact Bool.noConfusion hgo
    · rw [he]
      simp
  exact ⟨hmem, ((wrapDown_stop d h).2 hmem).1, (wrapDown_stop d h).1⟩

theorem move_stops_at_sign_change (d : ℚ) (g : Game)
    (hsign : jsSign g.motion.offset * jsSign (g.motion.offset + d) = -1)
    (hs : shouldStop d (addOffset d g) = true) : Event.stop ∈ (move d g).2 := by
  rw [move_log]
  have hsign' : jsSign g.motion.offset * jsSign (addOffset d g).motion.offset = -1 := hsign
  rcases moveHead_cases d g with ⟨_, hn | hgo⟩ | ⟨he, _⟩
  · exact absurd hsign' hn
  · rw [hs] at hgo
    exact Bool.noConfusion hgo
  · rw [he]
    simp

/-- C14, as the code has it: for every state and distance, whenever a re-test of `move`
fires (after a sign change of the offset, or after a wrap that leaves the offset past the
centre line, with the locked axis different from the intended one, or a tap pending, or
`isWall` true for the sign of `distance` on the locked axis), the offset after the call is
0 and `isTapping` is false; the locked axis `motion.dim` is never changed by `move`, so it
is not cleared. -/
theorem stop_resets_offset_keeps_axis (distance : ℚ) (g : Game) :
    (move distance g).1.motion.dim = g.motion.dim ∧
      (Event.stop ∈ (move distance g).2 →
        (move distance g).1.motion.offset = 0 ∧ (move distance g).1.isTapping = false) ∧
      (jsSign g.motion.offset * jsSign (g.motion.offset + distance) = -1 →
        shouldStop distance (addOffset distance g) = true →
          Event.stop ∈ (move distance g).2) ∧
      (∀ h : Game, 2 < h.motion.offset → 0 < (stepUp h).motion.offset →
        shouldStop distance (stepUp h) = true →
          Event.stop ∈ (wrapUp distance h).2 ∧ (wrapUp distance h).1.motion.offset = 0 ∧
            (wrapUp distance h).1.motion.dim = h.motion.dim) ∧
      (∀ h : Game, h.motion.offset < -2 → (stepDown h).motion.offset < 0 →
        shouldStop distance (stepDown h) = true →
          Event.stop ∈ (wrapDown distance h).2 ∧ (wrapDown distance h).1.motion.offset = 0 ∧
            (wrapDown distance h).1.motion.dim = h.motion.dim) ∧
      (∀ h : Game, shouldStop distance h = true ↔
        (h.motion.dim = none ∨ h.motion.dim ≠ h.gridDirection.dim) ∨ h.isTapping = true ∨
          ∃ a, h.motion.dim = some a ∧
            isWall h (if 0 < distance then 1 else if distance < 0 then -1 else 0) a = true) :=
  ⟨(move_stop distance g).1, (move_stop distance g).2,
    move_stops_at_sign_change distance g,
    fun h => wrapUp_stops_at distance h, fun h => wrapDown_stops_at distance h,
    fun h => shouldStop_iff distance h⟩

theorem stop_resets_offset_keeps_axis_witness :
    Event.stop ∈ (move 9 demoLongLocked).2 ∧
      ((move 9 demoLongLocked).1.motion.offset = 0 ∧
        (move 9 demoLongLocked).1.isTapping = false) :=
  ⟨by decide!, (stop_resets_offset_keeps_axis 9 demoLongLocked).2.1 (by decide!)⟩

/-- C14 fails as stated: on the open 3x1x1 maze, from the start cell with axis 0 locked
and the view along `+x`, `move(9)` wraps twice; the second wrap leaves the offset at 1,
past the centre line of the cell `[2, 0, 0]`, where `isWall(+1, 0)` is true, so the
re-test fires: the offset is reset to 0, but `motion.dim` is still 0, not null. -/
theorem stop_leaves_axis_locked :
    (wrapUpOnce 9 (addOffset 9 demoLongLocked)).1.motion.offset = 5 ∧
      (stepUp (wrapUpOnce 9 (addOffset 9 demoLongLocked)).1).motion.offset = 1 ∧
      (stepUp (wrapUpOnce 9 (addOffset 9 demoLongLocked)).1).gridPosition = [2, 0, 0] ∧
      isWall (stepUp (wrapUpOnce 9 (addOffset 9 demoLongLocked)).1) 1 0 = true ∧
      shouldStop 9 (stepUp (wrapUpOnce 9 (addOffset 9 demoLongLocked)).1) = true ∧
      (move 9 demoLongLocked).2 =
        [Event.exit, Event.cross [0, 0, 0] (some 0) 1, Event.cross [1, 0, 0] (some 0) 1,
          Event.stop] ∧
      (move 9 demoLongLocked).1.motion.offset = 0 ∧
      (move 9 demoLongLocked).1.motion.dim = some 0 ∧
      (move 9 demoLongLocked).1.motion.dim ≠ none := by
  refine ⟨by decide!, by decide!, by decide!, by decide!, by decide!, by decide!, by decide!,
    by decide!, by decide!⟩

/-! ## Faces -/

/-- Two triangles `a b c` and `c b d` with `d = b + c - a` make up the parallelogram spanned
at `a` by `b - a` and `c - a`. -/
theorem triangles_parallelogram (a b c c' b' d p : Nat → ℚ)
    (hc : ∀ e, e < 3 → c' e = c e) (hb : ∀ e, e < 3 → b' e = b e)
    (hd : ∀ e, e < 3 → d e = b e + c e - a e) :
    (InTriangle a b c p ∨ InTriangle c' b' d p) ↔
      ∃ u v : ℚ, 0 ≤ u ∧ u ≤ 1 ∧ 0 ≤ v ∧ v ≤ 1 ∧
        ∀ e, e < 3 → p e = a e + u * (b e - a e) + v * (c e - a e) := by
  constructor
  · rintro (⟨s, t, hs, ht, hst, hp⟩ | ⟨s, t, hs, ht, hst, hp⟩)
    · exact ⟨s, t, hs, by linarith, ht, by linarith, hp⟩
    · refine ⟨s + t, 1 - s, by linarith, hst, by linarith, by linarith, fun e he => ?_⟩
      rw [hp e he, hd e he, hc e he, hb e he]
      ring
  · rintro ⟨u, v, hu0, hu1, hv0, hv1, hp⟩
    by_cases h : u + v ≤ 1
    · exact Or.inl ⟨u, v, hu0, hv0, h, hp⟩
    · refine Or.inr ⟨1 - v, u + v - 1, by linarith, by linarith [not_le.mp h], by linarith,
        fun e he => ?_⟩
      rw [hp e he, hd e he, hc e he, hb e he]
      ring

theorem face_parallelogram (x y z : Int) (direction : Nat) (hdir : direction < 3)
    (isFront : Bool) (mod : Int) (p : Nat → ℚ) :
    Covers (facePositions x y z direction isFront mod) p ↔
      ∃ u v : ℚ, 0 ≤ u ∧ u ≤ 1 ∧ 0 ≤ v ∧ v ≤ 1 ∧
        ∀ e, e < 3 →
          p e = vertex (facePositions x y z direction isFront mod) 0 e +
            u * (vertex (facePositions x y z direction isFront mod) 1 e -
              vertex (facePositions x y z direction isFront mod) 0 e) +
            v * (vertex (facePositions x y z direction isFront mod) 2 e -
              vertex (facePositions x y z direction isFront mod) 0 e) := by
  unfold Covers
  exact triangles_parallelogram _ _ _ _ _ _ p
    (fun e he => by interval_cases direction <;> cases isFront <;> interval_cases e <;> rfl)
    (fun e he => by interval_cases direction <;> cases isFront <;> interval_cases e <;> rfl)
    (fun e he => by
      interval_cases direction <;> cases isFront <;> interval_cases e <;>
        simp [vertex, facePositions])

theorem face_in_square (x y z : Int) (direction : Nat) (hdir : direction < 3)
    (isFront : Bool) (mod : Int) (p : Nat → ℚ) (u v : ℚ) (hu0 : 0 ≤ u) (hu1 : u ≤ 1)
    (hv0 : 0 ≤ v) (hv1 : v ≤ 1)
    (hp : ∀ e, e < 3 →
      p e = vertex (facePositions x y z direction isFront mod) 0 e +
        u * (vertex (facePositions x y z direction isFront mod) 1 e -
          vertex (facePositions x y z direction isFront mod) 0 e) +
        v * (vertex (facePositions x y z direction isFront mod) 2 e -
          vertex (facePositions x y z direction isFront mod) 0 e)) :
    InSquare direction
      (([x, y, z] : List Int).getD direction 0 + (if isFront then mod else -mod))
      [x, y, z] p := by
  have h0 := hp 0 (by norm_num)
  have h1 := hp 1 (by norm_num)
  have h2 := hp 2 (by norm_num)
  interval_cases direction <;> cases isFront <;>
    simp [vertex, facePositions] at h0 h1 h2 <;>
    refine ⟨by simp; linarith, fun e he hne => ?_⟩ <;>
    interval_cases e <;> simp at hne ⊢ <;> rw [abs_le] <;> constructor <;> linarith

theorem square_along_bounds (x y z : Int) (direction : Nat) (hdir : direction < 3)
    (isFront : Bool) (mod : Int) (p : Nat → ℚ) (i : Nat) (hi : i = 1 ∨ i = 2)
    (h : InSquare direction
      (([x, y, z] : List Int).getD direction 0 + (if isFront then mod else -mod))
      [x, y, z] p) :
    0 ≤ along (vertex (facePositions x y z direction isFront mod) 0)
        (vertex (facePositions x y z direction isFront mod) i) p ∧
      along (vertex (facePositions x y z direction isFront mod) 0)
        (vertex (facePositions x y z direction isFront mod) i) p ≤ 1 := by
  obtain ⟨hpl, hsq⟩ := h
  have h0 := hsq 0 (by norm_num)
  have h1 := hsq 1 (by norm_num)
  have h2 := hsq 2 (by norm_num)
  rcases hi with rfl | rfl <;> interval_cases direction <;> cases isFront <;>
    simp [abs_le] at h0 h1 h2 hpl <;> simp [along, vertex, facePositions] <;>
    constructor <;> linarith

theorem square_along_point (x y z : Int) (direction : Nat) (hdir : direction < 3)
    (isFront : Bool) (mod : Int) (p : Nat → ℚ)
    (h : InSquare direction
      (([x, y, z] : List Int).getD direction 0 + (if isFront then mod else -mod))
      [x, y, z] p) (e : Nat) (he : e < 3) :
    p e = vertex (facePositions x y z direction isFront mod) 0 e +
      along (vertex (facePositions x y z direction isFront mod) 0)
          (vertex (facePositions x y z direction isFront mod) 1) p *
        (vertex (facePositions x y z direction isFront mod) 1 e -
          vertex (facePositions x y z direction isFront mod) 0 e) +
      along (vertex (facePositions x y z direction isFront mod) 0)
          (vertex (facePositions x y z direction isFront mod) 2) p *
        (vertex (facePositions x y z direction isFront mod) 2 e -
          vertex (facePositions x y z direction isFront mod) 0 e) := by
  obtain ⟨hpl, _⟩ := h
  interval_cases direction <;> cases isFront <;> simp at hpl <;> interval_cases e <;>
    simp [along, vertex, facePositions] <;> linarith

/-- The face that `createFace` pushes is the 2x2 square centred at `(x, y, z)` on the
plane `direction = centre ± mod`. -/
theorem facePositions_square (x y z : Int) (direction : Nat) (hdir : direction < 3)
    (isFront : Bool) (mod : Int) (p : Nat → ℚ) :
    Covers (facePositions x y z direction isFront mod) p ↔
      InSquare direction
        (([x, y, z] : List Int).getD direction 0 + (if isFront then mod else -mod))
        [x, y, z] p := by
  rw [face_parallelogram x y z direction hdir isFront mod p]
  constructor
  · rintro ⟨u, v, hu0, hu1, hv0, hv1, hp⟩
    exact face_in_square x y z direction hdir isFront mod p u v hu0 hu1 hv0 hv1 hp
  · intro h
    have b1 := square_along_bounds x y z direction hdir isFront mod p 1 (Or.inl rfl) h
    have b2 := square_along_bounds x y z direction hdir isFront mod p 2 (Or.inr rfl) h
    exact ⟨_, _, b1.1, b1.2, b2.1, b2.2,
      fun e he => square_along_point x y z direction hdir isFront mod p h e he⟩

/-! ## The loops of `fillEdge` -/

theorem forStep2_eq_foldl (bound : Int) (body : Int → MazeWalls → MazeWalls) (n : Nat) :
    ∀ (y : Int) (w : MazeWalls), y + 2 * (n : Int) ≤ bound + 2 → bound < y + 2 * (n : Int) →
      forStep2 bound body y w =
        ((List.range n).map (fun i : Nat => y + 2 * (i : Int))).foldl
          (fun w v => body v w) w := by
  induction n with
  | zero =>
    intro y w _ h2
    rw [forStep2]
    have : ¬ y ≤ bound := by push_cast at h2; omega
    simp [this]
  | succ n ih =>
    intro y w h1 h2
    rw [forStep2]
    have hle : y ≤ bound := by push_cast at h1; omega
    rw [if_pos hle, ih (y + 2) (body y w) (by push_cast at h1 ⊢; omega)
      (by push_cast at h2 ⊢; omega)]
    rw [List.range_succ_eq_map, List.map_cons, List.foldl_cons, List.map_map]
    have hfun : (fun i : Nat => y + 2 + 2 * (i : Int)) =
        (fun i : Nat => y + 2 * (i : Int)) ∘ Nat.succ := by
      funext i
      simp only [Function.comp_apply, Nat.succ_eq_add_one, Nat.cast_add, Nat.cast_one]
      ring
    rw [hfun]
    simp

theorem foldl_positions {α : Type} (body : α → MazeWalls → MazeWalls) (added : α → List Int)
    (h : ∀ a w, (body a w).positions = w.positions ++ added a) (l : List α) :
    ∀ w : MazeWalls,
      (l.foldl (fun w a => body a w) w).positions = w.positions ++ (l.map added).flatten := by
  induction l with
  | nil => intro w; simp
  | cons a rest ih =>
    intro w
    rw [List.foldl_cons, ih (body a w), h a w]
    simp

theorem createFace_positions (pos : List Int) (direction : Nat) (isFront isFacingOut : Bool)
    (w : MazeWalls) :
    (createFace pos direction isFront isFacingOut w).positions =
      w.positions ++
        facePositions (pos.getD 0 0) (pos.getD 1 0) (pos.getD 2 0) direction isFront
          (if isFacingOut then 1 else -1) := rfl

theorem createFace_normals (pos : List Int) (direction : Nat) (isFront isFacingOut : Bool)
    (w : MazeWalls) :
    (createFace pos direction isFront isFacingOut w).normals =
      w.normals ++ faceNormals direction (if isFront then 1 else -1) := rfl

theorem forStep2_positions (bound : Int) (body : Int → MazeWalls → MazeWalls)
    (added : Int → List Int) (h : ∀ v w, (body v w).positions = w.positions ++ added v)
    (n : Nat) (hn : 2 * (n : Int) = bound + 2) (w : MazeWalls) :
    (forStep2 bound body 0 w).positions =
      w.positions ++ ((List.range n).map (fun i : Nat => added (2 * (i : Int)))).flatten := by
  rw [forStep2_eq_foldl bound body n 0 w (by omega) (by omega), List.foldl_map]
  rw [foldl_positions (fun i : Nat => body (0 + 2 * (i : Int)))
    (fun i : Nat => added (2 * (i : Int))) (fun i w => by rw [h, zero_add])]

theorem flatten_flatMap_map {α β : Type} (l : List α) (l' : List β)
    (f : α → β → List Int) :
    (l.flatMap (fun i => l'.map (fun j => f i j))).flatten =
      (l.map (fun i => (l'.map (fun j => f i j)).flatten)).flatten := by
  induction l with
  | nil => rfl
  | cons a rest ih => simp [ih]

theorem fillEdge_positions (size : List Int) (d a b : Nat) (na nb : Nat)
    (hna : (na : Int) = 2 * size.getD a 0 - 1) (hnb : (nb : Int) = 2 * size.getD b 0 - 1)
    (w : MazeWalls) :
    (fillEdge size d [a, b] w).positions =
      w.positions ++ (edgeFaces d a b na nb (-2)).flatten ++
        (edgeFaces d a b na nb (size.getD d 0 * 4 - 2)).flatten := by
  have hz : ∀ (x y : Int) (w : MazeWalls),
      (forStep2 (size.getD b 0 * 4 - 4)
        (fun z w => createFace (edgePoint d [a, b] x y z) d (x == -2) true w) 0 w).positions =
        w.positions ++
          ((List.range nb).map (fun j : Nat => edgeFace d a b x y (2 * (j : Int)))).flatten :=
    fun x y w => forStep2_positions _ _ (fun z => edgeFace d a b x y z) (fun z w => rfl) nb
      (by omega) w
  have hy : ∀ (x : Int) (w : MazeWalls),
      (forStep2 (size.getD a 0 * 4 - 4)
        (fun y w => forStep2 (size.getD b 0 * 4 - 4)
          (fun z w => createFace (edgePoint d [a, b] x y z) d (x == -2) true w) 0 w)
        0 w).positions = w.positions ++ (edgeFaces d a b na nb x).flatten := by
    intro x w
    rw [forStep2_positions _ _
      (fun y => ((List.range nb).map (fun j : Nat => edgeFace d a b x y (2 * (j : Int)))).flatten)
      (fun y w => hz x y w) na (by omega) w]
    rw [edgeFaces, flatten_flatMap_map]
  unfold fillEdge
  rw [List.foldl_cons, List.foldl_cons, List.foldl_nil,
    show ([a, b] : List Nat).getD 0 0 = a from rfl,
    show ([a, b] : List Nat).getD 1 0 = b from rfl, hy, hy]

theorem otherDimsOf_cases (d a b : Nat) (hd : d < 3) (hab : otherDimsOf d = [a, b]) :
    (d = 0 ∧ a = 1 ∧ b = 2) ∨ (d = 1 ∧ a = 0 ∧ b = 2) ∨ (d = 2 ∧ a = 0 ∧ b = 1) := by
  interval_cases d <;> simp [otherDimsOf] at hab <;> omega

theorem edgeFace_square (d a b : Nat) (hd : d < 3) (hab : otherDimsOf d = [a, b])
    (x y z : Int) (p : Nat → ℚ) :
    Covers (edgeFace d a b x y z) p ↔
      p d = ((x + (if (x == -2) = true then 1 else -1) : Int) : ℚ) ∧
        |p a - (y : ℚ)| ≤ 1 ∧ |p b - (z : ℚ)| ≤ 1 := by
  unfold edgeFace
  rw [facePositions_square _ _ _ d hd]
  rcases otherDimsOf_cases d a b hd hab with ⟨rfl, rfl, rfl⟩ | ⟨rfl, rfl, rfl⟩ | ⟨rfl, rfl, rfl⟩
  · constructor
    · rintro ⟨h0, h⟩
      have h1 := h 1 (by norm_num) (by norm_num)
      have h2 := h 2 (by norm_num) (by norm_num)
      exact ⟨h0, h1, h2⟩
    · rintro ⟨h0, h1, h2⟩
      refine ⟨h0, fun e he hne => ?_⟩
      interval_cases e
      · exact absurd rfl hne
      · exact h1
      · exact h2
  · constructor
    · rintro ⟨h0, h⟩
      have h1 := h 0 (by norm_num) (by norm_num)
      have h2 := h 2 (by norm_num) (by norm_num)
      exact ⟨h0, h1, h2⟩
    · rintro ⟨h0, h1, h2⟩
      refine ⟨h0, fun e he hne => ?_⟩
      interval_cases e
      · exact h1
      · exact absurd rfl hne
      · exact h2
  · constructor
    · rintro ⟨h0, h⟩
      have h1 := h 0 (by norm_num) (by norm_num)
      have h2 := h 1 (by norm_num) (by norm_num)
      exact ⟨h0, h1, h2⟩
    · rintro ⟨h0, h1, h2⟩
      refine ⟨h0, fun e he hne => ?_⟩
      interval_cases e
      · exact h1
      · exact h2
      · exact absurd rfl hne

theorem flatMap_range_length {α : Type} (f : Nat → List α) (k : Nat) (n : Nat)
    (h : ∀ i, (f i).length = k) : ((List.range n).flatMap f).length = n * k := by
  induction n with
  | zero => simp
  | succ n ih =>
    rw [List.range_succ, List.flatMap_append, List.length_append, ih]
    simp [h, Nat.succ_mul]

theorem flatMap_range_getElem? {α : Type} (f : Nat → List α) (k : Nat) (n : Nat)
    (h : ∀ i, (f i).length = k) (i j : Nat) (hi : i < n) (hj : j < k) :
    ((List.range n).flatMap f)[i * k + j]? = (f i)[j]? := by
  induction n with
  | zero => omega
  | succ n ih =>
    rw [List.range_succ, List.flatMap_append]
    have hlen := flatMap_range_length f k n h
    by_cases hin : i < n
    · have hlt : i * k + j < ((List.range n).flatMap f).length := by
        rw [hlen]
        calc i * k + j < i * k + k := by omega
          _ = (i + 1) * k := by ring
          _ ≤ n * k := Nat.mul_le_mul_right k hin
      rw [List.getElem?_append_left hlt]
      exact ih hin
    · have hieq : i = n := by omega
      subst hieq
      rw [List.getElem?_append_right (by rw [hlen]; omega), hlen]
      simp

theorem edgeFaces_length (d a b na nb : Nat) (x : Int) :
    (edgeFaces d a b na nb x).length = na * nb :=
  flatMap_range_length _ nb na (fun i => by simp)

theorem edgeFaces_getElem? (d a b na nb : Nat) (x : Int) (i j : Nat) (hi : i < na)
    (hj : j < nb) :
    (edgeFaces d a b na nb x)[i * nb + j]? =
      some (edgeFace d a b x (2 * (i : Int)) (2 * (j : Int))) := by
  unfold edgeFaces
  rw [flatMap_range_getElem? _ nb na (fun i => by simp) i j hi hj]
  simp [hj]

theorem exists_even_near (n : Nat) (s : Int) (hn : (n : Int) = 2 * s - 1) (u : ℚ)
    (h1 : -1 ≤ u) (h2 : u ≤ 4 * (s : ℚ) - 3) :
    ∃ i : Nat, i < n ∧ |u - ((2 * (i : Int) : Int) : ℚ)| ≤ 1 := by
  have hfl0 : 0 ≤ ⌊(u + 1) / 2⌋ := Int.floor_nonneg.mpr (by linarith)
  have hle : ((⌊(u + 1) / 2⌋ : Int) : ℚ) ≤ (u + 1) / 2 := Int.floor_le _
  have hlt : (u + 1) / 2 < ((⌊(u + 1) / 2⌋ : Int) : ℚ) + 1 := Int.lt_floor_add_one _
  have hn' : (n : ℚ) = 2 * (s : ℚ) - 1 := by
    have h : ((n : Int) : ℚ) = ((2 * s - 1 : Int) : ℚ) := by rw [hn]
    push_cast at h
    exact h
  by_cases hlast : ⌊(u + 1) / 2⌋ < n
  · refine ⟨(⌊(u + 1) / 2⌋).toNat, by omega, ?_⟩
    have hcast : (((⌊(u + 1) / 2⌋).toNat : Int)) = ⌊(u + 1) / 2⌋ := Int.toNat_of_nonneg hfl0
    rw [hcast, abs_le]
    push_cast
    constructor <;> linarith
  · have hge : (n : Int) ≤ ⌊(u + 1) / 2⌋ := not_lt.mp hlast
    have hge' : (n : ℚ) ≤ ((⌊(u + 1) / 2⌋ : Int) : ℚ) := by
      have h : ((n : Int) : ℚ) ≤ ((⌊(u + 1) / 2⌋ : Int) : ℚ) := Int.cast_le.mpr hge
      push_cast at h
      exact h
    have hnpos : 0 < n := by omega
    refine ⟨n - 1, by omega, ?_⟩
    have hcast : ((n - 1 : Nat) : Int) = (n : Int) - 1 := by omega
    rw [hcast, abs_le]
    push_cast
    constructor <;> linarith

theorem facePositions_length (x y z : Int) (direction : Nat) (hdir : direction < 3)
    (isFront : Bool) (mod : Int) :
    (facePositions x y z direction isFront mod).length = 18 := by
  interval_cases direction <;> cases isFront <;> rfl

theorem edgeFaces_mem (d a b na nb : Nat) (x : Int) (q : List Int) :
    q ∈ edgeFaces d a b na nb x ↔
      ∃ i j : Nat, i < na ∧ j < nb ∧ q = edgeFace d a b x (2 * (i : Int)) (2 * (j : Int)) := by
  unfold edgeFaces
  simp only [List.mem_flatMap, List.mem_map, List.mem_range]
  constructor
  · rintro ⟨i, hi, j, hj, rfl⟩
    exact ⟨i, j, hi, hj, rfl⟩
  · rintro ⟨i, j, hi, hj, rfl⟩
    exact ⟨i, hi, j, hj, rfl⟩

theorem edgeFaces_cover (size : List Int) (d a b na nb : Nat) (hd : d < 3)
    (hab : otherDimsOf d = [a, b]) (hna : (na : Int) = 2 * size.getD a 0 - 1)
    (hnb : (nb : Int) = 2 * size.getD b 0 - 1) (x : Int) (p : Nat → ℚ) :
    (∃ q, q ∈ edgeFaces d a b na nb x ∧ Covers q p) ↔
      p d = ((x + (if (x == -2) = true then 1 else -1) : Int) : ℚ) ∧
        (-1 ≤ p a ∧ p a ≤ 4 * (size.getD a 0 : ℚ) - 3) ∧
        (-1 ≤ p b ∧ p b ≤ 4 * (size.getD b 0 : ℚ) - 3) := by
  have hna' : (na : ℚ) = 2 * (size.getD a 0 : ℚ) - 1 := by
    have h : ((na : Int) : ℚ) = ((2 * size.getD a 0 - 1 : Int) : ℚ) := by rw [hna]
    push_cast at h
    exact h
  have hnb' : (nb : ℚ) = 2 * (size.getD b 0 : ℚ) - 1 := by
    have h : ((nb : Int) : ℚ) = ((2 * size.getD b 0 - 1 : Int) : ℚ) := by rw [hnb]
    push_cast at h
    exact h
  constructor
  · rintro ⟨q, hq, hc⟩
    obtain ⟨i, j, hi, hj, rfl⟩ := (edgeFaces_mem d a b na nb x q).mp hq
    obtain ⟨h0, h1, h2⟩ := (edgeFace_square d a b hd hab x _ _ p).mp hc
    rw [abs_le] at h1 h2
    push_cast at h1 h2
    have hi' : (i : ℚ) + 1 ≤ (na : ℚ) := by exact_mod_cast hi
    have hj' : (j : ℚ) + 1 ≤ (nb : ℚ) := by exact_mod_cast hj
    have hi0 : (0 : ℚ) ≤ (i : ℚ) := Nat.cast_nonneg i
    have hj0 : (0 : ℚ) ≤ (j : ℚ) := Nat.cast_nonneg j
    refine ⟨h0, ⟨by linarith, by linarith⟩, ⟨by linarith, by linarith⟩⟩
  · rintro ⟨h0, ⟨ha1, ha2⟩, ⟨hb1, hb2⟩⟩
    obtain ⟨i, hi, hia⟩ := exists_even_near na (size.getD a 0) hna (p a) ha1 ha2
    obtain ⟨j, hj, hjb⟩ := exists_even_near nb (size.getD b 0) hnb (p b) hb1 hb2
    exact ⟨_, (edgeFaces_mem d a b na nb x _).mpr ⟨i, j, hi, hj, rfl⟩,
      (edgeFace_square d a b hd hab x _ _ p).mpr ⟨h0, hia, hjb⟩⟩

theorem buildDimension_positions (size : List Int) (d a b na nb : Nat)
    (hab : otherDimsOf d = [a, b]) (hna : (na : Int) = 2 * size.getD a 0 - 1)
    (hnb : (nb : Int) = 2 * size.getD b 0 - 1) (calls : List (List Int × Bool))
    (m : List Int → MazeWalls) (key : List Int) :
    (buildDimension size calls d m key).positions =
      ((calls.foldl (fun m c => emitFaces d [a, b] c.1 c.2 m) m) key).positions ++
        (edgeFaces d a b na nb (-2)).flatten ++
        (edgeFaces d a b na nb (size.getD d 0 * 4 - 2)).flatten := by
  unfold buildDimension
  simp only [hab]
  exact fillEdge_positions size d a b na nb hna hnb _

/-- C12: for every size and every spatial axis `d` with other axes `a` and `b` and positive
extents, `fillEdge` appends to the positions of the cross-section, whatever they are, the
faces of two planes and nothing else, and so does each pass of the constructor after its
calls of the callback, whatever the wall values handed to it; each plane has
`(2 * size[a] - 1) * (2 * size[b] - 1)` faces of 18 numbers; the face number
`i * (2 * size[b] - 1) + j` of the first plane is the square of side 2 around
`(2 * i, 2 * j)` on the plane `d = -1`, that of the second plane the same square on the
plane `d = 4 * size[d] - 3`; and the faces of each plane together cover exactly the
rectangle from -1 to `4 * size[a] - 3` by -1 to `4 * size[b] - 3` of that plane. -/
theorem fillEdge_seals_perimeter (size : List Int) (d a b na nb : Nat) (hd : d < 3)
    (hab : otherDimsOf d = [a, b]) (hpos : 0 < size.getD d 0)
    (hna : (na : Int) = 2 * size.getD a 0 - 1) (hnb : (nb : Int) = 2 * size.getD b 0 - 1) :
    (∀ w : MazeWalls, (fillEdge size d (otherDimsOf d) w).positions =
        w.positions ++ (edgeFaces d a b na nb (-2)).flatten ++
          (edgeFaces d a b na nb (size.getD d 0 * 4 - 2)).flatten) ∧
      (∀ (calls : List (List Int × Bool)) (m : List Int → MazeWalls) (key : List Int),
        (buildDimension size calls d m key).positions =
          ((calls.foldl (fun m c => emitFaces d [a, b] c.1 c.2 m) m) key).positions ++
            (edgeFaces d a b na nb (-2)).flatten ++
            (edgeFaces d a b na nb (size.getD d 0 * 4 - 2)).flatten) ∧
      (∀ x : Int, (edgeFaces d a b na nb x).length = na * nb ∧
        ∀ q, q ∈ edgeFaces d a b na nb x → q.length = 18) ∧
      (∀ i j : Nat, i < na → j < nb →
        ∃ q1 q2 : List Int,
          (edgeFaces d a b na nb (-2))[i * nb + j]? = some q1 ∧
          (edgeFaces d a b na nb (size.getD d 0 * 4 - 2))[i * nb + j]? = some q2 ∧
          ∀ p : Nat → ℚ,
            (Covers q1 p ↔
              p d = -1 ∧ |p a - 2 * (i : ℚ)| ≤ 1 ∧ |p b - 2 * (j : ℚ)| ≤ 1) ∧
            (Covers q2 p ↔
              p d = 4 * (size.getD d 0 : ℚ) - 3 ∧ |p a - 2 * (i : ℚ)| ≤ 1 ∧
                |p b - 2 * (j : ℚ)| ≤ 1)) ∧
      (∀ p : Nat → ℚ,
        ((∃ q, q ∈ edgeFaces d a b na nb (-2) ∧ Covers q p) ↔
          p d = -1 ∧ (-1 ≤ p a ∧ p a ≤ 4 * (size.getD a 0 : ℚ) - 3) ∧
            (-1 ≤ p b ∧ p b ≤ 4 * (size.getD b 0 : ℚ) - 3)) ∧
        ((∃ q, q ∈ edgeFaces d a b na nb (size.getD d 0 * 4 - 2) ∧ Covers q p) ↔
          p d = 4 * (size.getD d 0 : ℚ) - 3 ∧
            (-1 ≤ p a ∧ p a ≤ 4 * (size.getD a 0 : ℚ) - 3) ∧
            (-1 ≤ p b ∧ p b ≤ 4 * (size.getD b 0 : ℚ) - 3))) := by
  have hfar : ¬ ((size.getD d 0 * 4 - 2 == -2) = true) := by
    simp only [beq_iff_eq]
    omega
  have hfront : (((-2 : Int) + (if ((-2 : Int) == -2) = true then 1 else -1) : Int) : ℚ)
      = -1 := by norm_num
  have hback : ((size.getD d 0 * 4 - 2 +
      (if (size.getD d 0 * 4 - 2 == -2) = true then 1 else -1) : Int) : ℚ)
      = 4 * (size.getD d 0 : ℚ) - 3 := by
    rw [if_neg hfar]
    push_cast
    ring
  refine ⟨fun w => ?_, fun calls m key => ?_, fun x => ⟨edgeFaces_length d a b na nb x, ?_⟩,
    fun i j hi hj => ?_, fun p => ⟨?_, ?_⟩⟩
  · rw [hab]
    exact fillEdge_positions size d a b na nb hna hnb w
  · exact buildDimension_positions size d a b na nb hab hna hnb calls m key
  · intro q hq
    obtain ⟨i, j, _, _, rfl⟩ := (edgeFaces_mem d a b na nb x q).mp hq
    exact facePositions_length _ _ _ d hd _ _
  · refine ⟨_, _, edgeFaces_getElem? d a b na nb _ i j hi hj,
      edgeFaces_getElem? d a b na nb _ i j hi hj, fun p => ⟨?_, ?_⟩⟩
    · rw [edgeFace_square d a b hd hab, hfront]
      push_cast
      rfl
    · rw [edgeFace_square d a b hd hab, hback]
      push_cast
      rfl
  · rw [edgeFaces_cover size d a b na nb hd hab hna hnb, hfront]
  · rw [edgeFaces_cover size d a b na nb hd hab hna hnb, hback]

theorem fillEdge_seals_perimeter_witness :
    (0 : Nat) < 3 ∧ otherDimsOf 0 = [1, 2] ∧ 0 < ([2, 2, 2] : List Int).getD 0 0 ∧
      ((3 : Nat) : Int) = 2 * ([2, 2, 2] : List Int).getD 1 0 - 1 ∧
      ((3 : Nat) : Int) = 2 * ([2, 2, 2] : List Int).getD 2 0 - 1 ∧
      (∀ w : MazeWalls, (fillEdge [2, 2, 2] 0 (otherDimsOf 0) w).positions =
        w.positions ++ (edgeFaces 0 1 2 3 3 (-2)).flatten ++
          (edgeFaces 0 1 2 3 3 (([2, 2, 2] : List Int).getD 0 0 * 4 - 2)).flatten) ∧
      (edgeFaces 0 1 2 3 3 (-2)).length = 9 :=
  ⟨by decide, by decide, by decide, by decide, by decide,
    (fillEdge_seals_perimeter [2, 2, 2] 0 1 2 3 3 (by decide) (by decide) (by decide)
      (by decide) (by decide)).1,
    ((fillEdge_seals_perimeter [2, 2, 2] 0 1 2 3 3 (by decide) (by decide) (by decide)
      (by decide) (by decide)).2.2.1 (-2)).1⟩

/-! ## The callback of the constructor -/

theorem wallPoint_eq (d : Nat) (hd : d < 3) (c : List Int) (hc : 3 ≤ c.length) :
    wallPoint d c =
      ([4 * c.getD 0 0, 4 * c.getD 1 0, 4 * c.getD 2 0] : List Int).set d
        (4 * c.getD d 0 + 2) := by
  match c, hc with
  | c0 :: c1 :: c2 :: rest, _ =>
    interval_cases d <;> rfl

theorem wallPoint_triple (d : Nat) (hd : d < 3) (c : List Int) (hc : 3 ≤ c.length) :
    ([(wallPoint d c).getD 0 0, (wallPoint d c).getD 1 0, (wallPoint d c).getD 2 0] :
      List Int) = wallPoint d c := by
  rw [wallPoint_eq d hd c hc]
  interval_cases d <;> rfl

theorem createFace_square (pos : List Int)
    (hpos : ([pos.getD 0 0, pos.getD 1 0, pos.getD 2 0] : List Int) = pos)
    (direction : Nat) (hdir : direction < 3) (isFront isFacingOut : Bool) (p : Nat → ℚ) :
    Covers (facePositions (pos.getD 0 0) (pos.getD 1 0) (pos.getD 2 0) direction isFront
        (if isFacingOut then 1 else -1)) p ↔
      InSquare direction
        (pos.getD direction 0 +
          (if isFront then (if isFacingOut then 1 else -1) else -(if isFacingOut then 1 else -1)))
        pos p := by
  rw [facePositions_square _ _ _ direction hdir, hpos]

theorem createFaces_positions (pos : List Int) (direction : Nat) (isFacingOut : Bool)
    (w : MazeWalls) :
    (createFaces pos direction isFacingOut w).positions =
      w.positions ++
        facePositions (pos.getD 0 0) (pos.getD 1 0) (pos.getD 2 0) direction true
          (if isFacingOut then 1 else -1) ++
        facePositions (pos.getD 0 0) (pos.getD 1 0) (pos.getD 2 0) direction false
          (if isFacingOut then 1 else -1) := rfl

theorem createFaces_normals (pos : List Int) (direction : Nat) (isFacingOut : Bool)
    (w : MazeWalls) :
    (createFaces pos direction isFacingOut w).normals =
      w.normals ++ faceNormals direction 1 ++ faceNormals direction (-1) := rfl

theorem emitFaces_wall (d : Nat) (otherDims : List Nat) (c : List Int)
    (m : List Int → MazeWalls) :
    emitFaces d otherDims c true m (c.drop 3) =
      createFaces (wallPoint d c) d true (m (c.drop 3)) := by
  simp [emitFaces]

theorem emitFaces_open (d a b : Nat) (c : List Int) (m : List Int → MazeWalls) :
    emitFaces d [a, b] c false m (c.drop 3) =
      createFaces (wallPoint d c) b false
        (createFaces (wallPoint d c) a false (m (c.drop 3))) := by
  simp [emitFaces]

theorem emitFaces_other (d : Nat) (otherDims : List Nat) (c : List Int) (isWall : Bool)
    (m : List Int → MazeWalls) (k : List Int) (hk : k ≠ c.drop 3) :
    emitFaces d otherDims c isWall m k = m k := by
  unfold emitFaces
  cases isWall
  · simp only [Bool.false_eq_true, if_false]
    induction otherDims generalizing m with
    | nil => rfl
    | cons e rest ih =>
      rw [List.foldl_cons, ih, Function.update_noteq hk]
  · simp only [if_true]
    exact Function.update_noteq hk _ _

/-- C13: for every spatial dimension `d` with other axes `a` and `b` and every coordinate
`c` of at least three entries, with `P` the point four times the first three entries of
`c` plus 2 along `d`, the callback of the constructor changes only the cross-section of
the remaining entries of `c`. For a wall it appends exactly two faces of 18 numbers: the
square of side 2 around `P` on the plane `P[d] + 1`, with normals `+unit(d)`, then the
same square on the plane `P[d] - 1`, with normals `-unit(d)`. For no wall it appends
exactly four faces, none along `d`: for `e = a` and then for `e = b`, the square around
`P` on the plane `P[e] - 1` with normals `+unit(e)`, then the one on the plane `P[e] + 1`
with normals `-unit(e)`. -/
theorem emitFaces_rule (d a b : Nat) (hd : d < 3) (hab : otherDimsOf d = [a, b])
    (c : List Int) (hc : 3 ≤ c.length) (m : List Int → MazeWalls) :
    wallPoint d c =
        ([4 * c.getD 0 0, 4 * c.getD 1 0, 4 * c.getD 2 0] : List Int).set d
          (4 * c.getD d 0 + 2) ∧
      (∀ (isWall : Bool) (k : List Int), k ≠ c.drop 3 →
        emitFaces d (otherDimsOf d) c isWall m k = m k) ∧
      (∃ q1 q2 : List Int, q1.length = 18 ∧ q2.length = 18 ∧
        (emitFaces d (otherDimsOf d) c true m (c.drop 3)).positions =
          (m (c.drop 3)).positions ++ q1 ++ q2 ∧
        (emitFaces d (otherDimsOf d) c true m (c.drop 3)).normals =
          (m (c.drop 3)).normals ++ faceNormals d 1 ++ faceNormals d (-1) ∧
        ∀ p : Nat → ℚ,
          (Covers q1 p ↔ InSquare d ((wallPoint d c).getD d 0 + 1) (wallPoint d c) p) ∧
          (Covers q2 p ↔ InSquare d ((wallPoint d c).getD d 0 - 1) (wallPoint d c) p)) ∧
      (a ≠ d ∧ b ≠ d ∧ a ≠ b ∧ a < 3 ∧ b < 3 ∧
        ∃ q1 q2 q3 q4 : List Int,
          q1.length = 18 ∧ q2.length = 18 ∧ q3.length = 18 ∧ q4.length = 18 ∧
          (emitFaces d (otherDimsOf d) c false m (c.drop 3)).positions =
            (m (c.drop 3)).positions ++ q1 ++ q2 ++ q3 ++ q4 ∧
          (emitFaces d (otherDimsOf d) c false m (c.drop 3)).normals =
            (m (c.drop 3)).normals ++ faceNormals a 1 ++ faceNormals a (-1) ++
              faceNormals b 1 ++ faceNormals b (-1) ∧
          ∀ p : Nat → ℚ,
            (Covers q1 p ↔ InSquare a ((wallPoint d c).getD a 0 - 1) (wallPoint d c) p) ∧
            (Covers q2 p ↔ InSquare a ((wallPoint d c).getD a 0 + 1) (wallPoint d c) p) ∧
            (Covers q3 p ↔ InSquare b ((wallPoint d c).getD b 0 - 1) (wallPoint d c) p) ∧
            (Covers q4 p ↔ InSquare b ((wallPoint d c).getD b 0 + 1) (wallPoint d c) p)) := by
  have hP := wallPoint_triple d hd c hc
  have hdims : a ≠ d ∧ b ≠ d ∧ a ≠ b ∧ a < 3 ∧ b < 3 := by
    rcases otherDimsOf_cases d a b hd hab with ⟨rfl, rfl, rfl⟩ | ⟨rfl, rfl, rfl⟩ |
      ⟨rfl, rfl, rfl⟩ <;> decide
  obtain ⟨had, hbd, hne, ha, hb⟩ := hdims
  refine ⟨wallPoint_eq d hd c hc, fun isWall k hk => emitFaces_other d _ c isWall m k hk,
    ?_, had, hbd, hne, ha, hb, ?_⟩
  · refine ⟨facePositions ((wallPoint d c).getD 0 0) ((wallPoint d c).getD 1 0)
        ((wallPoint d c).getD 2 0) d true 1,
      facePositions ((wallPoint d c).getD 0 0) ((wallPoint d c).getD 1 0)
        ((wallPoint d c).getD 2 0) d false 1,
      facePositions_length _ _ _ d hd true 1, facePositions_length _ _ _ d hd false 1,
      ?_, ?_, fun p => ⟨?_, ?_⟩⟩
    · rw [emitFaces_wall, createFaces_positions]
      rfl
    · rw [emitFaces_wall, createFaces_normals]
    · exact createFace_square (wallPoint d c) hP d hd true true p
    · exact createFace_square (wallPoint d c) hP d hd false true p
  · refine ⟨facePositions ((wallPoint d c).getD 0 0) ((wallPoint d c).getD 1 0)
        ((wallPoint d c).getD 2 0) a true (-1),
      facePositions ((wallPoint d c).getD 0 0) ((wallPoint d c).getD 1 0)
        ((wallPoint d c).getD 2 0) a false (-1),
      facePositions ((wallPoint d c).getD 0 0) ((wallPoint d c).getD 1 0)
        ((wallPoint d c).getD 2 0) b true (-1),
      facePositions ((wallPoint d c).getD 0 0) ((wallPoint d c).getD 1 0)
        ((wallPoint d c).getD 2 0) b false (-1),
      facePositions_length _ _ _ a ha true (-1), facePositions_length _ _ _ a ha false (-1),
      facePositions_length _ _ _ b hb true (-1), facePositions_length _ _ _ b hb false (-1),
      ?_, ?_, fun p => ⟨?_, ?_, ?_, ?_⟩⟩
    · rw [hab, emitFaces_open, createFaces_positions, createFaces_positions]
      simp only [List.append_assoc]
      rfl
    · rw [hab, emitFaces_open, createFaces_normals, createFaces_normals]
    · exact createFace_square (wallPoint d c) hP a ha true false p
    · exact createFace_square (wallPoint d c) hP a ha false false p
    · exact createFace_square (wallPoint d c) hP b hb true false p
    · exact createFace_square (wallPoint d c) hP b hb false false p

theorem emitFaces_rule_witness :
    (0 : Nat) < 3 ∧ otherDimsOf 0 = [1, 2] ∧ 3 ≤ ([1, 0, 0] : List Int).length ∧
      wallPoint 0 [1, 0, 0] =
        ([4 * ([1, 0, 0] : List Int).getD 0 0, 4 * ([1, 0, 0] : List Int).getD 1 0,
          4 * ([1, 0, 0] : List Int).getD 2 0] : List Int).set 0
          (4 * ([1, 0, 0] : List Int).getD 0 0 + 2) ∧
      (emitFaces 0 (otherDimsOf 0) [1, 0, 0] true (fun _ => MazeWalls.empty) []).positions =
        [7, -1, 1, 7, -1, -1, 7, 1, 1, 7, 1, 1, 7, -1, -1, 7, 1, -1,
          5, -1, -1, 5, -1, 1, 5, 1, -1, 5, 1, -1, 5, -1, 1, 5, 1, 1] :=
  ⟨by decide, by decide, by decide,
    (emitFaces_rule 0 1 2 (by decide) (by decide) [1, 0, 0] (by decide)
      (fun _ => MazeWalls.empty)).1, by decide!⟩

/-! ## A restart -/

/-- C2 fails once the start button is pressed again: on the open 2x2x2 maze, `start`, a
frame looking along `+x` for one second, `start` again and a frame looking along `-x`
for one second form a run of the game; the second `start` puts the player in the cell
`[0, 0, 0]` with the offset still -1, where `isWall(-1, 0)` is true, and the last frame
wraps to the cell `[-1, 0, 0]`, outside the maze. -/
theorem restart_leaves_maze :
    ValidMaze [2, 2, 2] (openMaze [2, 2, 2]) ∧
      ReachableWithRestart [2, 2, 2] (openMaze [2, 2, 2]) demoEscaped.1 ∧
      demoMoved.1.gridPosition = [1, 0, 0] ∧ demoMoved.1.motion.offset = -1 ∧
      demoRestarted.gridPosition = [0, 0, 0] ∧ demoRestarted.motion.offset = -1 ∧
      isWall demoRestarted (-1) 0 = true ∧
      updatePosition true frameBack demoRestarted = some demoEscaped ∧
      demoEscaped.1.gridPosition = [-1, 0, 0] ∧
      demoEscaped.1.gridPosition.getD 0 0 < 0 ∧
      ¬ InMaze [2, 2, 2] demoEscaped.1.gridPosition := by
  refine ⟨validMaze_222, ?_, by decide!, by decide!, by decide!, by decide!, by decide!,
    demoRestarted_frame, by decide!, by decide!, ?_⟩
  · exact ReachableWithRestart.step demoRestarted _
      (ReachableWithRestart.restart _
        (ReachableWithRestart.step demoStart _ ReachableWithRestart.start
          (Step.frame frameForward demoStart _ demoMoved.2 (by decide!) demoStart_frame)))
      (Step.frame frameBack demoRestarted _ demoEscaped.2 (by decide!) demoRestarted_frame)
  · intro h
    exact absurd (h.2 0 (by decide)).1 (by decide!)

/-! ## Doubles -/

/-- C4 fails as stated on the doubles of the code: on the open 2x2x2 maze with axis 0
locked, `move(1.1)` from an offset of 0 leaves the double nearest to 1.1; then in
`move(0.9)` the sum of the two doubles, which is 2 plus the power -53 of 2, is rounded
to 2, so no loop runs, no stop fires and the player stays in the cell `[0, 0, 0]`:
`4 * gridPosition[0] + offset` is 2 after the call and not its value before plus the
distance. With exact sums the same call wraps into the cell `[1, 0, 0]`. -/
theorem rounded_move_loses_distance :
    demoDouble.motion.dim = some 0 ∧ 0 < demoDouble.gridPosition.length ∧
      (moveDouble 4 (roundDouble (11 / 10)) demoLocked).map
          (fun r => (r.1.motion.offset, r.1.motion.dim, r.1.gridPosition, r.2)) =
        some (demoDouble.motion.offset, some 0, [0, 0, 0], [Event.exit]) ∧
      demoDouble.motion.offset = 2476979795053773 / 2251799813685248 ∧
      roundDouble (9 / 10) = 8106479329266893 / 9007199254740992 ∧
      (moveDouble 4 (roundDouble (9 / 10)) demoDouble).map
          (fun r => (r.1.motion.offset, r.1.gridPosition, r.2)) =
        some (2, [0, 0, 0], []) ∧
      (moveDouble 4 (roundDouble (9 / 10)) demoDouble).map
          (fun r => 4 * (r.1.gridPosition.getD 0 0 : ℚ) + r.1.motion.offset) = some 2 ∧
      4 * (demoDouble.gridPosition.getD 0 0 : ℚ) + demoDouble.motion.offset +
          roundDouble (9 / 10) = 2 + 1 / 9007199254740992 ∧
      (2 : ℚ) ≠ 2 + 1 / 9007199254740992 ∧
      (move (roundDouble (9 / 10)) demoDouble).1.gridPosition = [1, 0, 0] ∧
      (move (roundDouble (9 / 10)) demoDouble).2 = [Event.cross [0, 0, 0] (some 0) 1] := by
  refine ⟨by decide!, by decide!, by decide!, by decide!, by decide!, by decide!, by decide!,
    by decide!, by decide!, by decide!, by decide!⟩

end Maze3D
